import Mathlib

/-!
# Multi-API-Research: research-session handlers and content normalisation

A shallow embedding of the parts of the backend that the specification talks about:

* `Backend/server/routes/chats.js`: `cleanResearchContent` and the two session handlers
  (`research-topic`, `clarification-answer`);
* `Backend/server/routes/email.js`: the `send-email` route up to its call of
  `sendCombinedResearchReportSendGrid`, and the `combinedMarkdown` template of
  `Backend/server/services/emailService.js`.

JavaScript strings are modelled as sequences of Unicode characters (`List Char` inside the
regular-expression matcher, `String` at the surface); strings with unpaired surrogates are
outside the model.  The patterns of the source only ever split a text at characters of the
basic plane, so matching by character and matching by UTF-16 code unit give the same result.
The regular expressions of the source are kept as abstract syntax trees and run by a
backtracking matcher that follows the matcher semantics of ECMA-262 (continuation passing,
greedy and lazy quantifiers, capture groups, lookahead, the `g`, `i`, `m` and `s` flags).
Values that a route receives from the request, the store or a provider are typed: a text that
may be absent is an `Option String`, `questionIndex` and `totalQuestions` are integers.
-/

namespace JS

/-! ## Character classes of ECMAScript -/

/-- LineTerminator of ECMA-262: LF, CR, LS, PS. -/
def isLineTerminator (c : Char) : Bool :=
  c.toNat == 10 || c.toNat == 13 || c.toNat == 0x2028 || c.toNat == 0x2029

/-- The characters matched by `\s` and removed by `String.prototype.trim`:
WhiteSpace and LineTerminator of ECMA-262. -/
def isSpace (c : Char) : Bool :=
  let n := c.toNat
  n == 9 || n == 10 || n == 11 || n == 12 || n == 13 || n == 32 || n == 0xA0 || n == 0x1680 ||
  (0x2000 ≤ n && n ≤ 0x200A) || n == 0x2028 || n == 0x2029 || n == 0x202F || n == 0x205F ||
  n == 0x3000 || n == 0xFEFF

/-- The characters matched by `\d`. -/
def isDigit (c : Char) : Bool :=
  48 ≤ c.toNat && c.toNat ≤ 57

/-- Upper-case partner of an ASCII letter, every other character unchanged. -/
def upperAscii (c : Char) : Char :=
  if 97 ≤ c.toNat && c.toNat ≤ 122 then Char.ofNat (c.toNat - 32) else c

/-- Lower-case partner of an ASCII letter, every other character unchanged. -/
def lowerAscii (c : Char) : Char :=
  if 65 ≤ c.toNat && c.toNat ≤ 90 then Char.ofNat (c.toNat + 32) else c

/-- The flags of a regular expression literal. -/
structure Flags where
  g : Bool := false
  i : Bool := false
  m : Bool := false
  s : Bool := false

/-- Canonicalize of ECMA-262 (non-unicode mode).  Every pattern of this program is written with
ASCII characters and the classes `\s`, `\d`; for those, case-insensitive comparison is exactly
ASCII case folding, because Canonicalize never maps a non-ASCII character to an ASCII one. -/
def canon (fl : Flags) (c : Char) : Char :=
  if fl.i then upperAscii c else c

/-- One member of a bracketed character class. -/
inductive ClassItem where
  | ch (c : Char)
  | range (lo hi : Char)
  | space
  | notSpace
  | digit

/-- Does the class member accept the character (under the flags)? -/
def ClassItem.accepts (fl : Flags) (c : Char) : ClassItem → Bool
  | .ch a => canon fl a == canon fl c
  | .range lo hi =>
      (lo.toNat ≤ c.toNat && c.toNat ≤ hi.toNat) ||
      (fl.i && ((lo.toNat ≤ (upperAscii c).toNat && (upperAscii c).toNat ≤ hi.toNat) ||
                (lo.toNat ≤ (lowerAscii c).toNat && (lowerAscii c).toNat ≤ hi.toNat)))
  | .space => isSpace c
  | .notSpace => !isSpace c
  | .digit => isDigit c

/-! ## Patterns -/

/-- Abstract syntax of the regular expressions used by the program. -/
inductive Re where
  /-- the empty pattern -/
  | eps
  /-- a literal character -/
  | chr (c : Char)
  /-- `.` -/
  | dot
  /-- `[...]` (`neg = false`) or `[^...]` (`neg = true`) -/
  | cls (neg : Bool) (items : List ClassItem)
  /-- `^` -/
  | bol
  /-- `$` -/
  | eol
  /-- concatenation -/
  | seq (a b : Re)
  /-- `a|b` -/
  | alt (a b : Re)
  /-- a quantifier: `min` to `max` repetitions (`none` is unbounded), greedy or lazy -/
  | rep (greedy : Bool) (min : Nat) (max : Option Nat) (r : Re)
  /-- capture group number `i` -/
  | grp (i : Nat) (r : Re)
  /-- `(?=r)` (`neg = false`) or `(?!r)` (`neg = true`) -/
  | look (neg : Bool) (r : Re)

namespace Re

/-- A literal run of characters. -/
def lits : List Char → Re
  | [] => eps
  | [c] => chr c
  | c :: cs => seq (chr c) (lits cs)

/-- A literal string. -/
def lit (s : String) : Re := lits s.data

/-- Concatenation of a list of patterns. -/
def cat : List Re → Re
  | [] => eps
  | [r] => r
  | r :: rs => seq r (cat rs)

/-- Alternation of a list of patterns. -/
def alts : List Re → Re
  | [] => eps
  | [r] => r
  | r :: rs => alt r (alts rs)

/-- Greedy `r*`. -/
def star (r : Re) : Re := rep true 0 none r
/-- Greedy `r+`. -/
def plus (r : Re) : Re := rep true 1 none r
/-- Greedy `r?`. -/
def opt (r : Re) : Re := rep true 0 (some 1) r
/-- Lazy `r*?`. -/
def lazyStar (r : Re) : Re := rep false 0 none r
/-- `\s`. -/
def ws : Re := cls false [.space]
/-- `\d`. -/
def digit : Re := cls false [.digit]

/-- The capture groups that occur in a pattern. -/
def groups : Re → List Nat
  | eps | chr _ | dot | cls _ _ | bol | eol => []
  | seq a b => groups a ++ groups b
  | alt a b => groups a ++ groups b
  | rep _ _ _ r => groups r
  | grp i r => i :: groups r
  | look _ r => groups r

/-- Does every match of the pattern have to start with the character `a`? (A syntactic
check, used for patterns that start with a literal character.) -/
def startsWith (a : Char) : Re → Bool
  | chr c => c == a
  | seq r _ => startsWith a r
  | alt r s => startsWith a r && startsWith a s
  | grp _ r => startsWith a r
  | rep _ min max r => min != 0 && max != some 0 && startsWith a r
  | _ => false

end Re

/-! ## The matcher -/

/-- A match state: the character before the current position (`none` at the start of the
input), the input from the current position on, and the captures. -/
structure MState where
  prev : Option Char
  rest : List Char
  caps : Nat → Option (List Char)

/-- Continuations and matchers as in ECMA-262. -/
abbrev Cont := MState → Option MState
/-- A matcher takes a state and a continuation. -/
abbrev Matcher := MState → Cont → Option MState

/-- Captures of the listed groups are reset to undefined. -/
def resetCaps (gs : List Nat) (caps : Nat → Option (List Char)) : Nat → Option (List Char) :=
  fun i => if gs.contains i then none else caps i

/-- What was consumed between state `x` and the later state `y`. -/
def consumed (x y : MState) : List Char :=
  x.rest.take (x.rest.length - y.rest.length)

/-- RepeatMatcher of ECMA-262.  `fuel` bounds the number of iterations: an iteration either
lowers a positive `min` or (when `min = 0`) must consume a character, so
`min + x.rest.length + 1` iterations are never exceeded. -/
def repeatM (m : Matcher) (gs : List Nat) (greedy : Bool) :
    Nat → Nat → Option Nat → MState → Cont → Option MState
  | 0, _, _, _, _ => none
  | fuel + 1, min, max, x, c =>
    if max == some 0 then c x else
    let d : Cont := fun y =>
      if min == 0 && y.rest.length == x.rest.length then none
      else repeatM m gs greedy fuel (min - 1) (max.map (· - 1)) y c
    let xr : MState := { x with caps := resetCaps gs x.caps }
    if min != 0 then m xr d
    else if greedy then
      match m xr d with
      | some z => some z
      | none => c x
    else
      match c x with
      | some z => some z
      | none => m xr d

/-- The matcher of a pattern (CompileSubpattern / CompileAtom of ECMA-262). -/
def compile (fl : Flags) : Re → Matcher
  | .eps => fun x c => c x
  | .chr a => fun x c =>
      match x.rest with
      | [] => none
      | d :: ds => if canon fl a == canon fl d then c { x with prev := some d, rest := ds } else none
  | .dot => fun x c =>
      match x.rest with
      | [] => none
      | d :: ds =>
        if fl.s || !isLineTerminator d then c { x with prev := some d, rest := ds } else none
  | .cls neg items => fun x c =>
      match x.rest with
      | [] => none
      | d :: ds =>
        if (items.any (ClassItem.accepts fl d)) != neg then
          c { x with prev := some d, rest := ds }
        else none
  | .bol => fun x c =>
      match x.prev with
      | none => c x
      | some p => if fl.m && isLineTerminator p then c x else none
  | .eol => fun x c =>
      match x.rest with
      | [] => c x
      | d :: _ => if fl.m && isLineTerminator d then c x else none
  | .seq a b => fun x c => compile fl a x (fun y => compile fl b y c)
  | .alt a b => fun x c =>
      match compile fl a x c with
      | some z => some z
      | none => compile fl b x c
  | .rep greedy min max r => fun x c =>
      repeatM (compile fl r) r.groups greedy (min + x.rest.length + 1) min max x c
  | .grp i r => fun x c =>
      compile fl r x (fun y =>
        c { y with caps := fun j => if j == i then some (consumed x y) else y.caps j })
  | .look neg r => fun x c =>
      match compile fl r x some with
      | some y => if neg then none else c { x with caps := y.caps }
      | none => if neg then c x else none

/-- Every character still to be read and every captured character satisfies `P`. -/
def MState.All (P : Char → Prop) (x : MState) : Prop :=
  (∀ c ∈ x.rest, P c) ∧ (∀ i s, x.caps i = some s → ∀ c ∈ s, P c)

/-! ## `String.prototype.replace` with a regular expression -/

/-- One piece of a replacement template: literal text or `$n`. -/
inductive TItem where
  | text (s : String)
  | group (n : Nat)

/-- GetSubstitution: `$n` is the capture, or the empty string when the group is undefined. -/
def expand (caps : Nat → Option (List Char)) : List TItem → List Char
  | [] => []
  | .text s :: t => s.data ++ expand caps t
  | .group n :: t => (caps n).getD [] ++ expand caps t

/-- The literal text of a replacement template. -/
def tplText : List TItem → List Char
  | [] => []
  | .text s :: t => s.data ++ tplText t
  | .group _ :: t => tplText t

/-- A match attempt at one position. -/
def matchAt (fl : Flags) (r : Re) (prev : Option Char) (rest : List Char) : Option MState :=
  compile fl r { prev := prev, rest := rest, caps := fun _ => none } some

/-- The scan of `replace`: walks the input once.  `skip` counts the characters of the input that
still belong to the match just replaced; `live` is false once a non-global pattern has replaced
its first match.  An empty match is replaced and the scan moves on by one character
(AdvanceStringIndex). -/
def replaceScan (fl : Flags) (r : Re) (tpl : List TItem) :
    Bool → Nat → Option Char → List Char → List Char
  | live, _, prev, [] =>
      if live then
        match matchAt fl r prev [] with
        | some y => expand y.caps tpl
        | none => []
      else []
  | live, skip + 1, _, c :: cs => replaceScan fl r tpl live skip (some c) cs
  | false, 0, _, c :: cs => c :: replaceScan fl r tpl false 0 (some c) cs
  | true, 0, prev, c :: cs =>
      match matchAt fl r prev (c :: cs) with
      | some y =>
          let n := (c :: cs).length - y.rest.length
          expand y.caps tpl ++
            (if n == 0 then c :: replaceScan fl r tpl fl.g 0 (some c) cs
             else replaceScan fl r tpl fl.g (n - 1) (some c) cs)
      | none => c :: replaceScan fl r tpl true 0 (some c) cs

/-- The result of `s.replace(/r/flags, tpl)` on character lists. -/
def replaceL (fl : Flags) (r : Re) (tpl : List TItem) (s : List Char) : List Char :=
  replaceScan fl r tpl true 0 none s

/-- The result of `String.prototype.trim` on character lists. -/
def trimL (s : List Char) : List Char :=
  ((s.dropWhile isSpace).reverse.dropWhile isSpace).reverse

end JS

/-! ## `routes/chats.js`: `cleanResearchContent` -/

namespace Chats

open JS JS.Re

/-- One `.replace(pattern, replacement)` call of a chain. -/
structure Step where
  fl : Flags
  re : Re
  tpl : List TItem

/-- Run one replacement. -/
def Step.run (st : Step) (s : List Char) : List Char :=
  replaceL st.fl st.re st.tpl s

/-- The replacement is case-sensitive and its pattern has to start with an asterisk. -/
def Step.needsStar (st : Step) : Bool :=
  !st.fl.i && st.re.startsWith '*'

/-- Run a chain of replacements from left to right. -/
def runSteps (steps : List Step) (s : List Char) : List Char :=
  steps.foldl (fun acc st => st.run acc) s

/-- Flags `g`. -/
def fG : Flags := { g := true }
/-- Flags `gi`. -/
def fGI : Flags := { g := true, i := true }
/-- Flags `gm`. -/
def fGM : Flags := { g := true, m := true }
/-- Flags `gmi`. -/
def fGMI : Flags := { g := true, m := true, i := true }
/-- Flags `gis`. -/
def fGIS : Flags := { g := true, i := true, s := true }
/-- Flags `gims`. -/
def fGIMS : Flags := { g := true, i := true, m := true, s := true }

/-- The pattern text `^#+\s*`. -/
def headingStart : Re := cat [bol, plus (chr '#'), star ws]

/-- The pattern text `[\s\n]*`. -/
def wsNlStar : Re := star (cls false [.space, .ch '\n'])

/-- The class `[A-Z]`. -/
def capital : Re := cls false [.range 'A' 'Z']

/-- The class `[^*]`. -/
def notStar : Re := cls true [.ch '*']

/-- The class `[^*\n]`. -/
def notStarNl : Re := cls true [.ch '*', .ch '\n']

/-- The alternatives of a provider label after the first one; the pattern text `after` is
appended to the last of them. -/
def spliceLast (after : Re) : Re → List Re → Re
  | b, [] => seq b after
  | b, c :: rest => alt b (spliceLast after c rest)

/-- The pattern built by a template literal that splices the provider label between the pattern
texts `before` and `after`.  A provider label is given by its top-level alternatives (the label
`ChatGPT|OpenAI` has two).  Because `|` binds weaker than concatenation, `before` belongs to the
first alternative only and `after` to the last alternative only. -/
def splice (before : Re) (after : Re) : List Re → Re
  | [] => seq before after
  | [a] => seq before (seq a after)
  | a :: b :: rest => alt (seq before a) (spliceLast after b rest)

/-- The label `'ChatGPT|OpenAI'` passed by the clarification-answer handler. -/
def chatgptLabel : List Re := [lit "ChatGPT", lit "OpenAI"]

/-- The label `'Gemini|Google'` passed by the clarification-answer handler. -/
def geminiLabel : List Re := [lit "Gemini", lit "Google"]

/-- Lines 16-19 of `chats.js`: duplicate provider headers and variations. -/
def headerSteps (provider : List Re) : List Step :=
  [ -- new RegExp(`^#+\\s*${provider}[\\s\\n]*Research[\\s\\n]*`, 'gmi') -> ''
    ⟨fGMI, splice headingStart (cat [wsNlStar, lit "Research", wsNlStar]) provider, []⟩,
    -- new RegExp(`^#+\\s*${provider}[\\s\\n]*`, 'gmi') -> ''
    ⟨fGMI, splice headingStart wsNlStar provider, []⟩,
    -- /^#+\s*Research\s*Page:?\s*/gmi -> ''
    ⟨fGMI, cat [headingStart, lit "Research", star ws, lit "Page", opt (chr ':'), star ws], []⟩,
    -- /^#+\s*Comparative\s*Analysis\s*/gmi -> ''
    ⟨fGMI, cat [headingStart, lit "Comparative", star ws, lit "Analysis", star ws], []⟩ ]

/-- Lines 21-32 of `chats.js`: preambles, clarifying-question and methodology sections,
numbered question lists. -/
def sectionSteps : List Step :=
  [ -- /^I'd like to help you.*?comprehensive research (?:for you|plan for you)\.?\s*/gis
    ⟨fGIS, cat [bol, lit "I'd like to help you", lazyStar dot, lit "comprehensive research ",
        alt (lit "for you") (lit "plan for you"), opt (chr '.'), star ws], []⟩,
    -- /^I'd like to help you.*?Please answer.*?one by one.*?\.?\s*/gis
    ⟨fGIS, cat [bol, lit "I'd like to help you", lazyStar dot, lit "Please answer", lazyStar dot,
        lit "one by one", lazyStar dot, opt (chr '.'), star ws], []⟩,
    -- /^#+\s*Clarifying Questions.*?(?=^#+\s*[A-Z]|\n\n[A-Z])/gims
    ⟨fGIMS, cat [headingStart, lit "Clarifying Questions", lazyStar dot,
        look false (alt (cat [headingStart, capital]) (cat [lit "\n\n", capital]))], []⟩,
    -- /To provide you with.*?I have.*?questions:?\s*/gi
    ⟨fGI, cat [lit "To provide you with", lazyStar dot, lit "I have", lazyStar dot,
        lit "questions", opt (chr ':'), star ws], []⟩,
    -- /Please answer.*?questions.*?one by one.*?\./gi
    ⟨fGI, cat [lit "Please answer", lazyStar dot, lit "questions", lazyStar dot,
        lit "one by one", lazyStar dot, chr '.'], []⟩,
    -- /^#+\s*Proposed Methodology.*?(?=^#+\s*[A-Z])/gims
    ⟨fGIMS, cat [headingStart, lit "Proposed Methodology", lazyStar dot,
        look false (cat [headingStart, capital])], []⟩,
    -- /^#+\s*Research Methodology.*?(?=^#+\s*[A-Z])/gims
    ⟨fGIMS, cat [headingStart, lit "Research Methodology", lazyStar dot,
        look false (cat [headingStart, capital])], []⟩,
    -- /^#+\s*Suggested Research Methods?.*?(?=^#+\s*[A-Z])/gims
    ⟨fGIMS, cat [headingStart, lit "Suggested Research Method", opt (chr 's'), lazyStar dot,
        look false (cat [headingStart, capital])], []⟩,
    -- /\n\d+\.\s+(?:Which|What|How|Are|Do|Does|Is|Can|Should|Would|Will)[^\n]+\?/g
    ⟨fG, cat [chr '\n', plus digit, chr '.', plus ws,
        alts [lit "Which", lit "What", lit "How", lit "Are", lit "Do", lit "Does", lit "Is",
              lit "Can", lit "Should", lit "Would", lit "Will"],
        plus (cls true [.ch '\n']), chr '?'], []⟩ ]

/-- Lines 34-46 of `chats.js`: the three passes that remove markdown emphasis. -/
def emphasisSteps : List Step :=
  [ -- /\*\*\*([^*]+)\*\*\*/g -> '$1'
    ⟨fG, cat [lit "***", grp 1 (plus notStar), lit "***"], [.group 1]⟩,
    -- /\*\*([^*]+)\*\*/g -> '$1'
    ⟨fG, cat [lit "**", grp 1 (plus notStar), lit "**"], [.group 1]⟩,
    -- /\*\*([^*\n]+)\*\*/g -> '$1'
    ⟨fG, cat [lit "**", grp 1 (plus notStarNl), lit "**"], [.group 1]⟩,
    -- /\*\*([^*\n]*?)\*\*/g -> '$1'
    ⟨fG, cat [lit "**", grp 1 (lazyStar notStarNl), lit "**"], [.group 1]⟩,
    -- /\*\*([^*]*?)\*\*/g -> '$1'
    ⟨fG, cat [lit "**", grp 1 (lazyStar notStar), lit "**"], [.group 1]⟩,
    -- /\*([^*]+)\*/g -> '$1'
    ⟨fG, cat [chr '*', grp 1 (plus notStar), chr '*'], [.group 1]⟩,
    -- /\*\*/g -> ''
    ⟨fG, lit "**", []⟩,
    -- /\*/g -> ''
    ⟨fG, chr '*', []⟩,
    -- second pass: /\*\*([^*]+)\*\*/g -> '$1'
    ⟨fG, cat [lit "**", grp 1 (plus notStar), lit "**"], [.group 1]⟩,
    -- /\*\*/g -> ''
    ⟨fG, lit "**", []⟩,
    -- third pass: /\*+([^*\n]+)\*+/g -> '$1'
    ⟨fG, cat [plus (chr '*'), grp 1 (plus notStarNl), plus (chr '*')], [.group 1]⟩ ]

/-- Lines 48-55 of `chats.js`: links, blank lines, numbered lists, trailing blanks. -/
def tidySteps : List Step :=
  [ -- /\[([^\]]+)\]\(([^)]+)\)/g -> '$1 ($2)'
    ⟨fG, cat [chr '[', grp 1 (plus (cls true [.ch ']'])), chr ']', chr '(',
        grp 2 (plus (cls true [.ch ')'])), chr ')'],
      [.group 1, .text " (", .group 2, .text ")"]⟩,
    -- /\n{3,}/g -> '\n\n'
    ⟨fG, rep true 3 none (chr '\n'), [.text "\n\n"]⟩,
    -- /^\d+\)\s*/gm -> '- '
    ⟨fGM, cat [bol, plus digit, chr ')', star ws], [.text "- "]⟩,
    -- /^\d+\.\s*/gm -> '- '
    ⟨fGM, cat [bol, plus digit, chr '.', star ws], [.text "- "]⟩,
    -- /[ \t]+$/gm -> ''
    ⟨fGM, cat [plus (cls false [.ch ' ', .ch '\t']), eol], []⟩ ]

/-- The whole chain of `cleanResearchContent` on a non-empty content, before `.trim()`. -/
def cleanSteps (provider : List Re) : List Step :=
  headerSteps provider ++ sectionSteps ++ emphasisSteps ++ tidySteps

/-- `cleanResearchContent(content, provider)` of `routes/chats.js`.  `content` is `none` for
`null`/`undefined`; a provider label is given by the top-level alternatives of its pattern
text. -/
def cleanResearchContent (content : Option String) (provider : List Re) : String :=
  match content with
  | none => ""
  | some s =>
    if s.data.isEmpty then ""
    else String.mk (trimL (runSteps (cleanSteps provider) s.data))

end Chats

/-! ## The persistence collaborator (`database/queries.js`) -/

namespace Db

/-- A row of the chats table, with the fields the routes read. -/
structure Chat where
  id : Nat
  user_id : Nat
  title : String
  is_completed : Bool
  has_error : Bool

/-- A row of the messages table; `content` is `none` for a null content. -/
structure Message where
  chat_id : Nat
  content : Option String
  is_user : Bool

/-- A row of the users table, with the fields the routes read. -/
structure User where
  id : Nat
  email : Option String
  is_premium : Bool

/-- The stored records. -/
structure Store where
  chats : List Chat
  messages : List Message
  users : List User

end Db

namespace chatQueries

/-- Modelled from the spec: `chatQueries.findById` of the missing `database/queries.js`
("find" for sessions); `none` is the `null` answer for an unknown id. -/
def findById (st : Db.Store) (chatId : Nat) : Option Db.Chat :=
  st.chats.find? (fun c => c.id == chatId)

/-- Modelled from the spec: `chatQueries.updateTitle` of the missing `database/queries.js`
("update-title" for sessions). -/
def updateTitle (st : Db.Store) (chatId : Nat) (title : String) : Db.Store :=
  { st with chats := st.chats.map (fun c => if c.id == chatId then { c with title := title } else c) }

/-- Modelled from the spec: `chatQueries.markAsCompleted` of the missing `database/queries.js`
("mark-completed" for sessions). -/
def markAsCompleted (st : Db.Store) (chatId : Nat) : Db.Store :=
  { st with chats :=
      st.chats.map (fun c => if c.id == chatId then { c with is_completed := true } else c) }

/-- Modelled from the spec: `chatQueries.markAsError` of the missing `database/queries.js`
("mark-errored" for sessions). -/
def markAsError (st : Db.Store) (chatId : Nat) : Db.Store :=
  { st with chats :=
      st.chats.map (fun c => if c.id == chatId then { c with has_error := true } else c) }

end chatQueries

namespace messageQueries

/-- Modelled from the spec: `messageQueries.create` of the missing `database/queries.js`
("append" for turns, each turn tagged user-or-assistant). -/
def create (st : Db.Store) (chatId : Nat) (content : Option String) (isUser : Bool) : Db.Store :=
  { st with messages := st.messages ++ [⟨chatId, content, isUser⟩] }

/-- Modelled from the spec: `messageQueries.findByChatId` of the missing `database/queries.js`
("list" for turns, ordered). -/
def findByChatId (st : Db.Store) (chatId : Nat) : List Db.Message :=
  st.messages.filter (fun m => m.chat_id == chatId)

end messageQueries

namespace userQueries

/-- Modelled from the spec: `userQueries.findById` of the missing `database/queries.js`
("find" for users). -/
def findById (st : Db.Store) (userId : Nat) : Option Db.User :=
  st.users.find? (fun u => u.id == userId)

end userQueries

/-! ## `routes/chats.js`: the session handlers -/

namespace Chats

open JS

/-- A provider call either returns a value or rejects with an exception. -/
inductive Outcome (α : Type) where
  | returned (a : α)
  | threw

/-- The object returned by `OpenAIService.generateTitleAndQuestions`. -/
structure TitleResult where
  success : Bool
  title : String
  questions : List String

/-- The object returned by the two `generateResearchPage` operations; `researchPage` is `none`
when the field is absent. -/
structure PageResult where
  success : Bool
  researchPage : Option String

/-- The arguments of a `generateResearchPage` call, as taken from the request body. -/
structure ResearchArgs where
  originalTopic : Option String
  questions : Option (List String)
  answers : Option (List String)

/-- The provider services as seen by the routes. -/
structure Providers where
  generateTitleAndQuestions : Option String → Outcome TitleResult
  openaiResearchPage : ResearchArgs → Outcome PageResult
  geminiResearchPage : ResearchArgs → Outcome PageResult

/-- A call issued to a provider service. -/
inductive ProviderCall where
  | titleAndQuestions (topic : Option String)
  | openaiResearch (args : ResearchArgs)
  | geminiResearch (args : ResearchArgs)

/-- A value of a JSON response body. -/
inductive JVal where
  | null
  | bool (b : Bool)
  | str (s : String)
  | strs (l : List String)
  deriving DecidableEq

/-- An HTTP response: status code and the fields of the JSON body, in order. -/
structure Response where
  status : Nat
  body : List (String × JVal)
  deriving DecidableEq

/-- What a handler did: its response, the store afterwards, the provider calls it issued. -/
structure Result where
  response : Response
  store : Db.Store
  calls : List ProviderCall

/-- The 404 response of both handlers. -/
def notFound : Response :=
  ⟨404, [("success", .bool false), ("error", .str "Chat not found")]⟩

/-- The 400 response of both handlers for a completed or errored chat. -/
def closedResponse : Response :=
  ⟨400, [("success", .bool false),
         ("error", .str "This chat is completed or has an error. Please start a new chat.")]⟩

/-- The fixed apology of both handlers. -/
def apology : String := "I'm not able to find the answer right now. Please try again."

/-- The fixed acknowledgment of the clarification-answer handler. -/
def acknowledgment : String := "Thank you for your answer. Please answer the next question."

/-- The text of the assistant turn that lists the clarifying questions
(`questions.map((q, i) => ...).join("\n\n")` between the two fixed sentences). -/
def questionsText (questions : List String) : String :=
  "I'd like to help you refine your research topic. To provide you with the most relevant research guidance, I have a few clarifying questions:\n\n" ++
  "\n\n".intercalate (questions.enum.map (fun p => toString (p.1 + 1) ++ ". " ++ p.2)) ++
  "\n\nPlease answer these questions one by one, and I'll do a comprehensive research for you."

/-- The handler of `POST /:chatId/research-topic`. -/
def researchTopic (P : Providers) (st : Db.Store) (userId chatId : Nat)
    (message : Option String) : Result :=
  match chatQueries.findById st chatId with
  | none => ⟨notFound, st, []⟩
  | some chat =>
    if chat.user_id != userId then ⟨notFound, st, []⟩
    else if chat.is_completed || chat.has_error then ⟨closedResponse, st, []⟩
    else
      let st1 := messageQueries.create st chatId message true
      let calls := [ProviderCall.titleAndQuestions message]
      match P.generateTitleAndQuestions message with
      | .threw =>
          ⟨⟨500, [("success", .bool false), ("error", .str "Failed to process research topic")]⟩,
           st1, calls⟩
      | .returned result =>
        if result.success then
          let st2 := chatQueries.updateTitle st1 chatId result.title
          let responseText := questionsText result.questions
          let st3 := messageQueries.create st2 chatId (some responseText) false
          ⟨⟨200, [("success", .bool true), ("response", .str responseText),
                  ("messageType", .str "clarifying_questions"),
                  ("questions", .strs result.questions), ("title", .str result.title)]⟩,
           st3, calls⟩
        else
          let st2 := messageQueries.create st1 chatId (some apology) false
          let st3 := chatQueries.markAsError st2 chatId
          ⟨⟨200, [("success", .bool true), ("response", .str apology),
                  ("title", .str "Research Topic...")]⟩,
           st3, calls⟩

/-- The three extra passes that the clarification-answer handler applies to the cleaned Gemini
text (lines 233-250 of `chats.js`), before its `.trim()`. -/
def geminiExtraSteps : List Step :=
  [ -- pass 1
    ⟨fG, Re.cat [Re.lit "***", .grp 1 (Re.plus notStar), Re.lit "***"], [.group 1]⟩,
    ⟨fG, Re.cat [Re.lit "**", .grp 1 (Re.plus notStar), Re.lit "**"], [.group 1]⟩,
    ⟨fG, Re.cat [.chr '*', .grp 1 (Re.plus notStar), .chr '*'], [.group 1]⟩,
    ⟨fG, Re.lit "**", []⟩,
    ⟨fG, .chr '*', []⟩,
    -- pass 2
    ⟨fG, Re.cat [Re.lit "**", .grp 1 (Re.lazyStar notStarNl), Re.lit "**"], [.group 1]⟩,
    ⟨fG, Re.cat [Re.lit "**", .grp 1 (Re.lazyStar notStar), Re.lit "**"], [.group 1]⟩,
    ⟨fG, Re.cat [Re.plus (.chr '*'), .grp 1 (Re.plus notStarNl), Re.plus (.chr '*')], [.group 1]⟩,
    ⟨fG, Re.plus (.chr '*'), []⟩,
    -- pass 3
    ⟨fG, Re.lit "**", []⟩,
    ⟨fG, .chr '*', []⟩ ]

/-- `finalGemini` of the clarification-answer handler: `none` is `null`. -/
def finalGemini (geminiResult : PageResult) : Option String :=
  let cleanedGemini : Option String :=
    match geminiResult.success, geminiResult.researchPage with
    | true, some page =>
        if page.data.isEmpty then none else some (cleanResearchContent (some page) geminiLabel)
    | _, _ => none
  match cleanedGemini with
  | none => none
  | some cleaned =>
    if cleaned.data.isEmpty then some cleaned
    else some (String.mk (trimL (runSteps geminiExtraSteps cleaned.data)))

/-- The labeled primary document. -/
def openaiLabeled (researchResult : PageResult) : String :=
  "# ChatGPT (OpenAI) Research\n\n" ++
    cleanResearchContent researchResult.researchPage chatgptLabel

/-- The labeled secondary document, `none` when there is none. -/
def geminiLabeled (geminiResult : PageResult) : Option String :=
  match finalGemini geminiResult with
  | none => none
  | some fin => if fin.data.isEmpty then none else some ("# Gemini (Google) Research\n\n" ++ fin)

/-- The results of the concurrent dispatch `Promise.all([openai, gemini.catch(...)])` inside
its `try`: a rejection of the Gemini call becomes a declared failure, a rejection of the OpenAI
call rejects the whole dispatch and both results keep their initial value
`{ success: false }`. -/
def dispatch (P : Providers) (args : ResearchArgs) : PageResult × PageResult :=
  let gemini : PageResult :=
    match P.geminiResearchPage args with
    | .returned r => r
    | .threw => ⟨false, none⟩
  match P.openaiResearchPage args with
  | .returned r => (r, gemini)
  | .threw => (⟨false, none⟩, ⟨false, none⟩)

/-- The body of a clarification-answer request; `questionIndex` and `totalQuestions` are
integer-valued JSON numbers.  The handler's `totalQuestions - 1` is taken exactly, which is what
the code computes for safe integers (`JS.isSafeInteger`); on larger doubles the subtraction
rounds, and the statements about the non-final branch are made for safe integers only. -/
structure AnswerBody where
  message : Option String
  questionIndex : Int
  totalQuestions : Int
  args : ResearchArgs

/-- The handler of `POST /:chatId/clarification-answer`. -/
def clarificationAnswer (P : Providers) (st : Db.Store) (userId chatId : Nat)
    (body : AnswerBody) : Result :=
  match chatQueries.findById st chatId with
  | none => ⟨notFound, st, []⟩
  | some chat =>
    if chat.user_id != userId then ⟨notFound, st, []⟩
    else if chat.is_completed || chat.has_error then ⟨closedResponse, st, []⟩
    else
      let st1 := messageQueries.create st chatId body.message true
      if body.questionIndex ≥ body.totalQuestions - 1 then
        let calls := [ProviderCall.openaiResearch body.args, ProviderCall.geminiResearch body.args]
        let (researchResult, geminiResult) := dispatch P body.args
        if researchResult.success then
          let openaiDoc := openaiLabeled researchResult
          let st2 := messageQueries.create st1 chatId (some openaiDoc) false
          let st3 :=
            match geminiLabeled geminiResult with
            | some geminiDoc => messageQueries.create st2 chatId (some geminiDoc) false
            | none => st2
          let st4 := chatQueries.markAsCompleted st3 chatId
          ⟨⟨200, [("success", .bool true), ("messageType", .str "research_pages"),
                  ("openaiResearch", .str openaiDoc),
                  ("geminiResearch",
                    match geminiLabeled geminiResult with
                    | some geminiDoc => .str geminiDoc
                    | none => .null)]⟩,
           st4, calls⟩
        else
          let st2 := messageQueries.create st1 chatId (some apology) false
          let st3 := chatQueries.markAsError st2 chatId
          ⟨⟨200, [("success", .bool true), ("response", .str apology)]⟩, st3, calls⟩
      else
        let st2 := messageQueries.create st1 chatId (some acknowledgment) false
        ⟨⟨200, [("success", .bool true), ("response", .str acknowledgment),
                ("messageType", .str "acknowledgment")]⟩,
         st2, []⟩

end Chats

/-! ## `routes/email.js` and the report template of `services/emailService.js` -/

namespace Email

open Chats

/-- JavaScript truthiness of a string-or-null value, as used by `x || fallback`. -/
def orElse (x : Option String) (fallback : String) : String :=
  match x with
  | none => fallback
  | some s => if s.data.isEmpty then fallback else s

/-- A string-or-null value inside a template literal. -/
def interpolate (x : Option String) : String :=
  match x with
  | none => "null"
  | some s => s

/-- The arguments of the call `sendCombinedResearchReportSendGrid(userEmail, chatgptContent,
geminiContent, topic)` made by the route. -/
structure SendArgs where
  userEmail : String
  chatgptContent : Option String
  geminiContent : String
  topic : String
  deriving DecidableEq

/-- The route either answers at once or calls the email service. -/
inductive RouteStep where
  | respond (r : Response)
  | send (args : SendArgs)
  deriving DecidableEq

/-- The 500 response of the route's `catch`; `details` carries the error message. -/
def sendFailed (details : String) : Response :=
  ⟨500, [("success", .bool false), ("error", .str "Failed to send research report"),
         ("details", .str details)]⟩

/-- The handler of `POST /:chatId/send-email`, up to its call of the email service. -/
def sendEmail (st : Db.Store) (userId chatId : Nat) : RouteStep :=
  match chatQueries.findById st chatId with
  | none => .respond notFound
  | some chat =>
    if chat.user_id != userId then .respond notFound
    else
      let noEmail : Response :=
        ⟨400, [("success", .bool false), ("error", .str "User email not found")]⟩
      match userQueries.findById st userId with
      | none => .respond noEmail
      | some user =>
        match user.email with
        | none => .respond noEmail
        | some email =>
          if email.data.isEmpty then .respond noEmail
          else
            let messages := messageQueries.findByChatId st chatId
            if messages.length < 3 then
              .respond ⟨400, [("success", .bool false),
                ("error", .str "Not enough messages found in chat to generate a report.")]⟩
            else
              let aiMessages := messages.filter (fun m => !m.is_user)
              if aiMessages.length < 2 then
                .respond ⟨400, [("success", .bool false),
                  ("error", .str "Chat does not contain the required OpenAI and Gemini reports.")]⟩
              else
                let originalTopic :=
                  orElse ((messages.find? (fun m => m.is_user)).bind (fun m => m.content))
                    "Research Topic"
                match aiMessages.get? (aiMessages.length - 1),
                      aiMessages.get? (aiMessages.length - 2) with
                | some geminiMsg, some openaiMsg =>
                    .send ⟨email, openaiMsg.content,
                      orElse geminiMsg.content
                        "## Gemini (Google) Research\n\nNo Gemini content available.",
                      originalTopic⟩
                | _, _ => .respond (sendFailed "Cannot read properties of undefined")

/-- `combinedMarkdown` of `sendCombinedResearchReportSendGrid`. -/
def combinedMarkdown (chatgptContent : Option String) (geminiContent : String) : String :=
  "## ChatGPT (OpenAI)\n\n" ++ interpolate chatgptContent ++
    "\n\n---\n\n## Gemini (Google)\n\n" ++ geminiContent

end Email


/-! ## Sample data -/

namespace Sample

open Chats

/-- An open chat of user 7. -/
def chat : Db.Chat := ⟨1, 7, "New Chat", false, false⟩

/-- A completed chat of user 7. -/
def closedChat : Db.Chat := ⟨2, 7, "Old Chat", true, false⟩

/-- A store with the two chats, no messages yet, and the user. -/
def store : Db.Store := ⟨[chat, closedChat], [], [⟨7, some "user@example.com", false⟩]⟩

/-- Providers that answer every call with the given outcomes. -/
def providers (t : Outcome TitleResult) (o g : Outcome PageResult) : Providers :=
  ⟨fun _ => t, fun _ => o, fun _ => g⟩

/-- The research context of a one-question session. -/
def args : ResearchArgs := ⟨some "cricket", some ["Which team?"], some ["India"]⟩

/-- The only (hence final) answer of a one-question session. -/
def body : AnswerBody := ⟨some "India", 0, 1, args⟩

/-- The store after the topic "cricket" was submitted and one clarifying question was asked. -/
def asked : Db.Store :=
  ⟨[chat, closedChat],
   [⟨1, some "cricket", true⟩, ⟨1, some (questionsText ["Which team?"]), false⟩],
   [⟨7, some "user@example.com", false⟩]⟩

/-- Providers of scenario C: title and one question, a primary page, a secondary provider that
rejects. -/
def primaryOnly : Providers :=
  providers (.returned ⟨true, "Cricket", ["Which team?"]⟩)
    (.returned ⟨true, some "Findings"⟩) .threw

/-- The store of scenario C after the topic was submitted. -/
def afterTopic : Db.Store :=
  (researchTopic primaryOnly store 7 1 (some "cricket")).store

/-- The store of scenario C after the final answer. -/
def afterAnswer : Db.Store :=
  (clarificationAnswer primaryOnly afterTopic 7 1 body).store

end Sample
/-! ## Further definitions: request validation, provider services, report rendering -/

namespace Chats

open JS

/-- `cleanResearchContent` with the compilation of the provider label made explicit: `label` is
`none` when the pattern text spliced from the label is not a valid regular expression, in which
case `new RegExp` throws (the result `none`).  The test `if (!content) return ''` comes
first. -/
def cleanResearchContentWithLabel (content : Option String) (label : Option (List Re)) :
    Option String :=
  match content with
  | none => some ""
  | some s =>
    if s.data.isEmpty then some ""
    else
      match label with
      | none => none
      | some provider => some (cleanResearchContent (some s) provider)

end Chats

namespace Sample

open Chats

/-- Providers whose primary call rejects while the secondary call returns a page. -/
def primaryThrows : Providers :=
  providers .threw .threw (.returned ⟨true, some "More"⟩)

/-- Providers whose title and questions generation reports failure. -/
def titleFails : Providers :=
  providers (.returned ⟨false, "Research Topic...", []⟩) .threw .threw

/-- An answer whose index lies beyond the number of questions. -/
def bodyOutOfRange : AnswerBody := ⟨some "India", 5, 3, args⟩

/-- The first answer of a three-question session. -/
def bodyFirstOfThree : AnswerBody := ⟨some "India", 0, 3, args⟩

end Sample

namespace JS

/-! ### String length, slicing and searching -/

/-- The number of UTF-16 code units of a character. -/
def utf16Size (c : Char) : Nat :=
  if c.toNat < 0x10000 then 1 else 2

/-- The `length` of a JavaScript string: its number of UTF-16 code units. -/
def length (s : List Char) : Nat :=
  (s.map utf16Size).sum

/-- The result of `s.slice(0, n)`: the longest run of whole characters from the start that has at
most `n` code units.  This is the value of the code unless the cut falls inside a surrogate
pair (`cutInsidePair`): there JavaScript keeps the first half of the pair, an unpaired
surrogate that no `String` holds, and this function leaves the character out. -/
def sliceTo : Nat → List Char → List Char
  | _, [] => []
  | n, c :: cs => if utf16Size c ≤ n then c :: sliceTo (n - utf16Size c) cs else []

/-- Does the cut after `n` code units fall inside a surrogate pair of the text? -/
def cutInsidePair : Nat → List Char → Bool
  | _, [] => false
  | n, c :: cs => if utf16Size c ≤ n then cutInsidePair (n - utf16Size c) cs else decide (0 < n)

/-- `Number.isSafeInteger` on an integer: between `-(2^53 - 1)` and `2^53 - 1`.  On these,
integer arithmetic in doubles is exact. -/
def isSafeInteger (n : Int) : Bool :=
  decide (-9007199254740991 ≤ n) && decide (n ≤ 9007199254740991)

/-- One match found by `RegExp.prototype.exec` or `String.prototype.match`: the position of its
first character, the matched text, the captures. -/
structure MatchInfo where
  index : Nat
  text : List Char
  caps : Nat → Option (List Char)

/-- The first match at or after the current position (`index` characters into the input), as
found by `s.match(/r/)` for a pattern without the `g` flag. -/
def searchFrom (fl : Flags) (r : Re) : Nat → Option Char → List Char → Option MatchInfo
  | index, prev, [] =>
      match matchAt fl r prev [] with
      | some y => some ⟨index, [], y.caps⟩
      | none => none
  | index, prev, c :: cs =>
      match matchAt fl r prev (c :: cs) with
      | some y => some ⟨index, (c :: cs).take ((c :: cs).length - y.rest.length), y.caps⟩
      | none => searchFrom fl r (index + 1) (some c) cs

/-- The matches collected by the loop `while ((match = re.exec(text)) !== null)` for a pattern
with the `g` flag.  `skip` counts the characters that belong to the match just found.  (On an
empty match the loop of the source would not advance; the scan stops there.  The patterns it is
used with consume at least one character.) -/
def execAll (fl : Flags) (r : Re) : Nat → Nat → Option Char → List Char → List MatchInfo
  | _, index, prev, [] =>
      match matchAt fl r prev [] with
      | some y => [⟨index, [], y.caps⟩]
      | none => []
  | skip + 1, index, _, c :: cs => execAll fl r skip (index + 1) (some c) cs
  | 0, index, prev, c :: cs =>
      match matchAt fl r prev (c :: cs) with
      | some y =>
          let n := (c :: cs).length - y.rest.length
          ⟨index, (c :: cs).take n, y.caps⟩ ::
            (if n == 0 then [] else execAll fl r (n - 1) (index + 1) (some c) cs)
      | none => execAll fl r 0 (index + 1) (some c) cs

/-! ### Values of `JSON.parse` -/

/-- A value produced by `JSON.parse`; a number is `mantissa * 10 ^ exponent`. -/
inductive Json where
  | null
  | bool (b : Bool)
  | num (mantissa exponent : Int)
  | str (s : String)
  | arr (items : List Json)
  | obj (fields : List (String × Json))

/-- The test `!v`. -/
def Json.falsy : Json → Bool
  | .null => true
  | .bool b => !b
  | .num m _ => m == 0
  | .str s => s.data.isEmpty
  | .arr _ => false
  | .obj _ => false

/-- The test `typeof v === 'object'`. -/
def Json.typeofObject : Json → Bool
  | .null => true
  | .arr _ => true
  | .obj _ => true
  | _ => false

/-- The property read `v.key` on a parsed value that is an object or an array: `none` is
`undefined`.  A repeated key of an object keeps its last value. -/
def Json.get (v : Json) (key : String) : Option Json :=
  match v with
  | .obj fields => (fields.reverse.find? (fun p => p.1 == key)).map (fun p => p.2)
  | _ => none

end JS

/-! ## `services/openai.js` -/

namespace OpenAIService

open JS JS.Re Chats

/-- The object returned by `generateTitleAndQuestions`; `questions` is the parsed array as it
is. -/
structure TitleAndQuestions where
  success : Bool
  title : String
  questions : List Json

/-- The object returned from the `catch` of `generateTitleAndQuestions`. -/
def titleFailure : TitleAndQuestions := ⟨false, "Research Topic...", []⟩

/-- The pattern of the first fallback: a fenced block that holds braces, flag `i`. -/
def fencedJson : Re :=
  cat [lit "```json", lazyStar (cls false [.space, .notSpace]), chr '\x7b',
       lazyStar (cls false [.space, .notSpace]), chr '\x7d',
       lazyStar (cls false [.space, .notSpace]), lit "```"]

/-- The pattern of the second fallback: from the first opening brace to the last closing
brace. -/
def bracedText : Re :=
  cat [chr '\x7b', star (cls false [.space, .notSpace]), chr '\x7d']

/-- Lines 58-75: the value of `result` after parsing, `none` when an exception leaves the
`try`.  `parse` is `JSON.parse` (`none` when it throws). -/
def parseContent (parse : String → Option Json) (content : String) : Option Json :=
  match parse content with
  | some v => some v
  | none =>
    let fencedMatch :=
      match searchFrom { i := true } fencedJson 0 none content.data with
      | some m => some m
      | none => searchFrom {} bracedText 0 none content.data
    match fencedMatch with
    | some m =>
        let extracted :=
          trimL (replaceL { g := true, i := true } (alt (lit "```json") (lit "```")) [] m.text)
        parse (String.mk extracted)
    | none => none

/-- Lines 79-87: the three checks on the parsed value; `none` when one of them throws. -/
def checkResult (result : Json) : Option (String × List Json) :=
  if result.falsy || !result.typeofObject then none
  else
    match result.get "title" with
    | some (.str title) =>
        if title.data.isEmpty then none
        else
          match result.get "questions" with
          | some (.arr questions) => some (title, questions)
          | _ => none
    | _ => none

/-- Lines 44-75: the value parsed from the provider's response, given the outcome of the
chat-completion call (the content of the first choice, `none` when absent) and `JSON.parse`;
`none` when an exception is thrown (by the call, for an empty response, or by the parsing). -/
def parsedValue (parse : String → Option Json) (api : Outcome (Option String)) : Option Json :=
  match api with
  | .threw => none
  | .returned apiContent =>
    let content := trimL (Email.orElse apiContent "").data
    if content.isEmpty then none
    else parseContent parse (String.mk content)

/-- `OpenAIService.generateTitleAndQuestions`, given the outcome of the chat-completion call
and `JSON.parse`.  Every exception ends in the `catch`, which returns the failure object. -/
def generateTitleAndQuestions (parse : String → Option Json) (api : Outcome (Option String)) :
    TitleAndQuestions :=
  match parsedValue parse api with
  | none => titleFailure
  | some result =>
    match checkResult result with
    | none => titleFailure
    | some (title, questions) => ⟨true, title, questions⟩

/-- The property named by the specification: the value is an object with a non-empty string
`title` and an array-valued `questions` field. -/
def ValidTitleQuestions (v : Json) (title : String) (questions : List Json) : Prop :=
  (∃ fields, v = .obj fields) ∧ v.get "title" = some (.str title) ∧ title ≠ "" ∧
    v.get "questions" = some (.arr questions)

/-- The Q&A context built by `OpenAIService.generateResearchPage` (lines 118-122); `none` when
`answers[index]` throws because `answers` is absent. -/
def qaContext (clarifyingQuestions answers : Option (List String)) : Option String :=
  match clarifyingQuestions with
  | some (q :: qs) =>
    match answers with
    | none => none
    | some as =>
      some ("\n\n".intercalate ((q :: qs).enum.map (fun p =>
        "Q" ++ toString (p.1 + 1) ++ ": " ++ p.2 ++ "\nA" ++ toString (p.1 + 1) ++ ": " ++
          Email.orElse (as.get? p.1) "No answer provided")))
  | _ =>
    some "No specific clarifying questions were provided. Generate comprehensive research based on the topic itself."

/-- Lines 225-228: the replacements that remove preambles from the response. -/
def preambleSteps : List Step :=
  [ -- /^I'd like to help you.*?comprehensive research (?:for you|plan for you)\.?\s*/gis
    ⟨fGIS, cat [bol, lit "I'd like to help you", lazyStar dot, lit "comprehensive research ",
        alt (lit "for you") (lit "plan for you"), opt (chr '.'), star ws], []⟩,
    -- /^I'd like to help you.*?Please answer.*?one by one.*?\.?\s*/gis
    ⟨fGIS, cat [bol, lit "I'd like to help you", lazyStar dot, lit "Please answer", lazyStar dot,
        lit "one by one", lazyStar dot, opt (chr '.'), star ws], []⟩,
    -- /^Here is (?:your|the) (?:comprehensive )?research.*?:?\s*/gi
    ⟨fGI, cat [bol, lit "Here is ", alt (lit "your") (lit "the"), chr ' ',
        opt (lit "comprehensive "), lit "research", lazyStar dot, opt (chr ':'), star ws], []⟩ ]

/-- `OpenAIService.generateResearchPage`, given the outcome of the API call: the text of the
response (`output_text` with web search, the content of the first choice without), `none`
when that text is absent.  The prompt sent to the API is not modelled. -/
def generateResearchPage (api : Outcome (Option String)) (args : ResearchArgs)
    (useWebSearch : Bool) : PageResult :=
  match qaContext args.questions args.answers with
  | none => ⟨false, none⟩
  | some _ =>
    match api with
    | .threw => ⟨false, none⟩
    | .returned text =>
      let researchContent :=
        if useWebSearch then (Email.orElse text "").data
        else trimL (Email.orElse text "").data
      ⟨true, some (String.mk (trimL (runSteps preambleSteps researchContent)))⟩

end OpenAIService

/-! ## `services/gemini.js` -/

namespace GeminiService

open JS JS.Re Chats

/-- The Q&A context built by `GeminiService.generateResearchPage` (lines 26-31). -/
def qaContext (clarifyingQuestions answers : Option (List String)) : String :=
  match clarifyingQuestions with
  | some (q :: qs) =>
    "\n\n".intercalate ((q :: qs).enum.map (fun p =>
      let a :=
        match answers with
        | none => "No answer provided"
        | some as => Email.orElse (as.get? p.1) "No answer provided"
      "Q" ++ toString (p.1 + 1) ++ ": " ++ p.2 ++ "\nA" ++ toString (p.1 + 1) ++ ": " ++ a))
  | _ =>
    "No specific clarifying questions were provided. Generate comprehensive research based on the topic itself."

/-- The two places the services read the text of a Gemini response from. -/
structure Response where
  text : Option String
  candidateText : Option String

/-- The expression `result.response?.text?.() || ...candidates?.[0]...text || ''`. -/
def responseText (r : Response) : String :=
  Email.orElse r.text (Email.orElse r.candidateText "")

/-- Lines 72-87 of `gemini.js` (and 118-131): the chain that removes asterisks. -/
def boldSteps : List Step :=
  [ ⟨fG, cat [lit "***", grp 1 (plus notStar), lit "***"], [.group 1]⟩,
    ⟨fG, cat [lit "**", grp 1 (plus notStar), lit "**"], [.group 1]⟩,
    ⟨fG, cat [lit "**", grp 1 (plus notStarNl), lit "**"], [.group 1]⟩,
    ⟨fG, cat [lit "**", grp 1 (lazyStar notStarNl), lit "**"], [.group 1]⟩,
    ⟨fG, cat [lit "**", grp 1 (lazyStar notStar), lit "**"], [.group 1]⟩,
    ⟨fG, cat [chr '*', grp 1 (plus notStar), chr '*'], [.group 1]⟩,
    ⟨fG, lit "**", []⟩,
    ⟨fG, chr '*', []⟩,
    -- second pass
    ⟨fG, cat [lit "**", grp 1 (plus notStar), lit "**"], [.group 1]⟩,
    ⟨fG, lit "**", []⟩,
    -- third pass
    ⟨fG, cat [plus (chr '*'), grp 1 (plus notStarNl), plus (chr '*')], [.group 1]⟩,
    ⟨fG, lit "**", []⟩,
    ⟨fG, chr '*', []⟩ ]

/-- `GeminiService.generateResearchPage`, given whether the API key is configured and the
outcome of `generateContent`.  The prompt sent to the API is not modelled. -/
def generateResearchPage (configured : Bool) (api : Outcome Response) : PageResult :=
  if !configured then ⟨false, none⟩
  else
    match api with
    | .threw => ⟨false, none⟩
    | .returned r => ⟨true, some (String.mk (runSteps boldSteps (responseText r).data))⟩

/-- The object returned by `summarizeCombinedReport`. -/
structure SummaryResult where
  success : Bool
  summary : Option String

/-- `GeminiService.summarizeCombinedReport`, given whether the API key is configured and the
outcome of `generateContent`. -/
def summarizeCombinedReport (configured : Bool) (api : Outcome Response) : SummaryResult :=
  if !configured then ⟨false, none⟩
  else
    match api with
    | .threw => ⟨false, none⟩
    | .returned r =>
        ⟨true, some (String.mk (trimL (runSteps boldSteps (responseText r).data)))⟩

end GeminiService

/-! ## `services/emailService.js` -/

namespace EmailService

open JS JS.Re Chats

/-- Lines 24-47: the replacements of `removeBoldFormatting`. -/
def removeBoldSteps : List Step :=
  [ -- pass 1
    ⟨fG, cat [lit "***", grp 1 (plus notStar), lit "***"], [.group 1]⟩,
    -- pass 2
    ⟨fG, cat [lit "**", grp 1 (plus notStar), lit "**"], [.group 1]⟩,
    ⟨fG, cat [lit "**", grp 1 (plus notStarNl), lit "**"], [.group 1]⟩,
    ⟨fG, cat [lit "**", grp 1 (lazyStar notStarNl), lit "**"], [.group 1]⟩,
    ⟨fG, cat [lit "**", grp 1 (lazyStar notStar), lit "**"], [.group 1]⟩,
    -- pass 3
    ⟨fG, cat [chr '*', grp 1 (plus notStar), chr '*'], [.group 1]⟩,
    -- pass 4
    ⟨fG, lit "**", []⟩,
    -- pass 5
    ⟨fG, cat [plus (chr '*'), grp 1 (plus notStarNl), plus (chr '*')], [.group 1]⟩,
    -- pass 6
    ⟨fG, chr '*', []⟩,
    -- pass 7
    ⟨fG, cat [lit "**", grp 1 (plus notStar), lit "**"], [.group 1]⟩,
    ⟨fG, lit "**", []⟩,
    ⟨fG, chr '*', []⟩ ]

/-- `removeBoldFormatting(text)`; `none` is an absent text. -/
def removeBoldFormatting (text : Option String) : String :=
  match text with
  | none => ""
  | some s => if s.data.isEmpty then "" else String.mk (runSteps removeBoldSteps s.data)

/-- The characters of the class `[#*_`>-]`. -/
def markupChars : List Char := "#*_`>-".data

/-- Lines 376-378: `/[#*_`>-]/g -> ''`, then `/\n+/g -> ' '`. -/
def summarySteps : List Step :=
  [ ⟨fG, cls false (markupChars.map ClassItem.ch), []⟩,
    ⟨fG, plus (chr '\n'), [.text " "]⟩ ]

/-- `generateSummaryParagraph(combinedMarkdown)`.  The value is that of the code unless the text
is cut inside a surrogate pair (see `JS.sliceTo`). -/
def generateSummaryParagraph (combinedMarkdown : Option String) : String :=
  let cleanedMarkdown := removeBoldFormatting combinedMarkdown
  let text := trimL (runSteps summarySteps cleanedMarkdown.data)
  if JS.length text > 650 then String.mk (sliceTo 640 text ++ ['…']) else String.mk text

/-- Lines 628-640 of `sendCombinedResearchReportSendGrid`: the choice of the summary, given
the outcome of `GeminiService.summarizeCombinedReport(combinedMarkdown)`. -/
def summaryParagraph (sum : Outcome GeminiService.SummaryResult) (combinedMarkdown : String) :
    String :=
  match sum with
  | .threw => generateSummaryParagraph (some combinedMarkdown)
  | .returned r =>
    match r.success, r.summary with
    | true, some s =>
        if s.data.isEmpty then generateSummaryParagraph (some combinedMarkdown) else s
    | _, _ => generateSummaryParagraph (some combinedMarkdown)

/-- The object returned by `sendCombinedResearchReportSendGrid`. -/
structure SendResult where
  success : Bool
  messageId : String
  summary : String

/-- `sendCombinedResearchReportSendGrid`.  `keyConfigured` and `fromConfigured` say whether
`SENDGRID_API_KEY` and `FROM_EMAIL` are set; `summarize` is the summarisation call; `deliver`
stands for the rendering of the PDF and the SendGrid call (it receives the summary and
returns the message id).  An error is the message of the exception thrown; for a failed
delivery that is the fixed text below followed by the message of the cause, which the model
does not carry. -/
def sendCombinedResearchReportSendGrid (keyConfigured fromConfigured : Bool)
    (summarize : String → Outcome GeminiService.SummaryResult)
    (deliver : String → Outcome String)
    (chatgptContent : Option String) (geminiContent : String) : Except String SendResult :=
  if !keyConfigured then
    .error "Failed to send combined research report: SendGrid API key not configured. Please set SENDGRID_API_KEY."
  else if !fromConfigured then
    .error "Failed to send combined research report: From email not configured. Please set FROM_EMAIL."
  else
    let combined := Email.combinedMarkdown chatgptContent geminiContent
    let summary := summaryParagraph (summarize combined) combined
    match deliver summary with
    | .threw => .error "Failed to send combined research report: "
    | .returned messageId => .ok ⟨true, messageId, summary⟩

end EmailService


namespace Sample

open JS

/-- A response text with a title and an empty list of questions. -/
def noQuestionsText : String := "\x7b\"title\":\"Cricket\",\"questions\":[]\x7d"

/-- `JSON.parse` on the one text used by the samples (any other text is rejected). -/
def parseJson (s : String) : Option Json :=
  if s = noQuestionsText then some (.obj [("title", .str "Cricket"), ("questions", .arr [])])
  else none

end Sample

namespace EmailService

open JS JS.Re Chats

/-- A segment returned by `parseTextWithLinks`. -/
inductive Segment where
  | text (content : String)
  | link (text url : String)
  deriving DecidableEq

/-- An entry of `markdownMatches` or `urlMatches`; `text` is absent for a plain URL.  Positions
and lengths count characters. -/
structure LinkMatch where
  index : Nat
  length : Nat
  text : Option String
  url : String
  markdown : Bool

/-- The pattern `/\[([^\]]+)\]\(([^)]+)\)/g`. -/
def markdownLinkRegex : Re :=
  cat [chr '[', grp 1 (plus (cls true [.ch ']'])), chr ']', chr '(',
       grp 2 (plus (cls true [.ch ')'])), chr ')']

/-- The pattern `/(https?:\/\/[^\s]+)/g`. -/
def urlRegex : Re :=
  grp 1 (cat [lit "http", opt (chr 's'), lit "://", plus (cls true [.space])])

/-- `text.substring(a, b)` for `a <= b`. -/
def substring (s : List Char) (a b : Nat) : List Char :=
  (s.drop a).take (b - a)

/-- The markdown links found by the first `exec` loop. -/
def markdownMatches (text : List Char) : List LinkMatch :=
  (execAll fG markdownLinkRegex 0 0 none text).map (fun m =>
    ⟨m.index, m.text.length, some (String.mk ((m.caps 1).getD [])),
     String.mk ((m.caps 2).getD []), true⟩)

/-- `tempText`: the text with every markdown link replaced by blanks of the same length. -/
def blankOut (text : List Char) (ms : List LinkMatch) : List Char :=
  ms.foldl (fun temp m =>
    substring temp 0 m.index ++ List.replicate m.length ' ' ++ temp.drop (m.index + m.length))
    text

/-- The plain URLs found by the second `exec` loop. -/
def urlMatches (tempText : List Char) : List LinkMatch :=
  (execAll fG urlRegex 0 0 none tempText).map (fun m =>
    ⟨m.index, m.text.length, none, String.mk ((m.caps 1).getD []), false⟩)

/-- Insertion of a match into a list sorted by `index`, before the first later match. -/
def insertMatch (m : LinkMatch) : List LinkMatch → List LinkMatch
  | [] => [m]
  | x :: xs => if m.index ≤ x.index then m :: x :: xs else x :: insertMatch m xs

/-- `[...markdownMatches, ...urlMatches].sort((a, b) => a.index - b.index)` (a stable sort). -/
def sortMatches (ms : List LinkMatch) : List LinkMatch :=
  ms.foldr insertMatch []

/-- The `forEach` that builds the segments: the segments so far and `lastIndex`. -/
def buildSegments (text : List Char) (ms : List LinkMatch) : List Segment × Nat :=
  ms.foldl (fun acc m =>
    let before : List Segment :=
      if m.index > acc.2 then [.text (String.mk (substring text acc.2 m.index))] else []
    let linkText : String :=
      if m.markdown then
        match m.text with
        | some t => t
        | none => m.url
      else m.url
    (acc.1 ++ before ++ [.link linkText m.url], m.index + m.length)) ([], 0)

/-- `parseTextWithLinks(text)`; `none` is an absent text. -/
def parseTextWithLinks (text : Option String) : List Segment :=
  match text with
  | none => []
  | some s =>
    if s.data.isEmpty then []
    else
      let md := markdownMatches s.data
      let tempText := blankOut s.data md
      let allMatches := sortMatches (md ++ urlMatches tempText)
      let built := buildSegments s.data allMatches
      let segments :=
        if built.2 < s.data.length then
          built.1 ++ [.text (String.mk (s.data.drop built.2))]
        else built.1
      if segments.length > 0 then segments else [.text s]

end EmailService

namespace JS

/-! ### A declarative reading of the matcher -/

/-- Zero or more rounds of `step`; the captures of the groups `gs` are reset before each
round. -/
inductive Iter (step : MState → MState → Prop) (gs : List Nat) : MState → MState → Prop where
  | done (x : MState) : Iter step gs x x
  | more (x y z : MState) :
      step { x with caps := resetCaps gs x.caps } y → Iter step gs y z → Iter step gs x z

/-- `Reach fl r x y`: a match of the pattern `r` can lead from state `x` to state `y`.  (The
bounds of a quantifier are not recorded.) -/
def Reach (fl : Flags) : Re → MState → MState → Prop
  | .eps, x, y => y = x
  | .chr a, x, y =>
      ∃ d ds, x.rest = d :: ds ∧ canon fl a = canon fl d ∧
        y = { x with prev := some d, rest := ds }
  | .dot, x, y =>
      ∃ d ds, x.rest = d :: ds ∧ (fl.s || !isLineTerminator d) = true ∧
        y = { x with prev := some d, rest := ds }
  | .cls neg items, x, y =>
      ∃ d ds, x.rest = d :: ds ∧ ((items.any (ClassItem.accepts fl d)) != neg) = true ∧
        y = { x with prev := some d, rest := ds }
  | .bol, x, y => y = x
  | .eol, x, y => y = x ∧ (x.rest = [] ∨ ∃ d ds, x.rest = d :: ds ∧ isLineTerminator d = true)
  | .seq a b, x, y => ∃ m, Reach fl a x m ∧ Reach fl b m y
  | .alt a b, x, y => Reach fl a x y ∨ Reach fl b x y
  | .rep _ _ _ r, x, y => Iter (Reach fl r) r.groups x y
  | .grp i r, x, y =>
      ∃ y0, Reach fl r x y0 ∧
        y = { y0 with caps := fun j => if j == i then some (consumed x y0) else y0.caps j }
  | .look neg r, x, y =>
      (neg = true ∧ y = x) ∨ (neg = false ∧ ∃ y0, Reach fl r x y0 ∧ y = { x with caps := y0.caps })

namespace Re

/-- The pattern consumes asterisks only and has no group. -/
def starOnly : Re → Bool
  | eps => true
  | chr c => c == '*'
  | seq a b => starOnly a && starOnly b
  | alt a b => starOnly a && starOnly b
  | rep _ _ _ r => starOnly r
  | _ => false

end Re

end JS

namespace Chats

open JS

/-- The replacement is case-sensitive and can only delete asterisks: either the pattern
consumes asterisks only and the replacement is empty, or the pattern is asterisks, group 1,
asterisks and the replacement is `$1`. -/
def Step.removesStarsOnly (st : Step) : Bool :=
  !st.fl.i &&
    match st.re, st.tpl with
    | .seq a (.seq (.grp 1 _) c), [.group 1] => a.starOnly && c.starOnly
    | r, [] => r.starOnly
    | _, _ => false

end Chats

namespace JS

/-- The character before the position reached after consuming `run` from a position whose
previous character is `p`. -/
def prevAfter (p : Option Char) : List Char → Option Char
  | [] => p
  | d :: ds => prevAfter (some d) ds

end JS

namespace EmailService

open JS

/-- Every run of line breaks replaced by one blank; `inRun` says that the character before was
a line break. -/
def flattenNewlines : Bool → List Char → List Char
  | _, [] => []
  | inRun, c :: cs =>
      if c = '\n' then
        (if inRun then flattenNewlines true cs else ' ' :: flattenNewlines true cs)
      else c :: flattenNewlines false cs

/-- The text `t` of the specification of the fallback summary: the input with the markup
characters `#`, `*`, `_`, backtick, `>` and `-` removed, every run of line breaks replaced by
one blank, and the ends trimmed. -/
def summaryText (input : List Char) : List Char :=
  trimL (flattenNewlines false (input.filter (fun c => !markupChars.contains c)))

end EmailService

namespace JS

/-- A syntactic check: can the pattern be seen to match no text made only of the characters
of `A`?  (It has to read a character that is none of them.) -/
def Re.blockedOn (fl : Flags) (A : List Char) : Re → Bool
  | .chr c => A.all (fun d => canon fl c != canon fl d)
  | .cls neg items => A.all (fun d => !((items.any (ClassItem.accepts fl d)) != neg))
  | .dot => A.all (fun d => !(fl.s || !isLineTerminator d))
  | .seq a b => blockedOn fl A a || blockedOn fl A b
  | .alt a b => blockedOn fl A a && blockedOn fl A b
  | .rep _ min max r => min != 0 && max != some 0 && blockedOn fl A r
  | .grp _ r => blockedOn fl A r
  | .look neg r => !neg && blockedOn fl A r
  | _ => false

/-- A lower-case ASCII letter. -/
def isLowerAscii (c : Char) : Bool :=
  97 ≤ c.toNat && c.toNat ≤ 122

/-- The lower-case ASCII letters. -/
def lowerLetters : List Char := "abcdefghijklmnopqrstuvwxyz".data

/-- Does the text start with the word, the case of ASCII letters ignored? -/
def startsWithIgnoreCase : List Char → List Char → Bool
  | [], _ => true
  | _ :: _, [] => false
  | c :: cs, d :: ds => upperAscii c == upperAscii d && startsWithIgnoreCase cs ds

/-- Does the text contain the word, the case of ASCII letters ignored? -/
def containsIgnoreCase (w : List Char) : List Char → Bool
  | [] => startsWithIgnoreCase w []
  | d :: ds => startsWithIgnoreCase w (d :: ds) || containsIgnoreCase w ds

end JS

namespace Chats

open JS

/-- The characters of a link `[t](u)` whose text and address are lower-case letters. -/
def linkAlphabet : List Char := lowerLetters ++ "[]()".data

/-- The characters of a rewritten link `t (u)` whose text and address are lower-case
letters. -/
def plainLinkAlphabet : List Char := lowerLetters ++ " ()".data

/-- Is every pattern of the steps blocked on the alphabet? -/
def stepsBlockedOn (A : List Char) (steps : List Step) : Bool :=
  steps.all (fun st => st.re.blockedOn st.fl A)

end Chats

/-! # Properties -/

namespace Chats

open JS

/-! ## Lookups in the store after the handlers' writes -/

theorem find_createMessage (st : Db.Store) (cid : Nat) (content : Option String) (u : Bool)
    (chatId : Nat) :
    chatQueries.findById (messageQueries.create st cid content u) chatId = chatQueries.findById st chatId := rfl

theorem find_map_set (chats : List Db.Chat) (chatId : Nat) (f : Db.Chat → Db.Chat)
    (hf : ∀ c, (f c).id = c.id) :
    (chats.map (fun c => if c.id == chatId then f c else c)).find? (fun c => c.id == chatId) =
      (chats.find? (fun c => c.id == chatId)).map f := by
  induction chats with
  | nil => rfl
  | cons c cs ih =>
    by_cases h : c.id = chatId
    · have h1 : (c.id == chatId) = true := by simp [h]
      have h2 : ((f c).id == chatId) = true := by simp [hf, h]
      simp only [List.map_cons, h1, if_true, List.find?_cons, h2, Option.map_some']
    · have h1 : (c.id == chatId) = false := by simp [h]
      simp only [List.map_cons, h1, List.find?_cons, Bool.false_eq_true, if_false]
      exact ih

theorem find_markAsCompleted (st : Db.Store) (chatId : Nat) :
    chatQueries.findById (chatQueries.markAsCompleted st chatId) chatId =
      (chatQueries.findById st chatId).map (fun c => { c with is_completed := true }) := by
  unfold chatQueries.findById chatQueries.markAsCompleted
  exact find_map_set st.chats chatId (fun c => { c with is_completed := true }) (fun _ => rfl)

theorem find_markAsError (st : Db.Store) (chatId : Nat) :
    chatQueries.findById (chatQueries.markAsError st chatId) chatId =
      (chatQueries.findById st chatId).map (fun c => { c with has_error := true }) := by
  unfold chatQueries.findById chatQueries.markAsError
  exact find_map_set st.chats chatId (fun c => { c with has_error := true }) (fun _ => rfl)

theorem find_updateTitle (st : Db.Store) (chatId : Nat) (t : String) :
    chatQueries.findById (chatQueries.updateTitle st chatId t) chatId =
      (chatQueries.findById st chatId).map (fun c => { c with title := t }) := by
  unfold chatQueries.findById chatQueries.updateTitle
  exact find_map_set st.chats chatId (fun c => { c with title := t }) (fun _ => rfl)

/-! ## C1: terminal lock -/

/-- C1 (terminal lock): for a chat that the requesting user owns and whose `is_completed` or
`has_error` flag is set, both the research-topic handler and the clarification-answer handler
answer with the 400 "completed or has an error" response, leave the whole store (messages,
title and flags included) unchanged and call no provider. -/
theorem terminal_lock (P : Providers) (st : Db.Store) (userId chatId : Nat) (chat : Db.Chat)
    (message : Option String) (body : AnswerBody)
    (hfind : chatQueries.findById st chatId = some chat) (hown : chat.user_id = userId)
    (hclosed : chat.is_completed = true ∨ chat.has_error = true) :
    researchTopic P st userId chatId message = ⟨closedResponse, st, []⟩ ∧
    clarificationAnswer P st userId chatId body = ⟨closedResponse, st, []⟩ := by
  have hc : (chat.is_completed || chat.has_error) = true := by
    rcases hclosed with h | h <;> simp [h]
  constructor
  · simp [researchTopic, hfind, hown, hc]
  · simp [clarificationAnswer, hfind, hown, hc]

end Chats

namespace Chats

/-- C1, witness: the completed chat of the sample store. -/
theorem terminal_lock_witness :
    researchTopic Sample.primaryOnly Sample.store 7 2 (some "cricket") =
      ⟨closedResponse, Sample.store, []⟩ ∧
    clarificationAnswer Sample.primaryOnly Sample.store 7 2 Sample.body =
      ⟨closedResponse, Sample.store, []⟩ :=
  terminal_lock Sample.primaryOnly Sample.store 7 2 Sample.closedChat (some "cricket")
    Sample.body rfl rfl (Or.inl rfl)

end Chats

namespace JS

theorem MState.All.reset {P : Char → Prop} {x : MState} (h : x.All P) (gs : List Nat) :
    MState.All P { x with caps := resetCaps gs x.caps } := by
  refine ⟨h.1, ?_⟩
  intro i s hs c hc
  simp only [resetCaps] at hs
  split at hs
  · cases hs
  · exact h.2 i s hs c hc

theorem MState.All.advance {P : Char → Prop} {x : MState} (h : x.All P) {d : Char}
    {ds : List Char} (hr : x.rest = d :: ds) :
    MState.All P { x with prev := some d, rest := ds } := by
  refine ⟨?_, h.2⟩
  intro c hc
  exact h.1 c (by rw [hr]; exact List.mem_cons_of_mem _ hc)

/-- A successful run of `repeatM` has called its continuation, and the state it was called
with holds only characters of the input. -/
theorem repeatM_all (P : Char → Prop) (m : Matcher) (gs : List Nat) (greedy : Bool)
    (hm : ∀ x k z, x.All P → m x k = some z → ∃ y, y.All P ∧ k y = some z) :
    ∀ fuel min max x c z, x.All P → repeatM m gs greedy fuel min max x c = some z →
      ∃ y, y.All P ∧ c y = some z := by
  intro fuel
  induction fuel with
  | zero => intro min max x c z _ h; simp [repeatM] at h
  | succ fuel ih =>
    intro min max x c z hx h
    unfold repeatM at h
    simp only at h
    have hd : ∀ y, y.All P →
        (if (min == 0 && y.rest.length == x.rest.length) = true then none
         else repeatM m gs greedy fuel (min - 1) (Option.map (fun x => x - 1) max) y c) = some z →
        ∃ y, y.All P ∧ c y = some z := by
      intro y hy hyz
      split at hyz
      · cases hyz
      · exact ih _ _ _ _ _ hy hyz
    have hmd : m { x with caps := resetCaps gs x.caps } (fun y =>
        if (min == 0 && y.rest.length == x.rest.length) = true then none
        else repeatM m gs greedy fuel (min - 1) (Option.map (fun x => x - 1) max) y c) = some z →
        ∃ y, y.All P ∧ c y = some z := by
      intro hmz
      obtain ⟨y, hy, hyz⟩ := hm _ _ _ (hx.reset gs) hmz
      exact hd y hy hyz
    split at h
    · exact ⟨x, hx, h⟩
    · split at h
      · exact hmd h
      · split at h
        · split at h
          · rename_i z1 hz1
            cases h
            exact hmd hz1
          · exact ⟨x, hx, h⟩
        · split at h
          · rename_i z1 hz1
            cases h
            exact ⟨x, hx, hz1⟩
          · exact hmd h

/-- A successful match has called its continuation, and the state it was called with holds only
characters of the input: captures never contain a character that the input does not. -/
theorem compile_all (P : Char → Prop) (fl : Flags) (r : Re) :
    ∀ x k z, x.All P → compile fl r x k = some z → ∃ y, y.All P ∧ k y = some z := by
  induction r with
  | eps => intro x k z hx h; exact ⟨x, hx, h⟩
  | chr a =>
    intro x k z hx h
    simp only [compile] at h
    split at h
    · cases h
    · rename_i d ds hr
      split at h
      · exact ⟨_, hx.advance hr, h⟩
      · cases h
  | dot =>
    intro x k z hx h
    simp only [compile] at h
    split at h
    · cases h
    · rename_i d ds hr
      split at h
      · exact ⟨_, hx.advance hr, h⟩
      · cases h
  | cls neg items =>
    intro x k z hx h
    simp only [compile] at h
    split at h
    · cases h
    · rename_i d ds hr
      split at h
      · exact ⟨_, hx.advance hr, h⟩
      · cases h
  | bol =>
    intro x k z hx h
    simp only [compile] at h
    split at h
    · exact ⟨x, hx, h⟩
    · split at h
      · exact ⟨x, hx, h⟩
      · cases h
  | eol =>
    intro x k z hx h
    simp only [compile] at h
    split at h
    · exact ⟨x, hx, h⟩
    · split at h
      · exact ⟨x, hx, h⟩
      · cases h
  | seq a b iha ihb =>
    intro x k z hx h
    simp only [compile] at h
    obtain ⟨y, hy, hyz⟩ := iha _ _ _ hx h
    exact ihb _ _ _ hy hyz
  | alt a b iha ihb =>
    intro x k z hx h
    simp only [compile] at h
    split at h
    · rename_i z1 hz1
      cases h
      exact iha _ _ _ hx hz1
    · exact ihb _ _ _ hx h
  | rep greedy min max r ih =>
    intro x k z hx h
    simp only [compile] at h
    exact repeatM_all P _ _ _ ih _ _ _ _ _ _ hx h
  | grp i r ih =>
    intro x k z hx h
    simp only [compile] at h
    obtain ⟨y, hy, hyz⟩ := ih _ _ _ hx h
    refine ⟨{ y with caps := fun j => if j == i then some (consumed x y) else y.caps j },
      ⟨hy.1, ?_⟩, hyz⟩
    intro j s hs c hc
    dsimp only at hs
    split at hs
    · cases hs
      exact hx.1 c (List.mem_of_mem_take hc)
    · exact hy.2 j s hs c hc
  | look neg r ih =>
    intro x k z hx h
    simp only [compile] at h
    split at h
    · rename_i y hy
      split at h
      · cases h
      · obtain ⟨y1, hy1, hy1z⟩ := ih _ _ _ hx hy
        cases hy1z
        exact ⟨{ x with caps := y.caps }, ⟨hx.1, hy1.2⟩, h⟩
    · split at h
      · exact ⟨x, hx, h⟩
      · cases h

end JS

namespace JS

theorem expand_all (P : Char → Prop) (caps : Nat → Option (List Char)) (tpl : List TItem)
    (hc : ∀ i s, caps i = some s → ∀ c ∈ s, P c) (ht : ∀ c ∈ tplText tpl, P c) :
    ∀ c ∈ expand caps tpl, P c := by
  induction tpl with
  | nil => intro c hc; simp [expand] at hc
  | cons t ts ih =>
    cases t with
    | text s =>
      intro c hmem
      simp only [expand, List.mem_append] at hmem
      rcases hmem with h | h
      · exact ht c (by simp [tplText, h])
      · exact ih (fun c hc => ht c (by simp [tplText, hc])) c h
    | group n =>
      intro c hmem
      simp only [expand, List.mem_append] at hmem
      rcases hmem with h | h
      · cases hn : caps n with
        | none => simp [hn] at h
        | some s => rw [hn] at h; exact hc n s hn c h
      · exact ih (fun c hc => ht c (by simpa [tplText] using hc)) c h

theorem matchAt_all (P : Char → Prop) (fl : Flags) (r : Re) (prev : Option Char)
    (rest : List Char) (y : MState) (h : ∀ c ∈ rest, P c)
    (hm : matchAt fl r prev rest = some y) : y.All P := by
  have hx : MState.All P { prev := prev, rest := rest, caps := fun _ => none } :=
    ⟨h, fun i s hs => by cases hs⟩
  obtain ⟨y1, hy1, he⟩ := compile_all P fl r _ _ _ hx hm
  cases he
  exact hy1

/-- Every character of the result of a replacement comes from the input or from the literal
text of the replacement template. -/
theorem replaceScan_all (P : Char → Prop) (fl : Flags) (r : Re) (tpl : List TItem)
    (ht : ∀ c ∈ tplText tpl, P c) :
    ∀ (s : List Char) (live : Bool) (skip : Nat) (prev : Option Char), (∀ c ∈ s, P c) →
      ∀ c ∈ replaceScan fl r tpl live skip prev s, P c := by
  intro s
  induction s with
  | nil =>
    intro live skip prev _ c hc
    simp only [replaceScan] at hc
    split at hc
    · split at hc
      · rename_i y hy
        exact expand_all P _ _ (matchAt_all P fl r prev [] y (by simp) hy).2 ht c hc
      · simp at hc
    · simp at hc
  | cons a as ih =>
    intro live skip prev hs c hc
    have has : ∀ c ∈ as, P c := fun c h => hs c (List.mem_cons_of_mem _ h)
    have ha : P a := hs a (List.mem_cons_self _ _)
    cases skip with
    | succ n =>
      simp only [replaceScan] at hc
      exact ih _ _ _ has c hc
    | zero =>
      cases live with
      | false =>
        simp only [replaceScan, List.mem_cons] at hc
        rcases hc with h | h
        · exact h ▸ ha
        · exact ih _ _ _ has c h
      | true =>
        simp only [replaceScan] at hc
        split at hc
        · rename_i y hy
          simp only [List.mem_append] at hc
          rcases hc with h | h
          · exact expand_all P _ _ (matchAt_all P fl r prev _ y hs hy).2 ht c h
          · split at h
            · simp only [List.mem_cons] at h
              rcases h with h | h
              · exact h ▸ ha
              · exact ih _ _ _ has c h
            · exact ih _ _ _ has c h
        · simp only [List.mem_cons] at hc
          rcases hc with h | h
          · exact h ▸ ha
          · exact ih _ _ _ has c h

theorem replaceL_all (P : Char → Prop) (fl : Flags) (r : Re) (tpl : List TItem)
    (ht : ∀ c ∈ tplText tpl, P c) (s : List Char) (hs : ∀ c ∈ s, P c) :
    ∀ c ∈ replaceL fl r tpl s, P c :=
  replaceScan_all P fl r tpl ht s true 0 none hs

end JS

namespace JS

/-- The replacement `.replace(/\*/g, '')` leaves no asterisk. -/
theorem replaceScan_star_free (s : List Char) :
    ∀ prev, '*' ∉ replaceScan { g := true } (.chr '*') [] true 0 prev s := by
  induction s with
  | nil =>
    intro prev
    simp [replaceScan, matchAt, compile]
  | cons c cs ih =>
    intro prev
    by_cases hc : c = '*'
    · subst hc
      simp only [replaceScan, matchAt, compile, canon, Bool.false_eq_true, if_false, beq_self_eq_true,
        if_true, expand, List.length_cons, List.nil_append]
      have : (cs.length + 1 - cs.length == 0) = false := by
        have : cs.length + 1 - cs.length = 1 := by omega
        simp [this]
      simp only [this, Bool.false_eq_true, if_false]
      have h1 : cs.length + 1 - cs.length - 1 = 0 := by omega
      rw [h1]
      exact ih _
    · have hne : ('*' == c) = false := by
        simp only [beq_eq_false_iff_ne, ne_eq]
        exact fun h => hc h.symm
      simp only [replaceScan, matchAt, compile, canon, Bool.false_eq_true, if_false, hne]
      intro hmem
      rcases List.mem_cons.1 hmem with h | h
      · exact hc h.symm
      · exact ih _ h

/-- A pattern that has to start with the character `a` fails where the input does not start
with `a` (case-sensitive patterns). -/
theorem compile_startsWith_none (fl : Flags) (hfl : fl.i = false) (a : Char) (r : Re) :
    r.startsWith a = true → ∀ x k, (∀ d ds, x.rest = d :: ds → d ≠ a) → compile fl r x k = none := by
  induction r with
  | eps => intro h; simp [Re.startsWith] at h
  | dot => intro h; simp [Re.startsWith] at h
  | cls _ _ => intro h; simp [Re.startsWith] at h
  | bol => intro h; simp [Re.startsWith] at h
  | eol => intro h; simp [Re.startsWith] at h
  | look _ _ _ => intro h; simp [Re.startsWith] at h
  | chr c =>
    intro h x k hx
    simp only [Re.startsWith, beq_iff_eq] at h
    subst h
    simp only [compile]
    split
    · rfl
    · rename_i d ds hr
      have hd := hx d ds hr
      have : (canon fl c == canon fl d) = false := by
        simp only [canon, hfl, Bool.false_eq_true, if_false, beq_eq_false_iff_ne, ne_eq]
        exact fun h => hd h.symm
      simp [this]
  | seq r s ihr _ =>
    intro h x k hx
    simp only [Re.startsWith] at h
    simp only [compile]
    exact ihr h x _ hx
  | alt r s ihr ihs =>
    intro h x k hx
    simp only [Re.startsWith, Bool.and_eq_true] at h
    simp only [compile, ihr h.1 x k hx, ihs h.2 x k hx]
  | grp i r ih =>
    intro h x k hx
    simp only [Re.startsWith] at h
    simp only [compile]
    exact ih h x _ hx
  | rep greedy min max r ih =>
    intro h x k hx
    simp only [Re.startsWith, Bool.and_eq_true, bne_iff_ne, ne_eq] at h
    obtain ⟨⟨hmin, hmax⟩, hr⟩ := h
    simp only [compile]
    rw [show min + x.rest.length + 1 = (min + x.rest.length) + 1 from rfl]
    unfold repeatM
    have h1 : (max == some 0) = false := by simpa using hmax
    have h2 : (min != 0) = true := by simpa using hmin
    simp only [h1, Bool.false_eq_true, if_false, h2, if_true]
    exact ih hr _ _ hx

/-- A replacement whose pattern has to start with `a` changes nothing in a text without `a`. -/
theorem replaceScan_startsWith (fl : Flags) (hfl : fl.i = false) (a : Char) (r : Re)
    (hr : r.startsWith a = true) (tpl : List TItem) :
    ∀ (s : List Char) (prev : Option Char), (∀ c ∈ s, c ≠ a) →
      replaceScan fl r tpl true 0 prev s = s := by
  intro s
  induction s with
  | nil =>
    intro prev _
    have : matchAt fl r prev [] = none :=
      compile_startsWith_none fl hfl a r hr _ _ (by intro d ds h; cases h)
    simp [replaceScan, this]
  | cons c cs ih =>
    intro prev hs
    have : matchAt fl r prev (c :: cs) = none :=
      compile_startsWith_none fl hfl a r hr _ _ (by
        intro d ds h
        injection h with h1 h2
        exact h1 ▸ hs c (List.mem_cons_self _ _))
    simp only [replaceScan, this]
    rw [ih _ (fun d hd => hs d (List.mem_cons_of_mem _ hd))]

theorem replaceL_startsWith (fl : Flags) (hfl : fl.i = false) (a : Char) (r : Re)
    (hr : r.startsWith a = true) (tpl : List TItem) (s : List Char) (hs : ∀ c ∈ s, c ≠ a) :
    replaceL fl r tpl s = s :=
  replaceScan_startsWith fl hfl a r hr tpl s none hs

/-! ### `trim` -/

theorem trimL_subset (s : List Char) : ∀ c ∈ trimL s, c ∈ s := by
  intro c hc
  unfold trimL at hc
  rw [List.mem_reverse] at hc
  have h1 := (List.dropWhile_suffix isSpace).subset hc
  rw [List.mem_reverse] at h1
  exact (List.dropWhile_suffix isSpace).subset h1

theorem dropWhile_eq_self_of_head {p : Char → Bool} :
    ∀ {l : List Char}, (∀ a ∈ l.head?, p a = false) → l.dropWhile p = l
  | [], _ => rfl
  | a :: l, h => by
    have : p a = false := h a (by simp)
    simp [List.dropWhile, this]

theorem head?_dropWhile_not (p : Char → Bool) :
    ∀ (l : List Char), ∀ a ∈ (l.dropWhile p).head?, p a = false
  | [], a, h => by simp at h
  | b :: l, a, h => by
    by_cases hb : p b = true
    · simp only [List.dropWhile, hb] at h
      exact head?_dropWhile_not p l a h
    · simp only [Bool.not_eq_true] at hb
      simp only [List.dropWhile, hb, List.head?_cons, Option.mem_def, Option.some.injEq] at h
      exact h ▸ hb

/-- Trimming a trimmed text changes nothing. -/
theorem trimL_idem (s : List Char) : trimL (trimL s) = trimL s := by
  unfold trimL
  set u := s.dropWhile isSpace with hu
  set v := u.reverse.dropWhile isSpace with hv
  have hvhead : ∀ a ∈ v.head?, isSpace a = false := head?_dropWhile_not isSpace _
  have huhead : ∀ a ∈ u.head?, isSpace a = false := head?_dropWhile_not isSpace _
  have h1 : v.reverse.dropWhile isSpace = v.reverse := by
    apply dropWhile_eq_self_of_head
    intro a ha
    rw [List.head?_reverse] at ha
    -- the last element of `v` is the last element of `u.reverse`, the head of `u`
    obtain ⟨t, ht⟩ : ∃ t, t ++ v = u.reverse := List.dropWhile_suffix isSpace
    have hvne : v ≠ [] := by
      intro h
      rw [h] at ha
      simp at ha
    have hl : (u.reverse).getLast? = v.getLast? := by
      rw [← ht, List.getLast?_append_of_ne_nil _ hvne]
    rw [List.getLast?_reverse] at hl
    exact huhead a (by rw [hl]; exact ha)
  rw [h1, List.reverse_reverse]
  rw [dropWhile_eq_self_of_head hvhead]

end JS

namespace JS

/-! ### The iteration bound of `repeatM` is never reached

A matcher only calls its continuation on states that are not further from the end of the input
than the state it started from; hence the result of `repeatM` does not depend on its fuel once
the fuel is at least `min + x.rest.length + 1`, the value `compile` passes. -/

/-- `repeatM` only looks at its continuation on states that are no longer than the start. -/
theorem repeatM_congr (m : Matcher) (gs : List Nat) (greedy : Bool)
    (hm : ∀ x k1 k2, (∀ y : MState, y.rest.length ≤ x.rest.length → k1 y = k2 y) →
      m x k1 = m x k2) :
    ∀ fuel min max x c1 c2, (∀ y : MState, y.rest.length ≤ x.rest.length → c1 y = c2 y) →
      repeatM m gs greedy fuel min max x c1 = repeatM m gs greedy fuel min max x c2 := by
  intro fuel
  induction fuel with
  | zero => intro min max x c1 c2 _; rfl
  | succ fuel ih =>
    intro min max x c1 c2 h
    have hx : c1 x = c2 x := h x (Nat.le_refl _)
    have hmd := hm { x with caps := resetCaps gs x.caps }
      (fun y => if (min == 0 && y.rest.length == x.rest.length) = true then none
        else repeatM m gs greedy fuel (min - 1) (Option.map (fun x => x - 1) max) y c1)
      (fun y => if (min == 0 && y.rest.length == x.rest.length) = true then none
        else repeatM m gs greedy fuel (min - 1) (Option.map (fun x => x - 1) max) y c2)
      (by
        intro y hy
        have hy1 : y.rest.length ≤ x.rest.length := hy
        by_cases hcond : (min == 0 && y.rest.length == x.rest.length) = true
        · simp only [hcond, if_true]
        · simp only [hcond, if_false]
          exact ih _ _ y c1 c2 (fun z hz => h z (Nat.le_trans hz hy1)))
    unfold repeatM
    simp only [hx, hmd]

/-- The matcher of a pattern only looks at its continuation on states that are no longer than
the start. -/
theorem compile_congr (fl : Flags) (r : Re) :
    ∀ x k1 k2, (∀ y : MState, y.rest.length ≤ x.rest.length → k1 y = k2 y) →
      compile fl r x k1 = compile fl r x k2 := by
  induction r with
  | eps => intro x k1 k2 h; exact h x (Nat.le_refl _)
  | chr a =>
    intro x k1 k2 h
    simp only [compile]
    split
    · rfl
    · rename_i d ds hr
      rw [h { x with prev := some d, rest := ds } (by simp [hr])]
  | dot =>
    intro x k1 k2 h
    simp only [compile]
    split
    · rfl
    · rename_i d ds hr
      rw [h { x with prev := some d, rest := ds } (by simp [hr])]
  | cls neg items =>
    intro x k1 k2 h
    simp only [compile]
    split
    · rfl
    · rename_i d ds hr
      rw [h { x with prev := some d, rest := ds } (by simp [hr])]
  | bol => intro x k1 k2 h; simp only [compile, h x (Nat.le_refl _)]
  | eol => intro x k1 k2 h; simp only [compile, h x (Nat.le_refl _)]
  | seq a b iha ihb =>
    intro x k1 k2 h
    simp only [compile]
    exact iha x _ _ (fun y hy => ihb y k1 k2 (fun z hz => h z (Nat.le_trans hz hy)))
  | alt a b iha ihb =>
    intro x k1 k2 h
    simp only [compile, iha x k1 k2 h, ihb x k1 k2 h]
  | rep greedy min max r ih =>
    intro x k1 k2 h
    simp only [compile]
    exact repeatM_congr _ _ _ ih _ _ _ x k1 k2 h
  | grp i r ih =>
    intro x k1 k2 h
    simp only [compile]
    exact ih x _ _ (fun y hy =>
      h { y with caps := fun j => if j == i then some (consumed x y) else y.caps j } hy)
  | look neg r _ =>
    intro x k1 k2 h
    simp only [compile, h x (Nat.le_refl _)]
    split
    · rename_i y _
      rw [h { x with caps := y.caps } (Nat.le_refl _)]
    · rfl

/-- Fuel beyond `min + x.rest.length + 1` does not change the result of `repeatM`. -/
theorem repeatM_fuel (fl : Flags) (r : Re) (gs : List Nat) (greedy : Bool) :
    ∀ f1 f2 min max x c, min + x.rest.length + 1 ≤ f1 → min + x.rest.length + 1 ≤ f2 →
      repeatM (compile fl r) gs greedy f1 min max x c =
        repeatM (compile fl r) gs greedy f2 min max x c := by
  intro f1
  induction f1 with
  | zero => intro f2 min max x c h1 _; omega
  | succ n ih =>
    intro f2 min max x c h1 h2
    cases f2 with
    | zero => omega
    | succ k =>
      have hmd := compile_congr fl r { x with caps := resetCaps gs x.caps }
        (fun y => if (min == 0 && y.rest.length == x.rest.length) = true then none
          else repeatM (compile fl r) gs greedy n (min - 1) (Option.map (fun x => x - 1) max) y c)
        (fun y => if (min == 0 && y.rest.length == x.rest.length) = true then none
          else repeatM (compile fl r) gs greedy k (min - 1) (Option.map (fun x => x - 1) max) y c)
        (by
          intro y hy
          have hy1 : y.rest.length ≤ x.rest.length := hy
          by_cases hcond : (min == 0 && y.rest.length == x.rest.length) = true
          · simp only [hcond, if_true]
          · simp only [hcond, if_false]
            have hb : min - 1 + y.rest.length + 1 ≤ n ∧ min - 1 + y.rest.length + 1 ≤ k := by
              simp only [Bool.and_eq_true, beq_iff_eq, not_and] at hcond
              by_cases hmin : min = 0
              · have := hcond hmin
                omega
              · omega
            exact ih k (min - 1) _ y c hb.1 hb.2)
      unfold repeatM
      simp only [hmd]

end JS

namespace Chats

open JS

/-! ## Chains of replacements -/

theorem runSteps_append (a b : List Step) (s : List Char) :
    runSteps (a ++ b) s = runSteps b (runSteps a s) := by
  simp [runSteps, List.foldl_append]

theorem runSteps_cons (st : Step) (rest : List Step) (s : List Char) :
    runSteps (st :: rest) s = runSteps rest (st.run s) := rfl

theorem runSteps_nil (s : List Char) : runSteps [] s = s := rfl

/-- A replacement whose template has no asterisk does not introduce one. -/
theorem Step.run_star_free (st : Step) (ht : '*' ∉ tplText st.tpl) (s : List Char)
    (hs : '*' ∉ s) : '*' ∉ st.run s := by
  intro hmem
  exact replaceL_all (fun c => c ≠ '*') st.fl st.re st.tpl
    (fun c hc he => ht (he ▸ hc)) s (fun c hc he => hs (he ▸ hc)) '*' hmem rfl

theorem runSteps_star_free (steps : List Step) (ht : ∀ st ∈ steps, '*' ∉ tplText st.tpl) :
    ∀ s : List Char, '*' ∉ s → '*' ∉ runSteps steps s := by
  induction steps with
  | nil => intro s hs; exact hs
  | cons st rest ih =>
    intro s hs
    rw [runSteps_cons]
    exact ih (fun t ht1 => ht t (List.mem_cons_of_mem _ ht1)) _
      (Step.run_star_free st (ht st (List.mem_cons_self _ _)) s hs)

/-- A chain of case-sensitive replacements whose patterns all have to start with an asterisk
changes nothing in a text without asterisks. -/
theorem runSteps_needsStar (steps : List Step) (h : steps.all Step.needsStar = true) :
    ∀ s : List Char, '*' ∉ s → runSteps steps s = s := by
  induction steps with
  | nil => intro s _; rfl
  | cons st rest ih =>
    intro s hs
    simp only [List.all_cons, Bool.and_eq_true] at h
    have h1 := h.1
    simp only [Step.needsStar, Bool.and_eq_true, Bool.not_eq_true'] at h1
    have hrun : st.run s = s :=
      replaceL_startsWith st.fl h1.1 '*' st.re h1.2 st.tpl s (fun c hc he => hs (he ▸ hc))
    rw [runSteps_cons, hrun]
    exact ih h.2 s hs

/-- After the emphasis passes no asterisk is left, whatever the text was before. -/
theorem emphasisSteps_star_free (s : List Char) : '*' ∉ runSteps emphasisSteps s := by
  have hsplit : emphasisSteps =
      emphasisSteps.take 7 ++ (⟨fG, .chr '*', []⟩ :: emphasisSteps.drop 8) := rfl
  rw [hsplit, runSteps_append, runSteps_cons]
  apply runSteps_star_free
  · intro st hst
    simp only [emphasisSteps, List.drop_succ_cons, List.drop_zero, List.mem_cons,
      List.mem_singleton] at hst
    rcases hst with h | h | h | h <;> (try subst h) <;> first | simp [tplText] | cases h
  · exact replaceScan_star_free _ none

/-- The text computed by `cleanResearchContent` before the final trim has no asterisk. -/
theorem cleanSteps_star_free (provider : List Re) (s : List Char) :
    '*' ∉ runSteps (cleanSteps provider) s := by
  unfold cleanSteps
  rw [runSteps_append, runSteps_append]
  apply runSteps_star_free
  · intro st hst
    simp only [tidySteps, List.mem_cons, List.mem_singleton] at hst
    rcases hst with h | h | h | h | h | h <;> (try subst h) <;>
      first | simp [tplText] | decide | cases h
  · exact emphasisSteps_star_free _

theorem data_mk (l : List Char) : (String.mk l).data = l := rfl

theorem cleanResearchContent_none (provider : List Re) :
    cleanResearchContent none provider = "" := rfl

theorem cleanResearchContent_some (s : String) (provider : List Re) :
    cleanResearchContent (some s) provider =
      if s.data.isEmpty then "" else String.mk (trimL (runSteps (cleanSteps provider) s.data)) :=
  rfl

/-- Shared fact behind C2, C3 and C5: the normalised text has no asterisk. -/
theorem clean_star_free (content : Option String) (provider : List Re) :
    '*' ∉ (cleanResearchContent content provider).data := by
  cases content with
  | none => rw [cleanResearchContent_none]; exact List.not_mem_nil _
  | some s =>
    rw [cleanResearchContent_some]
    by_cases he : s.data.isEmpty = true
    · rw [if_pos he]; exact List.not_mem_nil _
    · rw [if_neg he]
      rw [data_mk]
      intro h
      exact cleanSteps_star_free provider s.data
        (trimL_subset (runSteps (cleanSteps provider) s.data) '*' h)

/-- The normalised text is trimmed. -/
theorem clean_trimmed (content : Option String) (provider : List Re) :
    trimL (cleanResearchContent content provider).data =
      (cleanResearchContent content provider).data := by
  cases content with
  | none => rw [cleanResearchContent_none]; rfl
  | some s =>
    rw [cleanResearchContent_some]
    by_cases he : s.data.isEmpty = true
    · rw [if_pos he]; rfl
    · rw [if_neg he, data_mk]
      exact trimL_idem (runSteps (cleanSteps provider) s.data)

/-! ## C2, C3, C4: the normaliser -/

/-- C2 (emphasis-free output): for every content (absent, empty or any string) and every
provider label, the string returned by `cleanResearchContent` contains no asterisk. -/
theorem cleanResearchContent_no_asterisk (content : Option String) (provider : List Re) :
    '*' ∉ (cleanResearchContent content provider).data :=
  clean_star_free content provider

/-- C3, counterexample: `cleanResearchContent` is not idempotent.  On `"a\n \n\nb"` the
blank-line collapse (step `/\n{3,}/g`) runs before the trailing blanks are removed
(step `/[ \t]+$/gm`), so the first application returns `"a\n\n\nb"` and the second one
returns `"a\n\nb"`. -/
theorem cleanResearchContent_not_idempotent :
    cleanResearchContent (some "a\n \n\nb") chatgptLabel = "a\n\n\nb" ∧
    cleanResearchContent (some "a\n\n\nb") chatgptLabel = "a\n\nb" ∧
    cleanResearchContent (some (cleanResearchContent (some "a\n \n\nb") chatgptLabel))
        chatgptLabel ≠ cleanResearchContent (some "a\n \n\nb") chatgptLabel := by
  decide!

/-- C3, amended: re-normalisation is idempotent as far as emphasis markup and outer whitespace
go: for every content and provider label, applying the emphasis-removal steps of
`cleanResearchContent` (lines 34-46) and `.trim()` to the normalised text returns the
normalised text unchanged. -/
theorem cleanResearchContent_emphasis_idempotent (content : Option String)
    (provider : List Re) :
    trimL (runSteps emphasisSteps (cleanResearchContent content provider).data) =
      (cleanResearchContent content provider).data := by
  rw [runSteps_needsStar emphasisSteps rfl _ (clean_star_free content provider)]
  exact clean_trimmed content provider

/-- C4 (scenario E): with either provider label used by the routes, `cleanResearchContent`
maps `"**bold** and *italic* and ***both***"` to exactly `"bold and italic and both"`. -/
theorem cleanResearchContent_scenario_E :
    cleanResearchContent (some "**bold** and *italic* and ***both***") chatgptLabel =
      "bold and italic and both" ∧
    cleanResearchContent (some "**bold** and *italic* and ***both***") geminiLabel =
      "bold and italic and both" := by
  decide!

end Chats

namespace Chats

open JS

/-! ## The clarification-answer handler on the final answer -/

theorem isEmpty_data_iff (s : String) : s.data.isEmpty = true ↔ s = "" := by
  cases s with
  | mk l =>
    cases l with
    | nil => simp
    | cons a as =>
      simp only [List.isEmpty_cons, Bool.false_eq_true, false_iff]
      intro h
      have := congrArg String.data h
      simp at this

/-- The three extra passes over the cleaned Gemini text change nothing: `finalGemini` is the
text returned by `cleanResearchContent`. -/
theorem finalGemini_returned (G : String) (hG : G.data.isEmpty = false) :
    finalGemini ⟨true, some G⟩ = some (cleanResearchContent (some G) geminiLabel) := by
  unfold finalGemini
  simp only [hG, Bool.false_eq_true, if_false]
  by_cases he : (cleanResearchContent (some G) geminiLabel).data.isEmpty = true
  · rw [if_pos he]
  · rw [if_neg he]
    rw [runSteps_needsStar geminiExtraSteps rfl _ (clean_star_free (some G) geminiLabel),
      clean_trimmed]

theorem geminiLabeled_returned (G : String)
    (hG : cleanResearchContent (some G) geminiLabel ≠ "") :
    geminiLabeled ⟨true, some G⟩ =
      some ("# Gemini (Google) Research\n\n" ++ cleanResearchContent (some G) geminiLabel) := by
  have hne : G.data.isEmpty = false := by
    cases h : G.data.isEmpty with
    | false => rfl
    | true =>
      exfalso
      apply hG
      rw [cleanResearchContent_some, if_pos h]
  have hc : ¬ (cleanResearchContent (some G) geminiLabel).data.isEmpty = true :=
    fun h => hG ((isEmpty_data_iff _).1 h)
  unfold geminiLabeled
  rw [finalGemini_returned G hne]
  simp only [hc, Bool.false_eq_true, if_false]

/-- A secondary result that is a declared failure, or has no page, or an empty page, gives no
secondary document. -/
theorem geminiLabeled_failed (r : PageResult)
    (h : r.success = false ∨ r.researchPage = none ∨ r.researchPage = some "") :
    geminiLabeled r = none := by
  have hf : finalGemini r = none := by
    unfold finalGemini
    rcases r with ⟨s, p⟩
    rcases h with h | h | h
    · simp only at h; subst h; rfl
    · simp only at h; subst h; cases s <;> rfl
    · simp only at h; subst h; cases s <;> rfl
  unfold geminiLabeled
  rw [hf]

end Chats

namespace Chats

open JS

theorem dispatch_returned (P : Providers) (args : ResearchArgs) (r g : PageResult)
    (h1 : P.openaiResearchPage args = .returned r) (h2 : P.geminiResearchPage args = .returned g) :
    dispatch P args = (r, g) := by
  simp [dispatch, h1, h2]

theorem dispatch_secondary_threw (P : Providers) (args : ResearchArgs) (r : PageResult)
    (h1 : P.openaiResearchPage args = .returned r) (h2 : P.geminiResearchPage args = .threw) :
    dispatch P args = (r, ⟨false, none⟩) := by
  simp [dispatch, h1, h2]

theorem dispatch_primary_returned (P : Providers) (args : ResearchArgs) (r : PageResult)
    (h1 : P.openaiResearchPage args = .returned r) : (dispatch P args).1 = r := by
  simp only [dispatch, h1]

/-- The final answer on an open chat when the primary result reports success. -/
theorem clarificationAnswer_final_success (P : Providers) (st : Db.Store) (userId chatId : Nat)
    (chat : Db.Chat) (body : AnswerBody) (r g : PageResult)
    (hfind : chatQueries.findById st chatId = some chat) (hown : chat.user_id = userId)
    (hc : chat.is_completed = false) (he : chat.has_error = false)
    (hlast : body.questionIndex ≥ body.totalQuestions - 1)
    (hd : dispatch P body.args = (r, g)) (hs : r.success = true) :
    clarificationAnswer P st userId chatId body =
      ⟨⟨200, [("success", .bool true), ("messageType", .str "research_pages"),
              ("openaiResearch", .str (openaiLabeled r)),
              ("geminiResearch",
                match geminiLabeled g with
                | some geminiDoc => .str geminiDoc
                | none => .null)]⟩,
        chatQueries.markAsCompleted
          (match geminiLabeled g with
           | some geminiDoc =>
              messageQueries.create (messageQueries.create (messageQueries.create st chatId body.message true)
                chatId (some (openaiLabeled r)) false) chatId (some geminiDoc) false
           | none =>
              messageQueries.create (messageQueries.create st chatId body.message true)
                chatId (some (openaiLabeled r)) false) chatId,
        [.openaiResearch body.args, .geminiResearch body.args]⟩ := by
  unfold clarificationAnswer
  simp only [hfind, hown, bne_self_eq_false, Bool.false_eq_true, if_false, hc, he, Bool.or_self,
    hlast, if_true, hd, hs]

/-- The final answer on an open chat when the primary result does not report success. -/
theorem clarificationAnswer_final_failure (P : Providers) (st : Db.Store) (userId chatId : Nat)
    (chat : Db.Chat) (body : AnswerBody)
    (hfind : chatQueries.findById st chatId = some chat) (hown : chat.user_id = userId)
    (hc : chat.is_completed = false) (he : chat.has_error = false)
    (hlast : body.questionIndex ≥ body.totalQuestions - 1)
    (hs : (dispatch P body.args).1.success = false) :
    clarificationAnswer P st userId chatId body =
      ⟨⟨200, [("success", .bool true), ("response", .str apology)]⟩,
        chatQueries.markAsError
          (messageQueries.create (messageQueries.create st chatId body.message true)
            chatId (some apology) false) chatId,
        [.openaiResearch body.args, .geminiResearch body.args]⟩ := by
  unfold clarificationAnswer
  simp only [hfind, hown, bne_self_eq_false, Bool.false_eq_true, if_false, hc, he, Bool.or_self,
    hlast, if_true, hs]

end Chats

namespace Chats

open JS

/-! ## C5, C6, C7: the fan-out on the final answer -/

/-- C5 (final answer, both providers succeed): on an open chat owned by the caller, when
`questionIndex >= totalQuestions - 1`, the primary result is a success with page `page` and the
secondary result is a success with a page `G` whose cleaned text is not empty, the handler
appends exactly three messages in this order: the user's answer, the ChatGPT header followed by
`cleanResearchContent(page, 'ChatGPT|OpenAI')`, the Gemini header followed by
`cleanResearchContent(G, 'Gemini|Google')`; the chat is marked completed and not errored. -/
theorem final_answer_both_succeed (P : Providers) (st : Db.Store) (userId chatId : Nat)
    (chat : Db.Chat) (body : AnswerBody) (page G : String)
    (hfind : chatQueries.findById st chatId = some chat) (hown : chat.user_id = userId)
    (hc : chat.is_completed = false) (he : chat.has_error = false)
    (hlast : body.questionIndex ≥ body.totalQuestions - 1)
    (hprimary : P.openaiResearchPage body.args = .returned ⟨true, some page⟩)
    (hsecondary : P.geminiResearchPage body.args = .returned ⟨true, some G⟩)
    (hG : cleanResearchContent (some G) geminiLabel ≠ "") :
    (clarificationAnswer P st userId chatId body).store.messages =
      st.messages ++
        [⟨chatId, body.message, true⟩,
         ⟨chatId, some ("# ChatGPT (OpenAI) Research\n\n" ++
            cleanResearchContent (some page) chatgptLabel), false⟩,
         ⟨chatId, some ("# Gemini (Google) Research\n\n" ++
            cleanResearchContent (some G) geminiLabel), false⟩] ∧
    chatQueries.findById (clarificationAnswer P st userId chatId body).store chatId =
      some { chat with is_completed := true, has_error := false } := by
  rw [clarificationAnswer_final_success P st userId chatId chat body _ _ hfind hown hc he hlast
    (dispatch_returned P body.args _ _ hprimary hsecondary) rfl]
  simp only [geminiLabeled_returned G hG]
  constructor
  · simp [chatQueries.markAsCompleted, messageQueries.create, openaiLabeled]
  · rw [find_markAsCompleted, find_createMessage, find_createMessage, find_createMessage, hfind]
    simp [he]

/-- C5, witness: a one-question session where both providers return a page. -/
theorem final_answer_both_succeed_witness :
    (clarificationAnswer
        (Sample.providers .threw (.returned ⟨true, some "Findings"⟩)
          (.returned ⟨true, some "More"⟩))
        Sample.store 7 1 Sample.body).store.messages =
      Sample.store.messages ++
        [⟨1, Sample.body.message, true⟩,
         ⟨1, some ("# ChatGPT (OpenAI) Research\n\n" ++
            cleanResearchContent (some "Findings") chatgptLabel), false⟩,
         ⟨1, some ("# Gemini (Google) Research\n\n" ++
            cleanResearchContent (some "More") geminiLabel), false⟩] :=
  (final_answer_both_succeed
    (Sample.providers .threw (.returned ⟨true, some "Findings"⟩) (.returned ⟨true, some "More"⟩))
    Sample.store 7 1 Sample.chat Sample.body "Findings" "More" rfl rfl rfl rfl (by decide) rfl rfl
    (by decide!)).1

/-- C6 (secondary failure is not fatal): on the final answer of an open chat owned by the
caller, if the primary provider succeeds and the secondary provider rejects with an exception,
or returns `success = false`, or returns no page or an empty page, then exactly two messages are
appended (the user's answer and the labeled primary document, the only assistant message), the
chat is marked completed and not errored, and `geminiResearch` of the response is `null`. -/
theorem final_answer_secondary_fails (P : Providers) (st : Db.Store) (userId chatId : Nat)
    (chat : Db.Chat) (body : AnswerBody) (page : String)
    (hfind : chatQueries.findById st chatId = some chat) (hown : chat.user_id = userId)
    (hc : chat.is_completed = false) (he : chat.has_error = false)
    (hlast : body.questionIndex ≥ body.totalQuestions - 1)
    (hprimary : P.openaiResearchPage body.args = .returned ⟨true, some page⟩)
    (hsecondary : P.geminiResearchPage body.args = .threw ∨
      ∃ g, P.geminiResearchPage body.args = .returned g ∧
        (g.success = false ∨ g.researchPage = none ∨ g.researchPage = some "")) :
    (clarificationAnswer P st userId chatId body).store.messages =
      st.messages ++
        [⟨chatId, body.message, true⟩,
         ⟨chatId, some ("# ChatGPT (OpenAI) Research\n\n" ++
            cleanResearchContent (some page) chatgptLabel), false⟩] ∧
    chatQueries.findById (clarificationAnswer P st userId chatId body).store chatId =
      some { chat with is_completed := true, has_error := false } ∧
    (clarificationAnswer P st userId chatId body).response =
      ⟨200, [("success", .bool true), ("messageType", .str "research_pages"),
             ("openaiResearch", .str ("# ChatGPT (OpenAI) Research\n\n" ++
                cleanResearchContent (some page) chatgptLabel)),
             ("geminiResearch", .null)]⟩ := by
  obtain ⟨g, hd, hg⟩ : ∃ g, dispatch P body.args = (⟨true, some page⟩, g) ∧
      geminiLabeled g = none := by
    rcases hsecondary with h | ⟨g, h, hg⟩
    · exact ⟨_, dispatch_secondary_threw P body.args _ hprimary h,
        geminiLabeled_failed _ (Or.inl rfl)⟩
    · exact ⟨g, dispatch_returned P body.args _ _ hprimary h, geminiLabeled_failed g hg⟩
  rw [clarificationAnswer_final_success P st userId chatId chat body _ _ hfind hown hc he hlast
    hd rfl]
  simp only [hg]
  refine ⟨?_, ?_, ?_⟩
  · simp [chatQueries.markAsCompleted, messageQueries.create, openaiLabeled]
  · rw [find_markAsCompleted, find_createMessage, find_createMessage, hfind]
    simp [he]
  · simp [openaiLabeled]

/-- C6, witness: the secondary provider rejects (scenario C). -/
theorem final_answer_secondary_fails_witness :
    (clarificationAnswer (Sample.providers .threw (.returned ⟨true, some "Findings"⟩) .threw)
        Sample.store 7 1 Sample.body).response =
      ⟨200, [("success", .bool true), ("messageType", .str "research_pages"),
             ("openaiResearch", .str ("# ChatGPT (OpenAI) Research\n\n" ++
                cleanResearchContent (some "Findings") chatgptLabel)),
             ("geminiResearch", .null)]⟩ :=
  (final_answer_secondary_fails
    (Sample.providers .threw (.returned ⟨true, some "Findings"⟩) .threw)
    Sample.store 7 1 Sample.chat Sample.body "Findings" rfl rfl rfl rfl (by decide) rfl
    (Or.inl rfl)).2.2

/-- C7 (primary failure is fatal): on the final answer of an open chat owned by the caller, if
the primary provider returns `success = false` then, whatever the secondary provider does, the
chat is marked errored and not completed, exactly two messages are appended (the user's answer
and the fixed apology, the only assistant message), and the response carries the apology and no
research document. -/
theorem final_answer_primary_fails (P : Providers) (st : Db.Store) (userId chatId : Nat)
    (chat : Db.Chat) (body : AnswerBody) (r : PageResult)
    (hfind : chatQueries.findById st chatId = some chat) (hown : chat.user_id = userId)
    (hc : chat.is_completed = false) (he : chat.has_error = false)
    (hlast : body.questionIndex ≥ body.totalQuestions - 1)
    (hprimary : P.openaiResearchPage body.args = .returned r) (hfail : r.success = false) :
    (clarificationAnswer P st userId chatId body).store.messages =
      st.messages ++
        [⟨chatId, body.message, true⟩,
         ⟨chatId, some "I'm not able to find the answer right now. Please try again.", false⟩] ∧
    chatQueries.findById (clarificationAnswer P st userId chatId body).store chatId =
      some { chat with is_completed := false, has_error := true } ∧
    (clarificationAnswer P st userId chatId body).response =
      ⟨200, [("success", .bool true),
             ("response", .str "I'm not able to find the answer right now. Please try again.")]⟩ := by
  rw [clarificationAnswer_final_failure P st userId chatId chat body hfind hown hc he hlast
    (by rw [dispatch_primary_returned P body.args r hprimary]; exact hfail)]
  refine ⟨?_, ?_, ?_⟩
  · simp [chatQueries.markAsError, messageQueries.create, apology]
  · rw [find_markAsError, find_createMessage, find_createMessage, hfind]
    simp [hc]
  · simp [apology]

/-- C7, witness: the primary provider declares failure while the secondary one returns a page
(scenario D). -/
theorem final_answer_primary_fails_witness :
    chatQueries.findById
      (clarificationAnswer
        (Sample.providers .threw (.returned ⟨false, none⟩) (.returned ⟨true, some "More"⟩))
        Sample.store 7 1 Sample.body).store 1 =
      some { Sample.chat with is_completed := false, has_error := true } :=
  (final_answer_primary_fails
    (Sample.providers .threw (.returned ⟨false, none⟩) (.returned ⟨true, some "More"⟩))
    Sample.store 7 1 Sample.chat Sample.body ⟨false, none⟩ rfl rfl rfl rfl (by decide) rfl
    rfl).2.1

end Chats

namespace Chats

open JS

/-! ## C10: topic submission -/

/-- The numbered lines of the clarifying-questions turn: line `i` is `"i+1. q_i"`. -/
theorem numbered_lines (qs : List String) :
    (qs.enum.map (fun p => toString (p.1 + 1) ++ ". " ++ p.2)).length = qs.length ∧
    ∀ (i : Nat) (h : i < qs.length),
      (qs.enum.map (fun p => toString (p.1 + 1) ++ ". " ++ p.2))[i]? =
        some (toString (i + 1) ++ ". " ++ qs[i]) := by
  constructor
  · simp
  · intro i h
    simp [List.getElem?_map, List.getElem?_enum, List.getElem?_eq_getElem h]

/-- C10 (topic submission success): on an open chat owned by the caller, when title and
questions generation succeeds with title `T` and questions `qs`, the research-topic handler
appends exactly two messages (the user's topic, then one assistant message whose text is the
fixed opening sentence, the lines `"i. q_i"` for every question in order with `i` counted from
1, joined by blank lines, and the fixed closing sentence), sets the chat title to `T`, leaves the
chat neither completed nor errored, and returns the same questions in the same order. -/
theorem research_topic_success (P : Providers) (st : Db.Store) (userId chatId : Nat)
    (chat : Db.Chat) (message : Option String) (T : String) (qs : List String)
    (hfind : chatQueries.findById st chatId = some chat) (hown : chat.user_id = userId)
    (hc : chat.is_completed = false) (he : chat.has_error = false)
    (hgen : P.generateTitleAndQuestions message = .returned ⟨true, T, qs⟩) :
    ∃ lines : List String,
      lines.length = qs.length ∧
      (∀ (i : Nat) (h : i < qs.length), lines[i]? = some (toString (i + 1) ++ ". " ++ qs[i])) ∧
      (researchTopic P st userId chatId message).store.messages =
        st.messages ++
          [⟨chatId, message, true⟩,
           ⟨chatId, some (
              "I'd like to help you refine your research topic. To provide you with the most relevant research guidance, I have a few clarifying questions:\n\n" ++
              "\n\n".intercalate lines ++
              "\n\nPlease answer these questions one by one, and I'll do a comprehensive research for you."),
            false⟩] ∧
      chatQueries.findById (researchTopic P st userId chatId message).store chatId =
        some { chat with title := T, is_completed := false, has_error := false } ∧
      (researchTopic P st userId chatId message).response =
        ⟨200, [("success", .bool true),
               ("response", .str (
                  "I'd like to help you refine your research topic. To provide you with the most relevant research guidance, I have a few clarifying questions:\n\n" ++
                  "\n\n".intercalate lines ++
                  "\n\nPlease answer these questions one by one, and I'll do a comprehensive research for you.")),
               ("messageType", .str "clarifying_questions"),
               ("questions", .strs qs), ("title", .str T)]⟩ := by
  refine ⟨qs.enum.map (fun p => toString (p.1 + 1) ++ ". " ++ p.2),
    (numbered_lines qs).1, (numbered_lines qs).2, ?_⟩
  have hrun : researchTopic P st userId chatId message =
      ⟨⟨200, [("success", .bool true), ("response", .str (questionsText qs)),
              ("messageType", .str "clarifying_questions"),
              ("questions", .strs qs), ("title", .str T)]⟩,
        messageQueries.create (chatQueries.updateTitle (messageQueries.create st chatId message true) chatId T)
          chatId (some (questionsText qs)) false,
        [.titleAndQuestions message]⟩ := by
    unfold researchTopic
    simp only [hfind, hown, bne_self_eq_false, Bool.false_eq_true, if_false, hc, he,
      Bool.or_self, hgen, if_true]
  rw [hrun]
  refine ⟨?_, ?_, ?_⟩
  · simp [messageQueries.create, chatQueries.updateTitle, questionsText]
  · rw [find_createMessage, find_updateTitle, find_createMessage, hfind]
    simp [hc, he]
  · simp [questionsText]

/-- C10, witness: the topic "cricket" with two generated questions. -/
theorem research_topic_success_witness :
    ∃ lines : List String,
      lines.length = ["Which team?", "Which era?"].length ∧
      (∀ (i : Nat) (h : i < ["Which team?", "Which era?"].length),
        lines[i]? = some (toString (i + 1) ++ ". " ++ ["Which team?", "Which era?"][i])) ∧
      (researchTopic
          (Sample.providers (.returned ⟨true, "Cricket", ["Which team?", "Which era?"]⟩)
            .threw .threw)
          Sample.store 7 1 (some "cricket")).store.messages =
        Sample.store.messages ++
          [⟨1, some "cricket", true⟩,
           ⟨1, some (
              "I'd like to help you refine your research topic. To provide you with the most relevant research guidance, I have a few clarifying questions:\n\n" ++
              "\n\n".intercalate lines ++
              "\n\nPlease answer these questions one by one, and I'll do a comprehensive research for you."),
            false⟩] := by
  obtain ⟨lines, h1, h2, h3, _⟩ := research_topic_success
    (Sample.providers (.returned ⟨true, "Cricket", ["Which team?", "Which era?"]⟩) .threw .threw)
    Sample.store 7 1 Sample.chat (some "cricket") "Cricket" ["Which team?", "Which era?"]
    rfl rfl rfl rfl rfl
  exact ⟨lines, h1, h2, h3⟩

end Chats

namespace Email

open Chats

/-! ## The send-email route -/

theorem orElse_ne_empty (x : Option String) (fallback : String) (h : fallback ≠ "") :
    orElse x fallback ≠ "" := by
  unfold orElse
  cases x with
  | none => exact h
  | some s =>
    by_cases he : s.data.isEmpty = true
    · simp only [he, if_true]; exact h
    · simp only [he, Bool.false_eq_true, if_false]
      exact fun hs => he ((isEmpty_data_iff s).2 hs)

theorem orElse_some (s fallback : String) (h : s ≠ "") : orElse (some s) fallback = s := by
  unfold orElse
  have he : ¬ s.data.isEmpty = true := fun he => h ((isEmpty_data_iff s).1 he)
  simp only [he, Bool.false_eq_true, if_false]

/-- The route calls the email service with the contents of the last two assistant messages. -/
theorem sendEmail_eq_send (S : Db.Store) (userId chatId : Nat) (chat : Db.Chat) (user : Db.User)
    (email : String) (o g : Db.Message)
    (hfind : chatQueries.findById S chatId = some chat) (hown : chat.user_id = userId)
    (huser : userQueries.findById S userId = some user) (hemail : user.email = some email)
    (hne : email ≠ "")
    (hlen : 3 ≤ (messageQueries.findByChatId S chatId).length)
    (hai : 2 ≤ ((messageQueries.findByChatId S chatId).filter (fun m => !m.is_user)).length)
    (hg : ((messageQueries.findByChatId S chatId).filter (fun m => !m.is_user)).get?
        (((messageQueries.findByChatId S chatId).filter (fun m => !m.is_user)).length - 1) = some g)
    (ho : ((messageQueries.findByChatId S chatId).filter (fun m => !m.is_user)).get?
        (((messageQueries.findByChatId S chatId).filter (fun m => !m.is_user)).length - 2) = some o) :
    sendEmail S userId chatId =
      .send ⟨email, o.content,
        orElse g.content "## Gemini (Google) Research\n\nNo Gemini content available.",
        orElse (((messageQueries.findByChatId S chatId).find? (fun m => m.is_user)).bind
          (fun m => m.content)) "Research Topic"⟩ := by
  have he : ¬ email.data.isEmpty = true := fun he => hne ((isEmpty_data_iff email).1 he)
  unfold sendEmail
  simp only [hfind, hown, bne_self_eq_false, Bool.false_eq_true, if_false, huser, hemail, he,
    Nat.not_lt.2 hlen, Nat.not_lt.2 hai, hg, ho]

end Email

namespace Email

open Chats

theorem filter_ai_append_two (A : List Db.Message) (o g : Db.Message)
    (ho : o.is_user = false) (hg : g.is_user = false) :
    ∃ B : List Db.Message,
      (A ++ [o, g]).filter (fun m => !m.is_user) = B ++ [o, g] := by
  refine ⟨A.filter (fun m => !m.is_user), ?_⟩
  simp [List.filter_append, List.filter_cons, ho, hg]

theorem get?_append_two (B : List Db.Message) (o g : Db.Message) :
    (B ++ [o, g]).get? ((B ++ [o, g]).length - 1) = some g ∧
    (B ++ [o, g]).get? ((B ++ [o, g]).length - 2) = some o ∧
    2 ≤ (B ++ [o, g]).length := by
  have h1 : (B ++ [o, g]).length - 1 = B.length + 1 := by simp
  have h2 : (B ++ [o, g]).length - 2 = B.length := by simp
  rw [h1, h2]
  refine ⟨?_, ?_, by simp⟩
  · rw [List.get?_eq_getElem?, List.getElem?_append_right (by omega)]
    simp
  · rw [List.get?_eq_getElem?, List.getElem?_append_right (by omega)]
    simp

/-- Shared by C8 and C9: when the assistant messages of the chat end with `o`, `g`, the route
sends `o` as `chatgptContent` and `g` (or the placeholder, when `g` has no content) as
`geminiContent`. -/
theorem sendEmail_last_two (S : Db.Store) (userId chatId : Nat) (chat : Db.Chat)
    (user : Db.User) (email : String) (B : List Db.Message) (o g : Db.Message)
    (hfind : chatQueries.findById S chatId = some chat) (hown : chat.user_id = userId)
    (huser : userQueries.findById S userId = some user) (hemail : user.email = some email)
    (hne : email ≠ "")
    (hlen : 3 ≤ (messageQueries.findByChatId S chatId).length)
    (hai : (messageQueries.findByChatId S chatId).filter (fun m => !m.is_user) = B ++ [o, g]) :
    sendEmail S userId chatId =
      .send ⟨email, o.content,
        orElse g.content "## Gemini (Google) Research\n\nNo Gemini content available.",
        orElse (((messageQueries.findByChatId S chatId).find? (fun m => m.is_user)).bind
          (fun m => m.content)) "Research Topic"⟩ := by
  obtain ⟨h1, h2, h3⟩ := get?_append_two B o g
  exact sendEmail_eq_send S userId chatId chat user email o g hfind hown huser hemail hne
    hlen (by rw [hai]; exact h3) (by rw [hai]; exact h1) (by rw [hai]; exact h2)

end Email

namespace Chats

open JS

theorem findMessages_createMessage (st : Db.Store) (chatId : Nat) (content : Option String)
    (u : Bool) :
    messageQueries.findByChatId (messageQueries.create st chatId content u) chatId =
      messageQueries.findByChatId st chatId ++ [⟨chatId, content, u⟩] := by
  simp [messageQueries.findByChatId, messageQueries.create, List.filter_append, List.filter_cons]

theorem findMessages_markAsCompleted (st : Db.Store) (cid chatId : Nat) :
    messageQueries.findByChatId (chatQueries.markAsCompleted st cid) chatId =
      messageQueries.findByChatId st chatId := rfl

theorem findUser_markAsCompleted (st : Db.Store) (cid userId : Nat) :
    userQueries.findById (chatQueries.markAsCompleted st cid) userId = userQueries.findById st userId := rfl

theorem findUser_createMessage (st : Db.Store) (cid : Nat) (content : Option String) (u : Bool)
    (userId : Nat) :
    userQueries.findById (messageQueries.create st cid content u) userId = userQueries.findById st userId := rfl

theorem append_ne_empty (a b : String) (h : a ≠ "") : a ++ b ≠ "" := by
  intro hab
  apply h
  have h1 : (a ++ b).data = [] := by rw [hab]
  rw [String.data_append] at h1
  have h2 : a.data = [] := (List.append_eq_nil.1 h1).1
  cases a
  simp_all

/-! ## C9: the order of the report sections -/

/-- C9 (fixed section order): for a chat completed by a final answer on which both providers
succeeded, and a caller with an email address, the send-email route passes the stored primary
(ChatGPT) document as `chatgptContent` and the stored secondary (Gemini) document as
`geminiContent`, and the combined markdown is `"## ChatGPT (OpenAI)\n\n"`, the primary
document, the divider `"\n\n---\n\n"`, `"## Gemini (Google)\n\n"`, the secondary document. -/
theorem send_email_section_order (P : Providers) (st : Db.Store) (userId chatId : Nat)
    (chat : Db.Chat) (body : AnswerBody) (page G : String) (user : Db.User) (email : String)
    (hfind : chatQueries.findById st chatId = some chat) (hown : chat.user_id = userId)
    (hc : chat.is_completed = false) (he : chat.has_error = false)
    (hlast : body.questionIndex ≥ body.totalQuestions - 1)
    (hprimary : P.openaiResearchPage body.args = .returned ⟨true, some page⟩)
    (hsecondary : P.geminiResearchPage body.args = .returned ⟨true, some G⟩)
    (hG : cleanResearchContent (some G) geminiLabel ≠ "")
    (huser : userQueries.findById st userId = some user) (hemail : user.email = some email)
    (hne : email ≠ "") :
    ∃ topic : String,
      Email.sendEmail (clarificationAnswer P st userId chatId body).store userId chatId =
        .send ⟨email,
          some ("# ChatGPT (OpenAI) Research\n\n" ++
            cleanResearchContent (some page) chatgptLabel),
          "# Gemini (Google) Research\n\n" ++ cleanResearchContent (some G) geminiLabel,
          topic⟩ ∧
      Email.combinedMarkdown
          (some ("# ChatGPT (OpenAI) Research\n\n" ++
            cleanResearchContent (some page) chatgptLabel))
          ("# Gemini (Google) Research\n\n" ++ cleanResearchContent (some G) geminiLabel) =
        "## ChatGPT (OpenAI)\n\n" ++
          ("# ChatGPT (OpenAI) Research\n\n" ++ cleanResearchContent (some page) chatgptLabel) ++
          "\n\n---\n\n## Gemini (Google)\n\n" ++
          ("# Gemini (Google) Research\n\n" ++ cleanResearchContent (some G) geminiLabel) := by
  have hstore := clarificationAnswer_final_success P st userId chatId chat body _ _ hfind hown
    hc he hlast (dispatch_returned P body.args _ _ hprimary hsecondary) rfl
  simp only [geminiLabeled_returned G hG] at hstore
  have hmsgs : messageQueries.findByChatId (clarificationAnswer P st userId chatId body).store chatId =
      (messageQueries.findByChatId st chatId ++ [⟨chatId, body.message, true⟩]) ++
        [⟨chatId, some ("# ChatGPT (OpenAI) Research\n\n" ++
            cleanResearchContent (some page) chatgptLabel), false⟩,
         ⟨chatId, some ("# Gemini (Google) Research\n\n" ++
            cleanResearchContent (some G) geminiLabel), false⟩] := by
    rw [hstore, findMessages_markAsCompleted, findMessages_createMessage,
      findMessages_createMessage, findMessages_createMessage]
    simp [openaiLabeled]
  obtain ⟨B, hB⟩ := Email.filter_ai_append_two
    (messageQueries.findByChatId st chatId ++ [⟨chatId, body.message, true⟩])
    ⟨chatId, some ("# ChatGPT (OpenAI) Research\n\n" ++
      cleanResearchContent (some page) chatgptLabel), false⟩
    ⟨chatId, some ("# Gemini (Google) Research\n\n" ++
      cleanResearchContent (some G) geminiLabel), false⟩ rfl rfl
  have hsend := Email.sendEmail_last_two
    (clarificationAnswer P st userId chatId body).store userId chatId
    { chat with is_completed := true } user email B
    ⟨chatId, some ("# ChatGPT (OpenAI) Research\n\n" ++
      cleanResearchContent (some page) chatgptLabel), false⟩
    ⟨chatId, some ("# Gemini (Google) Research\n\n" ++
      cleanResearchContent (some G) geminiLabel), false⟩
    (by rw [hstore, find_markAsCompleted, find_createMessage, find_createMessage,
          find_createMessage, hfind]; rfl)
    hown
    (by rw [hstore]; exact huser) hemail hne
    (by rw [hmsgs]; simp)
    (by rw [hmsgs]; exact hB)
  rw [hsend]
  have hdoc : "# Gemini (Google) Research\n\n" ++ cleanResearchContent (some G) geminiLabel ≠ "" :=
    append_ne_empty _ _ (by decide)
  simp only [Email.orElse_some _ _ hdoc]
  exact ⟨_, rfl, rfl⟩

end Chats

namespace Chats

open JS

/-- C9, witness: a one-question session on which both providers return a page. -/
theorem send_email_section_order_witness :
    ∃ topic : String,
      Email.sendEmail (clarificationAnswer
          (Sample.providers .threw (.returned ⟨true, some "Findings"⟩)
            (.returned ⟨true, some "More"⟩))
          Sample.asked 7 1 Sample.body).store 7 1 =
        .send ⟨"user@example.com",
          some ("# ChatGPT (OpenAI) Research\n\n" ++
            cleanResearchContent (some "Findings") chatgptLabel),
          "# Gemini (Google) Research\n\n" ++ cleanResearchContent (some "More") geminiLabel,
          topic⟩ := by
  obtain ⟨topic, h, _⟩ := send_email_section_order
    (Sample.providers .threw (.returned ⟨true, some "Findings"⟩) (.returned ⟨true, some "More"⟩))
    Sample.asked 7 1 Sample.chat Sample.body "Findings" "More"
    ⟨7, some "user@example.com", false⟩ "user@example.com"
    rfl rfl rfl rfl (by decide) rfl rfl (by decide!) rfl rfl (by decide)
  exact ⟨topic, h⟩

/-! ## C8: the report of a chat completed without a secondary document -/

/-- C8, counterexample (scenario C end to end): the topic "cricket" is submitted, one question
is asked and answered, the primary provider returns the page "Findings" and the secondary
provider rejects.  The chat is completed with the labeled primary document as its last
assistant message, and the send-email route then composes a report with two sections: the
ChatGPT section holds the clarifying-questions turn and the Gemini section holds the primary
document. -/
theorem send_email_secondary_missing_two_sections :
    (chatQueries.findById Sample.afterAnswer 1).map (fun c => c.is_completed) = some true ∧
    (messageQueries.findByChatId Sample.afterAnswer 1).map (fun m => (m.content, m.is_user)) =
      [(some "cricket", true), (some (questionsText ["Which team?"]), false),
       (some "India", true), (some "# ChatGPT (OpenAI) Research\n\nFindings", false)] ∧
    Email.sendEmail Sample.afterAnswer 7 1 =
      .send ⟨"user@example.com", some (questionsText ["Which team?"]),
        "# ChatGPT (OpenAI) Research\n\nFindings", "cricket"⟩ ∧
    Email.combinedMarkdown (some (questionsText ["Which team?"]))
        "# ChatGPT (OpenAI) Research\n\nFindings" =
      "## ChatGPT (OpenAI)\n\nI'd like to help you refine your research topic. To provide you with the most relevant research guidance, I have a few clarifying questions:\n\n1. Which team?\n\nPlease answer these questions one by one, and I'll do a comprehensive research for you.\n\n---\n\n## Gemini (Google)\n\n# ChatGPT (OpenAI) Research\n\nFindings" := by
  decide!

end Chats

namespace Chats

open JS

theorem exists_concat_of_mem {α : Type} (l : List α) (a : α) (h : a ∈ l) :
    ∃ B last, l = B ++ [last] := by
  rcases List.eq_nil_or_concat l with h0 | ⟨B, last, hl⟩
  · rw [h0] at h; cases h
  · exact ⟨B, last, by rw [hl]; simp⟩

/-- C8, amended: for a chat that already has an assistant turn and is completed by a final
answer on which the primary provider succeeded and the secondary provider failed, the
send-email route (for a caller with an email address) does call the email service, and the
report keeps both fixed sections: the combined markdown is `"## ChatGPT (OpenAI)\n\n"`, the
ChatGPT content, the divider, `"## Gemini (Google)\n\n"` and a Gemini content that is never
empty.  The Gemini section is not omitted. -/
theorem send_email_secondary_missing (P : Providers) (st : Db.Store) (userId chatId : Nat)
    (chat : Db.Chat) (body : AnswerBody) (page : String) (user : Db.User) (email : String)
    (hfind : chatQueries.findById st chatId = some chat) (hown : chat.user_id = userId)
    (hc : chat.is_completed = false) (he : chat.has_error = false)
    (hlast : body.questionIndex ≥ body.totalQuestions - 1)
    (hprimary : P.openaiResearchPage body.args = .returned ⟨true, some page⟩)
    (hsecondary : P.geminiResearchPage body.args = .threw ∨
      ∃ g, P.geminiResearchPage body.args = .returned g ∧
        (g.success = false ∨ g.researchPage = none ∨ g.researchPage = some ""))
    (huser : userQueries.findById st userId = some user) (hemail : user.email = some email)
    (hne : email ≠ "")
    (hprev : ∃ m ∈ messageQueries.findByChatId st chatId, m.is_user = false) :
    ∃ args : Email.SendArgs,
      Email.sendEmail (clarificationAnswer P st userId chatId body).store userId chatId =
        .send args ∧
      args.geminiContent ≠ "" ∧
      Email.combinedMarkdown args.chatgptContent args.geminiContent =
        "## ChatGPT (OpenAI)\n\n" ++ Email.interpolate args.chatgptContent ++
          "\n\n---\n\n## Gemini (Google)\n\n" ++ args.geminiContent := by
  obtain ⟨g, hd, hg⟩ : ∃ g, dispatch P body.args = (⟨true, some page⟩, g) ∧
      geminiLabeled g = none := by
    rcases hsecondary with h | ⟨g, h, hg⟩
    · exact ⟨_, dispatch_secondary_threw P body.args _ hprimary h,
        geminiLabeled_failed _ (Or.inl rfl)⟩
    · exact ⟨g, dispatch_returned P body.args _ _ hprimary h, geminiLabeled_failed g hg⟩
  have hstore := clarificationAnswer_final_success P st userId chatId chat body _ _ hfind hown
    hc he hlast hd rfl
  simp only [hg] at hstore
  have hmsgs : messageQueries.findByChatId (clarificationAnswer P st userId chatId body).store chatId =
      messageQueries.findByChatId st chatId ++
        [⟨chatId, body.message, true⟩,
         ⟨chatId, some (openaiLabeled ⟨true, some page⟩), false⟩] := by
    rw [hstore, findMessages_markAsCompleted, findMessages_createMessage,
      findMessages_createMessage]
    simp
  obtain ⟨m, hm, hmai⟩ := hprev
  have hmem : m ∈ (messageQueries.findByChatId st chatId).filter (fun m => !m.is_user) := by
    rw [List.mem_filter]
    exact ⟨hm, by simp [hmai]⟩
  obtain ⟨B, last, hB⟩ := exists_concat_of_mem _ m hmem
  have hai : (messageQueries.findByChatId (clarificationAnswer P st userId chatId body).store
      chatId).filter (fun m => !m.is_user) =
      B ++ [last, ⟨chatId, some (openaiLabeled ⟨true, some page⟩), false⟩] := by
    rw [hmsgs, List.filter_append, hB]
    simp [List.filter_cons]
  have hlen : 3 ≤ (messageQueries.findByChatId (clarificationAnswer P st userId chatId body).store
      chatId).length := by
    rw [hmsgs, List.length_append]
    have : 1 ≤ (messageQueries.findByChatId st chatId).length := List.length_pos_of_mem hm
    simp
    omega
  have hsend := Email.sendEmail_last_two
    (clarificationAnswer P st userId chatId body).store userId chatId
    { chat with is_completed := true } user email B last
    ⟨chatId, some (openaiLabeled ⟨true, some page⟩), false⟩
    (by rw [hstore, find_markAsCompleted, find_createMessage, find_createMessage, hfind]; rfl)
    hown (by rw [hstore]; exact huser) hemail hne hlen hai
  have hph : "## Gemini (Google) Research\n\nNo Gemini content available." ≠ "" := by decide
  refine ⟨_, hsend, ?_, rfl⟩
  exact Email.orElse_ne_empty (some (openaiLabeled ⟨true, some page⟩)) _ hph

/-- C8, witness: the chat of the sample session, completed with the primary document only. -/
theorem send_email_secondary_missing_witness :
    ∃ args : Email.SendArgs,
      Email.sendEmail (clarificationAnswer Sample.primaryOnly Sample.asked 7 1
        Sample.body).store 7 1 = .send args ∧
      args.geminiContent ≠ "" := by
  obtain ⟨args, h1, h2, _⟩ := send_email_secondary_missing Sample.primaryOnly Sample.asked 7 1
    Sample.chat Sample.body "Findings" ⟨7, some "user@example.com", false⟩ "user@example.com"
    rfl rfl rfl rfl (by decide) rfl (Or.inl rfl) rfl rfl (by decide)
    ⟨⟨1, some (questionsText ["Which team?"]), false⟩, by simp [messageQueries.findByChatId, Sample.asked], rfl⟩
  exact ⟨args, h1, h2⟩

end Chats

namespace Chats

open JS

/-! ## C11, C12, C13, C25: the remaining branches of the handlers -/

/-- The research-topic handler on an open chat of the caller. -/
theorem researchTopic_open (P : Providers) (st : Db.Store) (userId chatId : Nat)
    (chat : Db.Chat) (message : Option String)
    (hfind : chatQueries.findById st chatId = some chat) (hown : chat.user_id = userId)
    (hc : chat.is_completed = false) (he : chat.has_error = false) :
    researchTopic P st userId chatId message =
      match P.generateTitleAndQuestions message with
      | .threw =>
          ⟨⟨500, [("success", .bool false), ("error", .str "Failed to process research topic")]⟩,
           messageQueries.create st chatId message true, [.titleAndQuestions message]⟩
      | .returned result =>
        if result.success then
          ⟨⟨200, [("success", .bool true), ("response", .str (questionsText result.questions)),
                  ("messageType", .str "clarifying_questions"),
                  ("questions", .strs result.questions), ("title", .str result.title)]⟩,
           messageQueries.create
             (chatQueries.updateTitle (messageQueries.create st chatId message true) chatId
               result.title) chatId (some (questionsText result.questions)) false,
           [.titleAndQuestions message]⟩
        else
          ⟨⟨200, [("success", .bool true), ("response", .str apology),
                  ("title", .str "Research Topic...")]⟩,
           chatQueries.markAsError
             (messageQueries.create (messageQueries.create st chatId message true) chatId
               (some apology) false) chatId,
           [.titleAndQuestions message]⟩ := by
  unfold researchTopic
  simp only [hfind, hown, bne_self_eq_false, Bool.false_eq_true, if_false, hc, he, Bool.or_self]

/-- The clarification-answer handler on an open chat of the caller, before the fan-out. -/
theorem clarificationAnswer_not_final (P : Providers) (st : Db.Store) (userId chatId : Nat)
    (chat : Db.Chat) (body : AnswerBody)
    (hfind : chatQueries.findById st chatId = some chat) (hown : chat.user_id = userId)
    (hc : chat.is_completed = false) (he : chat.has_error = false)
    (hlt : body.questionIndex < body.totalQuestions - 1) :
    clarificationAnswer P st userId chatId body =
      ⟨⟨200, [("success", .bool true), ("response", .str acknowledgment),
              ("messageType", .str "acknowledgment")]⟩,
        messageQueries.create (messageQueries.create st chatId body.message true) chatId
          (some acknowledgment) false,
        []⟩ := by
  unfold clarificationAnswer
  have hn : ¬ body.questionIndex ≥ body.totalQuestions - 1 := not_le.2 hlt
  simp only [hfind, hown, bne_self_eq_false, Bool.false_eq_true, if_false, hc, he, Bool.or_self,
    hn]

/-- The provider calls of the fan-out branch. -/
theorem clarificationAnswer_final_calls (P : Providers) (st : Db.Store) (userId chatId : Nat)
    (chat : Db.Chat) (body : AnswerBody)
    (hfind : chatQueries.findById st chatId = some chat) (hown : chat.user_id = userId)
    (hc : chat.is_completed = false) (he : chat.has_error = false)
    (hlast : body.questionIndex ≥ body.totalQuestions - 1) :
    (clarificationAnswer P st userId chatId body).calls =
      [.openaiResearch body.args, .geminiResearch body.args] ∧
    ∃ more, (clarificationAnswer P st userId chatId body).store.messages =
      st.messages ++ ⟨chatId, body.message, true⟩ :: more := by
  by_cases hs : (dispatch P body.args).1.success = true
  · rw [clarificationAnswer_final_success P st userId chatId chat body (dispatch P body.args).1
      (dispatch P body.args).2 hfind hown hc he hlast rfl hs]
    refine ⟨rfl, ?_⟩
    cases geminiLabeled (dispatch P body.args).2 with
    | none => exact ⟨_, by simp [chatQueries.markAsCompleted, messageQueries.create]; rfl⟩
    | some d => exact ⟨_, by simp [chatQueries.markAsCompleted, messageQueries.create]; rfl⟩
  · rw [clarificationAnswer_final_failure P st userId chatId chat body hfind hown hc he hlast
      (by simpa using hs)]
    exact ⟨rfl, _, by simp [chatQueries.markAsError, messageQueries.create]; rfl⟩

end Chats

namespace Chats

open JS

/-- C11 (topic submission failure, scenario B): on an open chat of the caller, when title and
questions generation reports failure, the research-topic handler appends the user's topic and
exactly one assistant message, the fixed apology, marks the chat errored (and not completed),
and the title it returns is the placeholder `"Research Topic..."`. -/
theorem research_topic_failure (P : Providers) (st : Db.Store) (userId chatId : Nat)
    (chat : Db.Chat) (message : Option String) (result : TitleResult)
    (hfind : chatQueries.findById st chatId = some chat) (hown : chat.user_id = userId)
    (hc : chat.is_completed = false) (he : chat.has_error = false)
    (hgen : P.generateTitleAndQuestions message = .returned result)
    (hfail : result.success = false) :
    (researchTopic P st userId chatId message).store.messages =
      st.messages ++
        [⟨chatId, message, true⟩,
         ⟨chatId, some "I'm not able to find the answer right now. Please try again.", false⟩] ∧
    chatQueries.findById (researchTopic P st userId chatId message).store chatId =
      some { chat with is_completed := false, has_error := true } ∧
    (researchTopic P st userId chatId message).response =
      ⟨200, [("success", .bool true),
             ("response", .str "I'm not able to find the answer right now. Please try again."),
             ("title", .str "Research Topic...")]⟩ := by
  rw [researchTopic_open P st userId chatId chat message hfind hown hc he]
  simp only [hgen, hfail, Bool.false_eq_true, if_false]
  refine ⟨?_, ?_, ?_⟩
  · simp [chatQueries.markAsError, messageQueries.create, apology]
  · rw [find_markAsError, find_createMessage, find_createMessage, hfind]
    simp [hc]
  · simp [apology]

/-- C11, witness: the sample chat when generation reports failure. -/
theorem research_topic_failure_witness :
    (researchTopic Sample.titleFails Sample.store 7 1 (some "cricket")).response =
      ⟨200, [("success", .bool true),
             ("response", .str "I'm not able to find the answer right now. Please try again."),
             ("title", .str "Research Topic...")]⟩ :=
  (research_topic_failure Sample.titleFails Sample.store 7 1 Sample.chat (some "cricket")
    ⟨false, "Research Topic...", []⟩ rfl rfl rfl rfl rfl rfl).2.2

/-- C12 (non-final answer): on an open chat of the caller, for all safe integers
`questionIndex` and `totalQuestions` (where the handler's `totalQuestions - 1` is exact), if
`questionIndex < totalQuestions - 1` the clarification-answer handler calls no provider,
appends exactly the user's answer followed by the fixed acknowledgment and leaves the chat as
it was (neither completed nor errored); for all integers, if
`questionIndex >= totalQuestions - 1` it takes the fan-out branch, calling both providers. -/
theorem non_final_answer (P : Providers) (st : Db.Store) (userId chatId : Nat)
    (chat : Db.Chat) (body : AnswerBody)
    (hfind : chatQueries.findById st chatId = some chat) (hown : chat.user_id = userId)
    (hc : chat.is_completed = false) (he : chat.has_error = false) :
    (isSafeInteger body.questionIndex = true → isSafeInteger body.totalQuestions = true →
      body.questionIndex < body.totalQuestions - 1 →
      (clarificationAnswer P st userId chatId body).calls = [] ∧
      (clarificationAnswer P st userId chatId body).store.messages =
        st.messages ++
          [⟨chatId, body.message, true⟩,
           ⟨chatId, some "Thank you for your answer. Please answer the next question.", false⟩] ∧
      (clarificationAnswer P st userId chatId body).store.chats = st.chats ∧
      chatQueries.findById (clarificationAnswer P st userId chatId body).store chatId =
        some chat) ∧
    (body.questionIndex ≥ body.totalQuestions - 1 →
      (clarificationAnswer P st userId chatId body).calls =
        [.openaiResearch body.args, .geminiResearch body.args]) := by
  constructor
  · intro _ _ hlt
    rw [clarificationAnswer_not_final P st userId chatId chat body hfind hown hc he hlt]
    refine ⟨rfl, ?_, rfl, ?_⟩
    · simp [messageQueries.create, acknowledgment]
    · rw [find_createMessage, find_createMessage, hfind]
  · intro hlast
    exact (clarificationAnswer_final_calls P st userId chatId chat body hfind hown hc he hlast).1

/-- C12, witness: the first answer of a three-question session is acknowledged without a
provider call, the last one starts the fan-out. -/
theorem non_final_answer_witness :
    (isSafeInteger Sample.bodyFirstOfThree.questionIndex = true ∧
      isSafeInteger Sample.bodyFirstOfThree.totalQuestions = true ∧
      Sample.bodyFirstOfThree.questionIndex < Sample.bodyFirstOfThree.totalQuestions - 1) ∧
    (clarificationAnswer Sample.primaryOnly Sample.asked 7 1 Sample.bodyFirstOfThree).calls = [] ∧
    (clarificationAnswer Sample.primaryOnly Sample.asked 7 1 Sample.body).calls =
      [.openaiResearch Sample.body.args, .geminiResearch Sample.body.args] :=
  ⟨⟨by decide, by decide, by decide⟩,
   ((non_final_answer Sample.primaryOnly Sample.asked 7 1 Sample.chat Sample.bodyFirstOfThree
      rfl rfl rfl rfl).1 (by decide) (by decide) (by decide)).1,
   (non_final_answer Sample.primaryOnly Sample.asked 7 1 Sample.chat Sample.body
      rfl rfl rfl rfl).2 (by decide)⟩

/-- C13, counterexample: a clarification answer with `questionIndex = 5` for
`totalQuestions = 3` on an open chat is not rejected.  The answer is stored, both providers are
called, and the chat is completed with the primary document. -/
theorem out_of_range_index_accepted :
    (clarificationAnswer Sample.primaryOnly Sample.asked 7 1 Sample.bodyOutOfRange).response.status
      = 200 ∧
    ((clarificationAnswer Sample.primaryOnly Sample.asked 7 1 Sample.bodyOutOfRange).calls.map
      (fun c => match c with
        | .titleAndQuestions _ => "title"
        | .openaiResearch _ => "openai"
        | .geminiResearch _ => "gemini")) = ["openai", "gemini"] ∧
    (messageQueries.findByChatId
      (clarificationAnswer Sample.primaryOnly Sample.asked 7 1 Sample.bodyOutOfRange).store 1).map
      (fun m => (m.content, m.is_user)) =
      [(some "cricket", true), (some (questionsText ["Which team?"]), false),
       (some "India", true), (some "# ChatGPT (OpenAI) Research\n\nFindings", false)] ∧
    (chatQueries.findById
      (clarificationAnswer Sample.primaryOnly Sample.asked 7 1 Sample.bodyOutOfRange).store 1).map
      (fun c => c.is_completed) = some true := by
  decide!

/-- C13, amended: the handlers validate neither the topic nor the answer index.  On an open
chat of the caller, a research-topic request with an absent message is handed to the store (a
user turn with no content) and to title and questions generation; a clarification answer with
`questionIndex >= totalQuestions` is stored and starts the fan-out; a clarification answer with
a negative `questionIndex` (and `totalQuestions >= 1`) is stored and acknowledged. -/
theorem no_request_validation (P : Providers) (st : Db.Store) (userId chatId : Nat)
    (chat : Db.Chat) (body : AnswerBody)
    (hfind : chatQueries.findById st chatId = some chat) (hown : chat.user_id = userId)
    (hc : chat.is_completed = false) (he : chat.has_error = false) :
    ((researchTopic P st userId chatId none).calls = [.titleAndQuestions none] ∧
      ∃ more, (researchTopic P st userId chatId none).store.messages =
        st.messages ++ ⟨chatId, none, true⟩ :: more) ∧
    (body.questionIndex ≥ body.totalQuestions →
      (clarificationAnswer P st userId chatId body).calls =
        [.openaiResearch body.args, .geminiResearch body.args] ∧
      ∃ more, (clarificationAnswer P st userId chatId body).store.messages =
        st.messages ++ ⟨chatId, body.message, true⟩ :: more) ∧
    (body.questionIndex < 0 → body.totalQuestions ≥ 1 →
      (clarificationAnswer P st userId chatId body).store.messages =
        st.messages ++
          [⟨chatId, body.message, true⟩,
           ⟨chatId, some "Thank you for your answer. Please answer the next question.",
            false⟩]) := by
  refine ⟨?_, ?_, ?_⟩
  · rw [researchTopic_open P st userId chatId chat none hfind hown hc he]
    cases P.generateTitleAndQuestions none with
    | threw => exact ⟨rfl, [], by simp [messageQueries.create]⟩
    | returned result =>
      by_cases hs : result.success = true
      · dsimp only
        rw [if_pos hs]
        exact ⟨rfl, _, by simp [messageQueries.create, chatQueries.updateTitle]; rfl⟩
      · dsimp only
        rw [if_neg hs]
        exact ⟨rfl, _, by simp [messageQueries.create, chatQueries.markAsError]; rfl⟩
  · intro hge
    exact clarificationAnswer_final_calls P st userId chatId chat body hfind hown hc he
      (by omega)
  · intro hneg htot
    rw [clarificationAnswer_not_final P st userId chatId chat body hfind hown hc he (by omega)]
    simp [messageQueries.create, acknowledgment]

/-- C13, witness: the out-of-range answer of the sample session. -/
theorem no_request_validation_witness :
    (clarificationAnswer Sample.primaryOnly Sample.asked 7 1 Sample.bodyOutOfRange).calls =
      [.openaiResearch Sample.bodyOutOfRange.args, .geminiResearch Sample.bodyOutOfRange.args] :=
  ((no_request_validation Sample.primaryOnly Sample.asked 7 1 Sample.chat Sample.bodyOutOfRange
    rfl rfl rfl rfl).2.1 (by decide)).1

/-- C25 (a dispatch exception is a total failure): on the final answer of an open chat of the
caller, if the primary provider's call rejects with an exception, the handler answers with the
success-shaped apology (status 200, not 500), appends the user's answer and the fixed apology,
marks the chat errored and not completed, whatever the secondary provider does; this is exactly
what it does when the primary provider declares failure. -/
theorem dispatch_exception_is_failure (P : Providers) (st : Db.Store) (userId chatId : Nat)
    (chat : Db.Chat) (body : AnswerBody)
    (hfind : chatQueries.findById st chatId = some chat) (hown : chat.user_id = userId)
    (hc : chat.is_completed = false) (he : chat.has_error = false)
    (hlast : body.questionIndex ≥ body.totalQuestions - 1)
    (hprimary : P.openaiResearchPage body.args = .threw) :
    (clarificationAnswer P st userId chatId body).response =
      ⟨200, [("success", .bool true),
             ("response", .str "I'm not able to find the answer right now. Please try again.")]⟩ ∧
    (clarificationAnswer P st userId chatId body).store.messages =
      st.messages ++
        [⟨chatId, body.message, true⟩,
         ⟨chatId, some "I'm not able to find the answer right now. Please try again.", false⟩] ∧
    chatQueries.findById (clarificationAnswer P st userId chatId body).store chatId =
      some { chat with is_completed := false, has_error := true } ∧
    clarificationAnswer P st userId chatId body =
      clarificationAnswer
        { P with openaiResearchPage := fun _ => .returned ⟨false, none⟩ } st userId chatId body := by
  have h1 := clarificationAnswer_final_failure P st userId chatId chat body hfind hown hc he hlast
    (by simp [dispatch, hprimary])
  have h2 := clarificationAnswer_final_failure
    { P with openaiResearchPage := fun _ => .returned ⟨false, none⟩ } st userId chatId chat body
    hfind hown hc he hlast (by simp [dispatch])
  refine ⟨?_, ?_, ?_, ?_⟩
  · rw [h1]
    simp [apology]
  · rw [h1]
    simp [chatQueries.markAsError, messageQueries.create, apology]
  · rw [h1, find_markAsError, find_createMessage, find_createMessage, hfind]
    simp [hc]
  · rw [h1, h2]

/-- C25, witness: the primary call rejects while the secondary call returns a page. -/
theorem dispatch_exception_is_failure_witness :
    (clarificationAnswer Sample.primaryThrows Sample.asked 7 1 Sample.body).response =
      ⟨200, [("success", .bool true),
             ("response", .str "I'm not able to find the answer right now. Please try again.")]⟩ :=
  (dispatch_exception_is_failure Sample.primaryThrows Sample.asked 7 1 Sample.chat Sample.body
    rfl rfl rfl rfl (by decide) rfl).1

end Chats

namespace Chats

open JS

/-! ## C20, C21, C22, C26, C27, C29: the normaliser on particular texts -/

/-- C20, evaluation at the failing input: a leading header `# ChatGPT Research` is not
removed as a whole.  In the pattern text `^#+\s*ChatGPT|OpenAI[\s\n]*Research[\s\n]*` the
alternation splits the whole pattern, so `# ChatGPT` is removed and `Research` stays, and of
`# OpenAI Research` the `#` stays; likewise for the Gemini label. -/
theorem provider_header_left_behind :
    cleanResearchContent (some "# ChatGPT Research\n\nFindings") chatgptLabel =
      "Research\n\nFindings" ∧
    cleanResearchContent (some "# OpenAI Research\n\nFindings") chatgptLabel = "# Findings" ∧
    cleanResearchContent (some "# Gemini Research\n\nFindings") geminiLabel =
      "Research\n\nFindings" ∧
    cleanResearchContent (some "# Google Research\n\nFindings") geminiLabel = "# Findings" ∧
    cleanResearchContent (some "Findings") chatgptLabel = "Findings" ∧
    cleanResearchContent (some "Findings") geminiLabel = "Findings" := by
  decide!

/-- C21, evaluation at the failing input: a methodology section that is the last section of
the document is kept, because the pattern `^#+\s*Proposed Methodology.*?(?=^#+\s*[A-Z])` only
matches up to a following heading; the same section followed by a heading is removed. -/
theorem last_methodology_section_kept :
    cleanResearchContent (some "# Findings\nFacts.\n# Proposed Methodology\nUse surveys.")
        chatgptLabel =
      "# Findings\nFacts.\n# Proposed Methodology\nUse surveys." ∧
    cleanResearchContent (some "# Proposed Methodology\nUse surveys.\n# Findings\nFacts.")
        chatgptLabel =
      "# Findings\nFacts." := by
  decide!

/-- C22, evaluation at the failing input: a line that holds only a blank separates the line
breaks while `/\n{3,}/g` runs and is emptied afterwards by `/[ \t]+$/gm`, which leaves three
consecutive line breaks in the output. -/
theorem three_line_breaks_survive :
    cleanResearchContent (some "a\n \n\nb") chatgptLabel = "a\n\n\nb" ∧
    cleanResearchContent (some "a\n \n\nb") geminiLabel = "a\n\n\nb" := by
  decide!

/-- C26 (empty input): for every provider label, also one whose pattern does not compile,
`cleanResearchContent` returns the empty string when the content is absent (`null`,
`undefined`) or the empty string; the provider-label pattern is not looked at. -/
theorem cleanResearchContent_empty (label : Option (List Re)) (provider : List Re) :
    cleanResearchContentWithLabel none label = some "" ∧
    cleanResearchContentWithLabel (some "") label = some "" ∧
    cleanResearchContent none provider = "" ∧
    cleanResearchContent (some "") provider = "" :=
  ⟨rfl, rfl, rfl, rfl⟩

/-- C27, evaluation at the failing input: the text `Google is a company` has no `#`, and the
two provider-header steps with the label `Gemini|Google` remove `Google ` from it (the second
alternative `Google[\s\n]*` of the spliced pattern is not tied to a heading); the same happens
to `OpenAI` with the label `ChatGPT|OpenAI`. -/
theorem provider_name_removed_from_body :
    runSteps ((headerSteps geminiLabel).take 2) "Google is a company".data =
      "is a company".data ∧
    runSteps ((headerSteps chatgptLabel).take 2) "OpenAI is a company".data =
      "is a company".data ∧
    cleanResearchContent (some "Google is a company") geminiLabel = "is a company" := by
  decide!

/-- C29 (the extra Gemini passes are a no-op): for every raw secondary page `G`, the three
passes and the `.trim()` that the clarification-answer handler applies to
`cleanResearchContent(G, 'Gemini|Google')` return it unchanged, so that `finalGemini` of a
successful result with a non-empty page is `cleanResearchContent(G, 'Gemini|Google')`
(and `null` for an empty page, which is never cleaned). -/
theorem gemini_extra_passes_noop (G : String) :
    String.mk (trimL (runSteps geminiExtraSteps
        (cleanResearchContent (some G) geminiLabel).data)) =
      cleanResearchContent (some G) geminiLabel ∧
    finalGemini ⟨true, some G⟩ =
      if G.data.isEmpty then none else some (cleanResearchContent (some G) geminiLabel) := by
  constructor
  · rw [runSteps_needsStar geminiExtraSteps rfl _ (clean_star_free (some G) geminiLabel),
      clean_trimmed]
  · cases h : G.data.isEmpty with
    | true =>
      unfold finalGemini
      simp only [h, if_true]
    | false =>
      rw [finalGemini_returned G h]
      simp

end Chats

namespace Chats

open JS

/-! ## C17: the Q&A context of the two providers -/

/-- The answer shown for position `i`: the answer when there is a non-empty one, else the
placeholder. -/
theorem orElse_answer (answers : List String) (i : Nat) :
    Email.orElse (answers.get? i) "No answer provided" =
      match answers[i]? with
      | some a => if a = "" then "No answer provided" else a
      | none => "No answer provided" := by
  rw [List.get?_eq_getElem?]
  cases answers[i]? with
  | none => rfl
  | some a =>
    unfold Email.orElse
    by_cases h : a = ""
    · simp [h]
    · have he : ¬ a.data.isEmpty = true := fun he => h ((isEmpty_data_iff a).1 he)
      simp [h, he]

theorem getElem?_take_of_lt (answers : List String) (n i : Nat) (h : i < n) :
    (answers.take n).get? i = answers.get? i := by
  simp [List.get?_eq_getElem?, List.getElem?_take, h]

theorem openai_qaContext_cons (q : String) (qs answers : List String) :
    OpenAIService.qaContext (some (q :: qs)) (some answers) =
      some ("\n\n".intercalate ((q :: qs).enum.map (fun p =>
        "Q" ++ toString (p.1 + 1) ++ ": " ++ p.2 ++ "\nA" ++ toString (p.1 + 1) ++ ": " ++
          Email.orElse (answers.get? p.1) "No answer provided"))) := by
  simp only [OpenAIService.qaContext]

theorem gemini_qaContext_cons (q : String) (qs answers : List String) :
    GeminiService.qaContext (some (q :: qs)) (some answers) =
      "\n\n".intercalate ((q :: qs).enum.map (fun p =>
        "Q" ++ toString (p.1 + 1) ++ ": " ++ p.2 ++ "\nA" ++ toString (p.1 + 1) ++ ": " ++
          Email.orElse (answers.get? p.1) "No answer provided")) := by
  simp only [GeminiService.qaContext]

/-- C17 (answer alignment): for every non-empty question list `q_0..q_{n-1}` and every answer
list, the Q&A context of both providers is the same string: `n` blocks joined by a blank line,
where block `i` is `"Q{i+1}: q_i\nA{i+1}: a_i"` with `a_i` the answer at position `i` when it
exists and is not empty and `"No answer provided"` otherwise; the answers at positions `>= n`
play no part. -/
theorem qa_context_alignment (q : String) (qs : List String) (answers : List String) :
    ∃ blocks : List String,
      blocks.length = (q :: qs).length ∧
      (∀ (i : Nat) (h : i < (q :: qs).length),
        blocks[i]? = some ("Q" ++ toString (i + 1) ++ ": " ++ (q :: qs)[i] ++ "\nA" ++
          toString (i + 1) ++ ": " ++
          (match answers[i]? with
           | some a => if a = "" then "No answer provided" else a
           | none => "No answer provided"))) ∧
      OpenAIService.qaContext (some (q :: qs)) (some answers) =
        some ("\n\n".intercalate blocks) ∧
      GeminiService.qaContext (some (q :: qs)) (some answers) = "\n\n".intercalate blocks ∧
      OpenAIService.qaContext (some (q :: qs)) (some (answers.take (q :: qs).length)) =
        some ("\n\n".intercalate blocks) ∧
      GeminiService.qaContext (some (q :: qs)) (some (answers.take (q :: qs).length)) =
        "\n\n".intercalate blocks := by
  refine Exists.intro ((q :: qs).enum.map (fun p =>
      "Q" ++ toString (p.1 + 1) ++ ": " ++ p.2 ++ "\nA" ++ toString (p.1 + 1) ++ ": " ++
        Email.orElse (answers.get? p.1) "No answer provided")) ?_
  refine And.intro ?_ (And.intro ?_ (And.intro (openai_qaContext_cons q qs answers)
    (And.intro (gemini_qaContext_cons q qs answers) (And.intro ?_ ?_))))
  · rw [List.length_map, List.enum_length]
  · intro i h
    rw [List.getElem?_map, List.getElem?_enum, List.getElem?_eq_getElem h]
    simp only [Option.map_some', orElse_answer]
  · have hmap : (q :: qs).enum.map (fun p =>
        "Q" ++ toString (p.1 + 1) ++ ": " ++ p.2 ++ "\nA" ++ toString (p.1 + 1) ++ ": " ++
          Email.orElse ((answers.take (q :: qs).length).get? p.1) "No answer provided") =
        (q :: qs).enum.map (fun p =>
        "Q" ++ toString (p.1 + 1) ++ ": " ++ p.2 ++ "\nA" ++ toString (p.1 + 1) ++ ": " ++
          Email.orElse (answers.get? p.1) "No answer provided") := by
      apply List.map_congr_left
      intro p hp
      have hlt : p.1 < (q :: qs).length := List.fst_lt_of_mem_enum hp
      rw [getElem?_take_of_lt answers _ _ hlt]
    rw [openai_qaContext_cons, hmap]
  · have hmap : (q :: qs).enum.map (fun p =>
        "Q" ++ toString (p.1 + 1) ++ ": " ++ p.2 ++ "\nA" ++ toString (p.1 + 1) ++ ": " ++
          Email.orElse ((answers.take (q :: qs).length).get? p.1) "No answer provided") =
        (q :: qs).enum.map (fun p =>
        "Q" ++ toString (p.1 + 1) ++ ": " ++ p.2 ++ "\nA" ++ toString (p.1 + 1) ++ ": " ++
          Email.orElse (answers.get? p.1) "No answer provided") := by
      apply List.map_congr_left
      intro p hp
      have hlt : p.1 < (q :: qs).length := List.fst_lt_of_mem_enum hp
      rw [getElem?_take_of_lt answers _ _ hlt]
    rw [gemini_qaContext_cons, hmap]

end Chats

namespace OpenAIService

open JS Chats

/-! ## C14, C15: validation of title and questions -/

/-- The checks of lines 79-87 accept exactly the objects with a non-empty string title and an
array of questions. -/
theorem checkResult_iff (v : Json) (title : String) (questions : List Json) :
    checkResult v = some (title, questions) ↔ ValidTitleQuestions v title questions := by
  unfold ValidTitleQuestions
  cases v with
  | null => simp [checkResult, Json.falsy]
  | bool b => cases b <;> simp [checkResult, Json.falsy, Json.typeofObject]
  | num m e =>
    by_cases hm : m = 0 <;> simp [checkResult, Json.falsy, Json.typeofObject, hm]
  | str s =>
    by_cases hs : s.data.isEmpty = true <;>
      simp [checkResult, Json.falsy, Json.typeofObject, hs]
  | arr items => simp [checkResult, Json.falsy, Json.typeofObject, Json.get]
  | obj fields =>
    simp only [checkResult, Json.falsy, Json.typeofObject, Bool.not_true, Bool.or_self,
      Bool.false_eq_true, if_false, Json.obj.injEq, exists_eq', true_and]
    cases ht : (Json.obj fields).get "title" with
    | none => simp
    | some tv =>
      cases tv with
      | str t =>
        by_cases hte : t.data.isEmpty = true
        · have : t = "" := (isEmpty_data_iff t).1 hte
          simp only [hte, if_true]
          constructor
          · intro h; cases h
          · rintro ⟨h1, h2, _⟩
            injection h1 with h1
            injection h1 with h1
            exact absurd (h1 ▸ this) h2
        · have hne : t ≠ "" := fun h => hte ((isEmpty_data_iff t).2 h)
          simp only [hte, if_false]
          cases hq : (Json.obj fields).get "questions" with
          | none => simp
          | some qv =>
            cases qv with
            | arr qs =>
              constructor
              · intro h
                injection h with h
                injection h with h1 h2
                subst h1; subst h2
                exact ⟨rfl, hne, rfl⟩
              · rintro ⟨h1, _, h3⟩
                injection h1 with h1
                injection h1 with h1
                injection h3 with h3
                injection h3 with h3
                subst h1; subst h3
                rfl
            | null => simp
            | bool _ => simp
            | num _ _ => simp
            | str _ => simp
            | obj _ => simp
      | null => simp
      | bool _ => simp
      | num _ _ => simp
      | arr _ => simp
      | obj _ => simp

theorem checkResult_none_of_invalid (v : Json)
    (h : ¬ ∃ title questions, ValidTitleQuestions v title questions) : checkResult v = none := by
  cases hc : checkResult v with
  | none => rfl
  | some p =>
    exfalso
    exact h ⟨p.1, p.2, (checkResult_iff v p.1 p.2).1 hc⟩

theorem generate_of_valid (parse : String → Option Json) (api : Outcome (Option String))
    (v : Json) (title : String) (questions : List Json) (hv : parsedValue parse api = some v)
    (hvalid : ValidTitleQuestions v title questions) :
    generateTitleAndQuestions parse api = ⟨true, title, questions⟩ := by
  unfold generateTitleAndQuestions
  simp only [hv, (checkResult_iff v title questions).2 hvalid]

theorem success_iff_valid (parse : String → Option Json) (api : Outcome (Option String)) :
    (generateTitleAndQuestions parse api).success = true ↔
      ∃ v title questions, parsedValue parse api = some v ∧
        ValidTitleQuestions v title questions := by
  unfold generateTitleAndQuestions
  cases hp : parsedValue parse api with
  | none => simp [titleFailure]
  | some v =>
    cases hc : checkResult v with
    | none =>
      simp only [hc, titleFailure, Bool.false_eq_true, Option.some.injEq, false_iff]
      rintro ⟨v1, t, qs, h1, h2⟩
      subst h1
      rw [(checkResult_iff v t qs).2 h2] at hc
      cases hc
    | some p =>
      simp only [hc, Option.some.injEq, true_iff]
      exact ⟨v, p.1, p.2, rfl, (checkResult_iff v p.1 p.2).1 hc⟩

/-- C14 (title/questions validation): for every value `v` parsed from the provider's response,
`generateTitleAndQuestions` returns `success = true`, with the title and the questions array of
`v` unchanged, exactly when `v` is an object with a non-empty string title and an array-valued
questions field; in every other case, also when the call, the empty-response check or the
parsing throws, it returns `success = false` with title `"Research Topic..."` and no
questions.  (The function always returns: the model is total.) -/
theorem title_questions_validation (parse : String → Option Json)
    (api : Outcome (Option String)) :
    (∀ v title questions, parsedValue parse api = some v →
      ValidTitleQuestions v title questions →
      generateTitleAndQuestions parse api = ⟨true, title, questions⟩) ∧
    (∀ v, parsedValue parse api = some v →
      (¬ ∃ title questions, ValidTitleQuestions v title questions) →
      generateTitleAndQuestions parse api = ⟨false, "Research Topic...", []⟩) ∧
    (parsedValue parse api = none →
      generateTitleAndQuestions parse api = ⟨false, "Research Topic...", []⟩) ∧
    ((generateTitleAndQuestions parse api).success = true ↔
      ∃ v title questions, parsedValue parse api = some v ∧
        ValidTitleQuestions v title questions) := by
  refine ⟨generate_of_valid parse api, ?_, ?_, success_iff_valid parse api⟩
  · intro v hv hinv
    unfold generateTitleAndQuestions
    simp only [hv, checkResult_none_of_invalid v hinv]
    rfl
  · intro hnone
    unfold generateTitleAndQuestions
    simp only [hnone]
    rfl

/-- C14, witness: a response with a title and an (empty) array of questions is accepted. -/
theorem title_questions_validation_witness :
    generateTitleAndQuestions Sample.parseJson (.returned (some Sample.noQuestionsText)) =
      ⟨true, "Cricket", []⟩ :=
  (title_questions_validation Sample.parseJson (.returned (some Sample.noQuestionsText))).1
    (.obj [("title", .str "Cricket"), ("questions", .arr [])]) "Cricket" [] rfl
    ⟨⟨_, rfl⟩, rfl, by decide, rfl⟩

/-- C15, counterexample: the response `{"title":"Cricket","questions":[]}` is accepted with
`success = true` and no question at all; the number of questions is not checked. -/
theorem success_with_no_questions :
    (generateTitleAndQuestions Sample.parseJson
      (.returned (some Sample.noQuestionsText))).success = true ∧
    (generateTitleAndQuestions Sample.parseJson
      (.returned (some Sample.noQuestionsText))).questions.length = 0 ∧
    (generateTitleAndQuestions Sample.parseJson
      (.returned (some Sample.noQuestionsText))).title = "Cricket" := by
  decide!

/-- C15, amended: whenever `generateTitleAndQuestions` returns `success = true`, the title is
a non-empty string and the questions are the array of the parsed response, whatever its
length. -/
theorem success_title_nonempty (parse : String → Option Json) (api : Outcome (Option String))
    (h : (generateTitleAndQuestions parse api).success = true) :
    (generateTitleAndQuestions parse api).title ≠ "" ∧
    ∃ v, parsedValue parse api = some v ∧
      v.get "title" = some (.str (generateTitleAndQuestions parse api).title) ∧
      v.get "questions" = some (.arr (generateTitleAndQuestions parse api).questions) := by
  obtain ⟨v, t, qs, hv, hvalid⟩ := (success_iff_valid parse api).1 h
  have hres := generate_of_valid parse api v t qs hv hvalid
  rw [hres]
  exact ⟨hvalid.2.2.1, v, hv, hvalid.2.1, hvalid.2.2.2⟩

/-- C15, witness: the sample response. -/
theorem success_title_nonempty_witness :
    (generateTitleAndQuestions Sample.parseJson
      (.returned (some Sample.noQuestionsText))).title ≠ "" :=
  (success_title_nonempty Sample.parseJson (.returned (some Sample.noQuestionsText))
    (by decide!)).1

end OpenAIService

namespace Chats

open JS

/-! ## C16, C24: full-document generation -/

theorem preambleSteps_nil : trimL (runSteps OpenAIService.preambleSteps []) = [] := by
  decide!

theorem boldSteps_nil : runSteps GeminiService.boldSteps [] = [] := by
  decide!

/-- C16, counterexample: with an absent response text both services return `success = true`
and the empty string as `researchPage`. -/
theorem empty_output_is_success :
    (OpenAIService.generateResearchPage (.returned none) Sample.args true).success = true ∧
    (OpenAIService.generateResearchPage (.returned none) Sample.args true).researchPage =
      some "" ∧
    (GeminiService.generateResearchPage true (.returned ⟨none, none⟩)).success = true ∧
    (GeminiService.generateResearchPage true (.returned ⟨none, none⟩)).researchPage =
      some "" := by
  decide!

/-- C16, amended: both operations return `success = true` whenever the API call returns, also
when the response text is empty or absent; `researchPage` is then the empty string.  They
return `success = false` only when an exception is thrown: by the call itself, for OpenAI also
by `answers[index]` when the answers are absent for a non-empty question list, for Gemini also
when the API key is not configured. -/
theorem research_page_success_on_empty (args : ResearchArgs) (useWebSearch configured : Bool)
    (openaiApi : Outcome (Option String)) (geminiApi : Outcome GeminiService.Response) :
    (OpenAIService.qaContext args.questions args.answers ≠ none →
      OpenAIService.generateResearchPage (.returned none) args useWebSearch = ⟨true, some ""⟩ ∧
      OpenAIService.generateResearchPage (.returned (some "")) args useWebSearch =
        ⟨true, some ""⟩) ∧
    (∀ r, GeminiService.responseText r = "" →
      GeminiService.generateResearchPage true (.returned r) = ⟨true, some ""⟩) ∧
    ((OpenAIService.generateResearchPage openaiApi args useWebSearch).success = false ↔
      (OpenAIService.qaContext args.questions args.answers = none ∨ openaiApi = .threw)) ∧
    ((GeminiService.generateResearchPage configured geminiApi).success = false ↔
      (configured = false ∨ geminiApi = .threw)) := by
  refine ⟨?_, ?_, ?_, ?_⟩
  · intro hq
    cases hctx : OpenAIService.qaContext args.questions args.answers with
    | none => exact absurd hctx hq
    | some ctx =>
      have h1 : (Email.orElse none "").data = [] := rfl
      have h2 : (Email.orElse (some "") "").data = [] := rfl
      have h3 : trimL ([] : List Char) = [] := rfl
      constructor
      · unfold OpenAIService.generateResearchPage
        simp only [hctx, h1, h3]
        cases useWebSearch <;> simp only [Bool.false_eq_true, if_false, if_true, preambleSteps_nil]
      · unfold OpenAIService.generateResearchPage
        simp only [hctx, h2, h3]
        cases useWebSearch <;> simp only [Bool.false_eq_true, if_false, if_true, preambleSteps_nil]
  · intro r hr
    unfold GeminiService.generateResearchPage
    simp only [Bool.not_true, Bool.false_eq_true, if_false, hr]
    try simp only [show ("" : String).data = [] from rfl]
    rw [boldSteps_nil]
  · unfold OpenAIService.generateResearchPage
    cases hctx : OpenAIService.qaContext args.questions args.answers with
    | none => simp
    | some ctx =>
      cases openaiApi with
      | threw => simp
      | returned t => simp
  · unfold GeminiService.generateResearchPage
    cases configured with
    | false => simp
    | true =>
      cases geminiApi with
      | threw => simp
      | returned r => simp

/-- C16, witness: the sample session with an absent response text. -/
theorem research_page_success_on_empty_witness :
    OpenAIService.generateResearchPage (.returned none) Sample.args true = ⟨true, some ""⟩ :=
  ((research_page_success_on_empty Sample.args true true .threw .threw).1
    (by simp [OpenAIService.qaContext, Sample.args])).1

/-- C24, evaluation at the failing input: of the response
`"Here is your research on cricket:\n\nFindings"` only `"Here is your research "` is removed.
In `/^Here is (?:your|the) (?:comprehensive )?research.*?:?\s*/gi` the lazy `.*?` takes
nothing and `:?` is optional, so the match ends after the blank that follows `research`.  The
preamble is removed as a whole only when the colon follows `research` at once. -/
theorem preamble_with_topic_left_behind :
    (OpenAIService.generateResearchPage
      (.returned (some "Here is your research on cricket:\n\nFindings")) Sample.args
      true).researchPage = some "on cricket:\n\nFindings" ∧
    (OpenAIService.generateResearchPage
      (.returned (some "Here is the comprehensive research:\n\nFindings")) Sample.args
      true).researchPage = some "Findings" := by
  decide!

end Chats

namespace EmailService

open JS Chats

/-! ## C18: the choice of the summary -/

/-- C18 (the summary never blocks delivery): the summary is the summarisation provider's
summary when that call returns success with a non-empty summary, and
`generateSummaryParagraph(combinedMarkdown)` in every other case (the call returns
`success = false`, returns no or an empty summary, or throws); a configured service whose
delivery succeeds returns that summary. -/
theorem summary_choice (combined : String) :
    (∀ s, s ≠ "" → summaryParagraph (.returned ⟨true, some s⟩) combined = s) ∧
    (∀ r : GeminiService.SummaryResult,
      (r.success = false ∨ r.summary = none ∨ r.summary = some "") →
      summaryParagraph (.returned r) combined = generateSummaryParagraph (some combined)) ∧
    summaryParagraph .threw combined = generateSummaryParagraph (some combined) ∧
    (∀ summarize deliver chatgptContent geminiContent messageId,
      deliver (summaryParagraph (summarize (Email.combinedMarkdown chatgptContent geminiContent))
        (Email.combinedMarkdown chatgptContent geminiContent)) = .returned messageId →
      sendCombinedResearchReportSendGrid true true summarize deliver chatgptContent
          geminiContent =
        .ok ⟨true, messageId,
          summaryParagraph (summarize (Email.combinedMarkdown chatgptContent geminiContent))
            (Email.combinedMarkdown chatgptContent geminiContent)⟩) := by
  refine ⟨?_, ?_, rfl, ?_⟩
  · intro s hs
    have he : ¬ s.data.isEmpty = true := fun he => hs ((isEmpty_data_iff s).1 he)
    simp only [summaryParagraph, he, Bool.false_eq_true, if_false]
  · intro r hr
    rcases r with ⟨ok, sm⟩
    rcases hr with h | h | h
    · simp only at h; subst h; rfl
    · simp only at h; subst h; cases ok <;> rfl
    · simp only at h; subst h; cases ok <;> rfl
  · intro summarize deliver chatgptContent geminiContent messageId hd
    unfold sendCombinedResearchReportSendGrid
    simp only [Bool.not_true, Bool.false_eq_true, if_false, hd]

/-- C18, witness: a summarisation call that throws and one that returns a summary. -/
theorem summary_choice_witness :
    summaryParagraph (.returned ⟨true, some "Short summary."⟩) "## ChatGPT (OpenAI)" =
      "Short summary." ∧
    summaryParagraph (.returned ⟨true, some ""⟩) "## ChatGPT (OpenAI)" =
      generateSummaryParagraph (some "## ChatGPT (OpenAI)") :=
  ⟨(summary_choice "## ChatGPT (OpenAI)").1 "Short summary." (by decide),
   (summary_choice "## ChatGPT (OpenAI)").2.1 ⟨true, some ""⟩ (Or.inr (Or.inr rfl))⟩

end EmailService

namespace JS

/-! ## The matcher is sound for the declarative reading -/

theorem repeatM_reach (R : MState → MState → Prop) (m : Matcher) (gs : List Nat)
    (greedy : Bool) (hm : ∀ x k z, m x k = some z → ∃ y, R x y ∧ k y = some z) :
    ∀ fuel min max x c z, repeatM m gs greedy fuel min max x c = some z →
      ∃ y, Iter R gs x y ∧ c y = some z := by
  intro fuel
  induction fuel with
  | zero => intro min max x c z h; simp [repeatM] at h
  | succ fuel ih =>
    intro min max x c z h
    unfold repeatM at h
    simp only at h
    have hmd : m { x with caps := resetCaps gs x.caps } (fun y =>
        if (min == 0 && y.rest.length == x.rest.length) = true then none
        else repeatM m gs greedy fuel (min - 1) (Option.map (fun x => x - 1) max) y c) = some z →
        ∃ y, Iter R gs x y ∧ c y = some z := by
      intro hmz
      obtain ⟨y, hy, hyz⟩ := hm _ _ _ hmz
      split at hyz
      · cases hyz
      · obtain ⟨y2, hy2, hc⟩ := ih _ _ _ _ _ hyz
        exact ⟨y2, Iter.more x y y2 hy hy2, hc⟩
    split at h
    · exact ⟨x, Iter.done x, h⟩
    · split at h
      · exact hmd h
      · split at h
        · split at h
          · rename_i z1 hz1
            cases h
            exact hmd hz1
          · exact ⟨x, Iter.done x, h⟩
        · split at h
          · rename_i z1 hz1
            cases h
            exact ⟨x, Iter.done x, hz1⟩
          · exact hmd h

/-- A successful match has called its continuation on a state that the pattern can reach. -/
theorem compile_reach (fl : Flags) (r : Re) :
    ∀ x k z, compile fl r x k = some z → ∃ y, Reach fl r x y ∧ k y = some z := by
  induction r with
  | eps => intro x k z h; exact ⟨x, rfl, h⟩
  | chr a =>
    intro x k z h
    simp only [compile] at h
    split at h
    · cases h
    · rename_i d ds hr
      split at h
      · rename_i hc
        exact ⟨_, ⟨d, ds, hr, by simpa using hc, rfl⟩, h⟩
      · cases h
  | dot =>
    intro x k z h
    simp only [compile] at h
    split at h
    · cases h
    · rename_i d ds hr
      split at h
      · rename_i hc
        exact ⟨_, ⟨d, ds, hr, hc, rfl⟩, h⟩
      · cases h
  | cls neg items =>
    intro x k z h
    simp only [compile] at h
    split at h
    · cases h
    · rename_i d ds hr
      split at h
      · rename_i hc
        exact ⟨_, ⟨d, ds, hr, hc, rfl⟩, h⟩
      · cases h
  | bol =>
    intro x k z h
    simp only [compile] at h
    split at h
    · exact ⟨x, rfl, h⟩
    · split at h
      · exact ⟨x, rfl, h⟩
      · cases h
  | eol =>
    intro x k z h
    simp only [compile] at h
    split at h
    · rename_i hr
      exact ⟨x, ⟨rfl, Or.inl hr⟩, h⟩
    · rename_i d ds hr
      split at h
      · rename_i hc
        simp only [Bool.and_eq_true] at hc
        exact ⟨x, ⟨rfl, Or.inr ⟨d, ds, hr, hc.2⟩⟩, h⟩
      · cases h
  | seq a b iha ihb =>
    intro x k z h
    simp only [compile] at h
    obtain ⟨m, hm, hmz⟩ := iha _ _ _ h
    obtain ⟨y, hy, hyz⟩ := ihb _ _ _ hmz
    exact ⟨y, ⟨m, hm, hy⟩, hyz⟩
  | alt a b iha ihb =>
    intro x k z h
    simp only [compile] at h
    split at h
    · rename_i z1 hz1
      cases h
      obtain ⟨y, hy, hyz⟩ := iha _ _ _ hz1
      exact ⟨y, Or.inl hy, hyz⟩
    · obtain ⟨y, hy, hyz⟩ := ihb _ _ _ h
      exact ⟨y, Or.inr hy, hyz⟩
  | rep greedy min max r ih =>
    intro x k z h
    simp only [compile] at h
    exact repeatM_reach (Reach fl r) _ _ _ ih _ _ _ _ _ _ h
  | grp i r ih =>
    intro x k z h
    simp only [compile] at h
    obtain ⟨y, hy, hyz⟩ := ih _ _ _ h
    exact ⟨{ y with caps := fun j => if j == i then some (consumed x y) else y.caps j },
      ⟨y, hy, rfl⟩, hyz⟩
  | look neg r ih =>
    intro x k z h
    simp only [compile] at h
    split at h
    · rename_i y hy
      split at h
      · cases h
      · rename_i hneg
        obtain ⟨y1, hy1, hy1z⟩ := ih _ _ _ hy
        cases hy1z
        exact ⟨{ x with caps := y.caps },
          Or.inr ⟨by simpa using hneg, y, hy1, rfl⟩, h⟩
    · split at h
      · rename_i hneg
        exact ⟨x, Or.inl ⟨hneg, rfl⟩, h⟩
      · cases h

/-- What a match reaches is a state further down the same input. -/
theorem reach_suffix (fl : Flags) (r : Re) :
    ∀ x y, Reach fl r x y → ∃ w, x.rest = w ++ y.rest := by
  induction r with
  | eps => intro x y h; cases h; exact ⟨[], rfl⟩
  | chr a =>
    rintro x y ⟨d, ds, hr, _, rfl⟩
    exact ⟨[d], by simp [hr]⟩
  | dot =>
    rintro x y ⟨d, ds, hr, _, rfl⟩
    exact ⟨[d], by simp [hr]⟩
  | cls neg items =>
    rintro x y ⟨d, ds, hr, _, rfl⟩
    exact ⟨[d], by simp [hr]⟩
  | bol => intro x y h; cases h; exact ⟨[], rfl⟩
  | eol => rintro x y ⟨rfl, _⟩; exact ⟨[], rfl⟩
  | seq a b iha ihb =>
    rintro x y ⟨m, hm, hy⟩
    obtain ⟨w1, h1⟩ := iha _ _ hm
    obtain ⟨w2, h2⟩ := ihb _ _ hy
    exact ⟨w1 ++ w2, by rw [h1, h2, List.append_assoc]⟩
  | alt a b iha ihb =>
    rintro x y (h | h)
    · exact iha _ _ h
    · exact ihb _ _ h
  | rep greedy min max r ih =>
    intro x y h
    simp only [Reach] at h
    induction h with
    | done x => exact ⟨[], rfl⟩
    | more x y z hxy _ ihz =>
      obtain ⟨w1, h1⟩ := ih _ _ hxy
      obtain ⟨w2, h2⟩ := ihz
      exact ⟨w1 ++ w2, by
        have : x.rest = w1 ++ y.rest := h1
        rw [this, h2, List.append_assoc]⟩
  | grp i r ih =>
    rintro x y ⟨y0, h0, rfl⟩
    exact ih x y0 h0
  | look neg r _ =>
    rintro x y (⟨_, rfl⟩ | ⟨_, y0, _, rfl⟩)
    · exact ⟨[], rfl⟩
    · exact ⟨[], rfl⟩

theorem consumed_eq {x y : MState} {w : List Char} (h : x.rest = w ++ y.rest) :
    consumed x y = w := by
  unfold consumed
  rw [h]
  simp

theorem resetCaps_nil (caps : Nat → Option (List Char)) : resetCaps [] caps = caps := by
  funext i
  simp [resetCaps]

theorem groups_of_starOnly (r : Re) (h : r.starOnly = true) : r.groups = [] := by
  induction r with
  | eps => rfl
  | chr _ => rfl
  | dot => rfl
  | cls _ _ => rfl
  | bol => rfl
  | eol => rfl
  | seq a b iha ihb =>
    simp only [Re.starOnly, Bool.and_eq_true] at h
    simp [Re.groups, iha h.1, ihb h.2]
  | alt a b iha ihb =>
    simp only [Re.starOnly, Bool.and_eq_true] at h
    simp [Re.groups, iha h.1, ihb h.2]
  | rep _ _ _ r ih =>
    simp only [Re.starOnly] at h
    simp [Re.groups, ih h]
  | grp _ _ _ => simp [Re.starOnly] at h
  | look _ _ _ => simp [Re.starOnly] at h

/-- A pattern of asterisks consumes asterisks only and leaves the captures alone. -/
theorem reach_starOnly (fl : Flags) (hfl : fl.i = false) (r : Re) :
    r.starOnly = true → ∀ x y, Reach fl r x y →
      ∃ w, x.rest = w ++ y.rest ∧ (∀ c ∈ w, c = '*') ∧ y.caps = x.caps := by
  induction r with
  | eps => intro _ x y h; cases h; exact ⟨[], rfl, by simp, rfl⟩
  | chr a =>
    intro hs
    simp only [Re.starOnly, beq_iff_eq] at hs
    rintro x y ⟨d, ds, hr, hc, rfl⟩
    simp only [canon, hfl, Bool.false_eq_true, if_false] at hc
    refine ⟨[d], by simp [hr], ?_, rfl⟩
    intro c hcm
    simp only [List.mem_singleton] at hcm
    rw [hcm, ← hc, hs]
  | dot => intro hs; simp [Re.starOnly] at hs
  | cls _ _ => intro hs; simp [Re.starOnly] at hs
  | bol => intro hs; simp [Re.starOnly] at hs
  | eol => intro hs; simp [Re.starOnly] at hs
  | grp _ _ _ => intro hs; simp [Re.starOnly] at hs
  | look _ _ _ => intro hs; simp [Re.starOnly] at hs
  | seq a b iha ihb =>
    intro hs
    simp only [Re.starOnly, Bool.and_eq_true] at hs
    rintro x y ⟨m, hm, hy⟩
    obtain ⟨w1, h1, hs1, hc1⟩ := iha hs.1 _ _ hm
    obtain ⟨w2, h2, hs2, hc2⟩ := ihb hs.2 _ _ hy
    refine ⟨w1 ++ w2, by rw [h1, h2, List.append_assoc], ?_, by rw [hc2, hc1]⟩
    intro c hc
    rcases List.mem_append.1 hc with h | h
    · exact hs1 c h
    · exact hs2 c h
  | alt a b iha ihb =>
    intro hs
    simp only [Re.starOnly, Bool.and_eq_true] at hs
    rintro x y (h | h)
    · exact iha hs.1 _ _ h
    · exact ihb hs.2 _ _ h
  | rep greedy min max r ih =>
    intro hs
    simp only [Re.starOnly] at hs
    intro x y h
    simp only [Reach] at h
    rw [groups_of_starOnly r hs] at h
    induction h with
    | done x => exact ⟨[], rfl, by simp, rfl⟩
    | more x y z hxy _ ihz =>
      obtain ⟨w1, h1, hs1, hc1⟩ := ih hs _ _ hxy
      obtain ⟨w2, h2, hs2, hc2⟩ := ihz
      refine ⟨w1 ++ w2, ?_, ?_, ?_⟩
      · have : x.rest = w1 ++ y.rest := h1
        rw [this, h2, List.append_assoc]
      · intro c hc
        rcases List.mem_append.1 hc with h | h
        · exact hs1 c h
        · exact hs2 c h
      · rw [hc2, hc1]
        exact resetCaps_nil x.caps

end JS

namespace JS

/-! ## Replacements that only delete asterisks -/

theorem filter_stars_nil {w : List Char} (h : ∀ c ∈ w, c = '*') :
    w.filter (fun c => c != '*') = [] := by
  rw [List.filter_eq_nil_iff]
  intro c hc
  simp [h c hc]

theorem matchAt_reach (fl : Flags) (r : Re) (prev : Option Char) (rest : List Char) (y : MState)
    (h : matchAt fl r prev rest = some y) :
    Reach fl r { prev := prev, rest := rest, caps := fun _ => none } y := by
  obtain ⟨y1, hy1, he⟩ := compile_reach fl r _ _ _ h
  cases he
  exact hy1

/-- If every match is replaced by a text that has the same characters accepted by `p` as the
matched text, the replacement keeps the characters accepted by `p`. -/
theorem replaceScan_filter (p : Char → Bool) (fl : Flags) (r : Re) (tpl : List TItem)
    (hmatch : ∀ prev rest y, matchAt fl r prev rest = some y →
      ∃ w, rest = w ++ y.rest ∧ (expand y.caps tpl).filter p = w.filter p) :
    ∀ (s : List Char) (live : Bool) (skip : Nat) (prev : Option Char),
      (replaceScan fl r tpl live skip prev s).filter p = (s.drop skip).filter p := by
  intro s
  induction s with
  | nil =>
    intro live skip prev
    simp only [replaceScan, List.drop_nil, List.filter_nil]
    split
    · split
      · rename_i y hy
        obtain ⟨w, hw, hf⟩ := hmatch _ _ _ hy
        have hwn : w = [] := (List.append_eq_nil.1 hw.symm).1
        rw [hf, hwn]
        rfl
      · rfl
    · rfl
  | cons c cs ih =>
    intro live skip prev
    cases skip with
    | succ n =>
      simp only [replaceScan, List.drop_succ_cons]
      exact ih _ _ _
    | zero =>
      cases live with
      | false =>
        simp only [replaceScan, List.drop_zero, List.filter_cons]
        have := ih false 0 (some c)
        simp only [List.drop_zero] at this
        rw [this]
      | true =>
        simp only [replaceScan, List.drop_zero]
        split
        · rename_i y hy
          obtain ⟨w, hw, hf⟩ := hmatch _ _ _ hy
          have hlen : (c :: cs).length - y.rest.length = w.length := by
            rw [hw]
            simp
          rw [List.filter_append, hf]
          rw [hlen]
          by_cases hw0 : w.length = 0
          · have hwn : w = [] := List.length_eq_zero.1 hw0
            have := ih fl.g 0 (some c)
            simp only [List.drop_zero] at this
            simp only [hw0, beq_self_eq_true, if_true, hwn, List.filter_nil, List.nil_append,
              List.filter_cons, this, List.length_nil]
          · have hne : (w.length == 0) = false := by simpa using hw0
            simp only [hne, Bool.false_eq_true, if_false]
            rw [ih fl.g (w.length - 1) (some c)]
            have hdrop : cs.drop (w.length - 1) = y.rest := by
              have h1 : (c :: cs).drop w.length = y.rest := by
                rw [hw]
                simp
              have h2 : w.length = (w.length - 1) + 1 := by omega
              rw [h2, List.drop_succ_cons] at h1
              exact h1
            rw [hdrop, hw, List.filter_append]
        · simp only [List.filter_cons]
          have := ih true 0 (some c)
          simp only [List.drop_zero] at this
          rw [this]

end JS

namespace Chats

open JS

/-- A match of a step that can only delete asterisks is replaced by the matched text without
some of its asterisks. -/
theorem matchAt_removesStarsOnly (st : Step) (h : st.removesStarsOnly = true)
    (prev : Option Char) (rest : List Char) (y : MState)
    (hm : matchAt st.fl st.re prev rest = some y) :
    ∃ w, rest = w ++ y.rest ∧
      (expand y.caps st.tpl).filter (fun c => c != '*') = w.filter (fun c => c != '*') := by
  have hreach := matchAt_reach _ _ _ _ _ hm
  rcases st with ⟨fl, re, tpl⟩
  simp only [Step.removesStarsOnly, Bool.and_eq_true, Bool.not_eq_true'] at h
  obtain ⟨hfl, hshape⟩ := h
  simp only at hreach hfl
  split at hshape
  · rename_i a b c
    simp only [Bool.and_eq_true] at hshape
    obtain ⟨m1, hm1, m2, ⟨y0, hy0, hm2⟩, hy⟩ := hreach
    obtain ⟨w1, h1, hs1, _⟩ := reach_starOnly fl hfl a hshape.1 _ _ hm1
    obtain ⟨wb, hb⟩ := reach_suffix fl b _ _ hy0
    obtain ⟨w3, h3, hs3, hc3⟩ := reach_starOnly fl hfl c hshape.2 _ _ hy
    have hcap : y.caps 1 = some wb := by
      rw [hc3, hm2]
      simp [consumed_eq hb]
    have hrest2 : m2.rest = y0.rest := by rw [hm2]
    refine ⟨w1 ++ wb ++ w3, ?_, ?_⟩
    · have e1 : rest = w1 ++ m1.rest := h1
      rw [e1, hb, ← hrest2, h3]
      simp [List.append_assoc]
    · simp only [expand, hcap, Option.getD_some, List.append_nil, List.filter_append,
        filter_stars_nil hs1, filter_stars_nil hs3, List.nil_append]
  · obtain ⟨w, hw, hs, _⟩ := reach_starOnly fl hfl _ hshape _ _ hreach
    exact ⟨w, hw, by simp [expand, filter_stars_nil hs]⟩
  · cases hshape

/-- A chain of steps that can only delete asterisks keeps every other character, in order. -/
theorem runSteps_removesStarsOnly (steps : List Step)
    (h : steps.all Step.removesStarsOnly = true) :
    ∀ s : List Char,
      (runSteps steps s).filter (fun c => c != '*') = s.filter (fun c => c != '*') := by
  induction steps with
  | nil => intro s; rfl
  | cons st rest ih =>
    intro s
    simp only [List.all_cons, Bool.and_eq_true] at h
    rw [runSteps_cons, ih h.2]
    have := replaceScan_filter (fun c => c != '*') st.fl st.re st.tpl
      (matchAt_removesStarsOnly st h.1) s true 0 none
    simpa using this

theorem filter_eq_self_of_star_free {s : List Char} (h : '*' ∉ s) :
    s.filter (fun c => c != '*') = s := by
  rw [List.filter_eq_self]
  intro c hc
  simp only [bne_iff_ne, ne_eq]
  exact fun he => h (he ▸ hc)

end Chats

namespace EmailService

open JS Chats

/-! ## C28: `removeBoldFormatting` deletes the asterisks and nothing else -/

theorem removeBoldSteps_eq_filter (s : List Char) :
    runSteps removeBoldSteps s = s.filter (fun c => c != '*') := by
  have hfree : '*' ∉ runSteps removeBoldSteps s := by
    have hsplit : removeBoldSteps = removeBoldSteps.take 11 ++ [⟨fG, .chr '*', []⟩] := rfl
    rw [hsplit, runSteps_append, runSteps_cons, runSteps_nil]
    exact replaceScan_star_free _ none
  rw [← runSteps_removesStarsOnly removeBoldSteps rfl s]
  exact (filter_eq_self_of_star_free hfree).symm

theorem boldSteps_eq_filter (s : List Char) :
    runSteps GeminiService.boldSteps s = s.filter (fun c => c != '*') := by
  have hfree : '*' ∉ runSteps GeminiService.boldSteps s := by
    have hsplit : GeminiService.boldSteps =
        GeminiService.boldSteps.take 12 ++ [⟨fG, .chr '*', []⟩] := rfl
    rw [hsplit, runSteps_append, runSteps_cons, runSteps_nil]
    exact replaceScan_star_free _ none
  rw [← runSteps_removesStarsOnly GeminiService.boldSteps rfl s]
  exact (filter_eq_self_of_star_free hfree).symm

theorem removeBoldFormatting_eq (s : String) :
    removeBoldFormatting (some s) = String.mk (s.data.filter (fun c => c != '*')) := by
  unfold removeBoldFormatting
  by_cases he : s.data.isEmpty = true
  · have : s.data = [] := List.isEmpty_iff.1 he
    simp only [he, if_true, this, List.filter_nil]
    rfl
  · dsimp only
    rw [if_neg he, removeBoldSteps_eq_filter]

/-- C28 (`removeBoldFormatting` is the deletion of every asterisk): for every string `s`,
`removeBoldFormatting(s)` is `s` with all `*` removed and every other character kept in its
place; hence it is idempotent and the identity on a text without asterisks; the chain that
strips asterisks in `GeminiService.generateResearchPage` computes the same function. -/
theorem removeBoldFormatting_deletes_asterisks (s : String) :
    removeBoldFormatting (some s) = String.mk (s.data.filter (fun c => c != '*')) ∧
    removeBoldFormatting (some (removeBoldFormatting (some s))) =
      removeBoldFormatting (some s) ∧
    ('*' ∉ s.data → removeBoldFormatting (some s) = s) ∧
    runSteps GeminiService.boldSteps s.data = s.data.filter (fun c => c != '*') := by
  refine ⟨removeBoldFormatting_eq s, ?_, ?_, boldSteps_eq_filter s.data⟩
  · rw [removeBoldFormatting_eq, removeBoldFormatting_eq]
    simp only [List.filter_filter, Bool.and_self]
  · intro h
    rw [removeBoldFormatting_eq, filter_eq_self_of_star_free h]

/-- C28, witness: a text without asterisks is returned as it is. -/
theorem removeBoldFormatting_deletes_asterisks_witness :
    removeBoldFormatting (some "plain text") = "plain text" :=
  (removeBoldFormatting_deletes_asterisks "plain text").2.2.1 (by decide)

end EmailService

namespace JS

/-! ## Greedy loops over single characters -/

/-- A greedy quantifier over a one-character matcher that accepts exactly the characters with
`acc`: when the input starts with the run `run` of accepted characters, followed by `tail` that
does not start with an accepted character, and the continuation succeeds after the whole run,
the quantifier returns what the continuation returns there. -/
theorem repeatM_greedy_run (m : Matcher) (acc : Char → Bool)
    (hacc : ∀ (x : MState) (d : Char) (ds : List Char) (k : Cont), x.rest = d :: ds →
      acc d = true → m x k = k { x with prev := some d, rest := ds })
    (hrej : ∀ (x : MState) (k : Cont),
      (x.rest = [] ∨ ∃ d ds, x.rest = d :: ds ∧ acc d = false) → m x k = none)
    (tail : List Char) (htail : tail = [] ∨ ∃ d ds, tail = d :: ds ∧ acc d = false)
    (k : Cont) (z : MState) :
    ∀ (run : List Char) (x : MState) (fuel min : Nat),
      x.rest = run ++ tail → (∀ c ∈ run, acc c = true) → min ≤ run.length →
      min + x.rest.length + 1 ≤ fuel →
      k { prev := prevAfter x.prev run, rest := tail, caps := x.caps } = some z →
      repeatM m [] true fuel min none x k = some z := by
  intro run
  induction run with
  | nil =>
    intro x fuel min hx _ hmin hfuel hk
    have hmin0 : min = 0 := by simpa using hmin
    subst hmin0
    cases fuel with
    | zero => omega
    | succ f =>
      unfold repeatM
      have hx' : x.rest = tail := by simpa using hx
      have hnone : m { x with caps := resetCaps [] x.caps } (fun y =>
          if ((0 : Nat) == 0 && y.rest.length == x.rest.length) = true then none
          else repeatM m [] true f (0 - 1) (Option.map (fun x => x - 1) none) y k) = none := by
        apply hrej
        simpa [hx'] using htail
      simp only [hnone]
      have hxeq : x = { prev := prevAfter x.prev [], rest := tail, caps := x.caps } := by
        cases x
        simp only [prevAfter] at *
        simp_all
      simp only [show ((none : Option Nat) == some 0) = false from rfl, Bool.false_eq_true,
        if_false, show ((0 : Nat) != 0) = false from rfl, if_true]
      rw [hxeq] at *
      exact hk
  | cons d ds ih =>
    intro x fuel min hx hrun hmin hfuel hk
    cases fuel with
    | zero => omega
    | succ f =>
      have hxr : x.rest = d :: (ds ++ tail) := by simpa using hx
      have hd : acc d = true := hrun d (List.mem_cons_self _ _)
      have hlen : x.rest.length = (ds ++ tail).length + 1 := by rw [hxr]; simp
      have hstep : repeatM m [] true f (min - 1) none
          { prev := some d, rest := ds ++ tail, caps := x.caps } k = some z := by
        apply ih { prev := some d, rest := ds ++ tail, caps := x.caps } f (min - 1) rfl
          (fun c hc => hrun c (List.mem_cons_of_mem _ hc))
        · simp only [List.length_cons] at hmin
          omega
        · simp only
          omega
        · exact hk
      unfold repeatM
      have hcall : m { x with caps := resetCaps [] x.caps } (fun y =>
          if (min == 0 && y.rest.length == x.rest.length) = true then none
          else repeatM m [] true f (min - 1) (Option.map (fun x => x - 1) none) y k) =
          some z := by
        rw [hacc { x with caps := resetCaps [] x.caps } d (ds ++ tail) _ hxr hd]
        have hne : ((ds ++ tail).length == x.rest.length) = false := by
          rw [hlen]
          simp
        simp only [hne, Bool.and_false, Bool.false_eq_true, if_false, resetCaps_nil,
          Option.map_none']
        exact hstep
      simp only [show ((none : Option Nat) == some 0) = false from rfl, Bool.false_eq_true,
        if_false, hcall]
      split <;> rfl

theorem compile_chr_acc (fl : Flags) (a : Char) (x : MState) (d : Char) (ds : List Char)
    (k : Cont) (hx : x.rest = d :: ds) (h : (canon fl a == canon fl d) = true) :
    compile fl (.chr a) x k = k { x with prev := some d, rest := ds } := by
  simp only [compile]
  split
  · rename_i h0; rw [hx] at h0; cases h0
  · rename_i d1 ds1 h1
    rw [hx] at h1
    injection h1 with h1 h2
    subst h1; subst h2
    simp [h]

theorem compile_chr_rej (fl : Flags) (a : Char) (x : MState) (k : Cont)
    (h : x.rest = [] ∨ ∃ d ds, x.rest = d :: ds ∧ (canon fl a == canon fl d) = false) :
    compile fl (.chr a) x k = none := by
  simp only [compile]
  split
  · rfl
  · rename_i d1 ds1 h1
    rcases h with h | ⟨d, ds, hx, hd⟩
    · rw [h] at h1; cases h1
    · rw [hx] at h1
      injection h1 with h1 h2
      subst h1
      simp [hd]

theorem compile_cls_acc (fl : Flags) (neg : Bool) (items : List ClassItem) (x : MState)
    (d : Char) (ds : List Char) (k : Cont) (hx : x.rest = d :: ds)
    (h : ((items.any (ClassItem.accepts fl d)) != neg) = true) :
    compile fl (.cls neg items) x k = k { x with prev := some d, rest := ds } := by
  simp only [compile]
  split
  · rename_i h0; rw [hx] at h0; cases h0
  · rename_i d1 ds1 h1
    rw [hx] at h1
    injection h1 with h1 h2
    subst h1; subst h2
    simp [h]

theorem compile_cls_rej (fl : Flags) (neg : Bool) (items : List ClassItem) (x : MState)
    (k : Cont)
    (h : x.rest = [] ∨ ∃ d ds, x.rest = d :: ds ∧
      ((items.any (ClassItem.accepts fl d)) != neg) = false) :
    compile fl (.cls neg items) x k = none := by
  simp only [compile]
  split
  · rfl
  · rename_i d1 ds1 h1
    rcases h with h | ⟨d, ds, hx, hd⟩
    · rw [h] at h1; cases h1
    · rw [hx] at h1
      injection h1 with h1 h2
      subst h1
      simp [hd]

end JS

namespace EmailService

open JS Chats

/-- C30 (as the code behaves): for the normalised link `Docs (https://example.com)` the plain
URL pattern takes the closing parenthesis with it, so the link segment has the text and the
address `https://example.com)` instead of `https://example.com`, and the plain text before it
is `Docs (`. -/
theorem normalized_link_url_has_parenthesis :
    parseTextWithLinks (some "Docs (https://example.com)") =
      [Segment.text "Docs (", Segment.link "https://example.com)" "https://example.com)"] := by
  decide!

end EmailService

namespace JS

/-! ## Deleting the characters of a class -/

/-- Replacing every character of a class by nothing keeps exactly the characters outside the
class. -/
theorem replaceScan_cls_delete (fl : Flags) (hg : fl.g = true) (items : List ClassItem)
    (s : List Char) :
    ∀ prev, replaceScan fl (.cls false items) [] true 0 prev s =
      s.filter (fun c => !(items.any (ClassItem.accepts fl c))) := by
  induction s with
  | nil =>
    intro prev
    simp [replaceScan, matchAt, compile]
  | cons c cs ih =>
    intro prev
    by_cases hc : items.any (ClassItem.accepts fl c) = true
    · have hm : matchAt fl (.cls false items) prev (c :: cs) =
          some { prev := some c, rest := cs, caps := fun _ => none } := by
        unfold matchAt
        rw [compile_cls_acc fl false items _ c cs some rfl (by simp [hc])]
      have hn : ((c :: cs).length - cs.length == 0) = false := by
        simp only [List.length_cons, beq_eq_false_iff_ne, ne_eq]
        omega
      have hn1 : (c :: cs).length - cs.length - 1 = 0 := by
        simp only [List.length_cons]
        omega
      simp only [replaceScan, hm, hn, expand, List.nil_append, Bool.false_eq_true, if_false, hn1,
        hg, ih, List.filter_cons, hc, Bool.not_true]
    · have hm : matchAt fl (.cls false items) prev (c :: cs) = none := by
        unfold matchAt
        apply compile_cls_rej
        right
        exact ⟨c, cs, rfl, by simpa using hc⟩
      simp only [Bool.not_eq_true] at hc
      simp only [replaceScan, hm, ih, List.filter_cons, hc, Bool.not_false, if_true]

end JS

namespace EmailService

open JS Chats

/-! ## The fallback summary -/

theorem class_of_chars_accepts (l : List Char) (c : Char) :
    (l.map ClassItem.ch).any (ClassItem.accepts fG c) = l.contains c := by
  induction l with
  | nil => rfl
  | cons a l ih =>
    have h : ClassItem.accepts fG c (.ch a) = (c == a) := by
      simp only [ClassItem.accepts, canon, fG, Bool.false_eq_true, if_false]
      exact BEq.comm
    simp only [List.map, List.any_cons, ih, List.contains_cons, h]

theorem flattenNewlines_head (s : List Char) (h : s.head? ≠ some '\n') :
    flattenNewlines true s = flattenNewlines false s := by
  cases s with
  | nil => rfl
  | cons c cs =>
    have hc : c ≠ '\n' := by simpa using h
    simp only [flattenNewlines, hc, if_false]

end EmailService

namespace JS

theorem dropWhile_head_rejected (p : Char → Bool) (l : List Char) :
    l.dropWhile p = [] ∨ ∃ d ds, l.dropWhile p = d :: ds ∧ p d = false := by
  induction l with
  | nil => left; rfl
  | cons a l ih =>
    by_cases ha : p a = true
    · simpa [List.dropWhile_cons, ha] using ih
    · right
      refine ⟨a, l, ?_, by simpa using ha⟩
      simp [List.dropWhile_cons, ha]

theorem take_length_takeWhile (p : Char → Bool) (l : List Char) :
    l.take (l.takeWhile p).length = l.takeWhile p := by
  induction l with
  | nil => rfl
  | cons a l ih =>
    by_cases ha : p a = true
    · simp [List.takeWhile_cons, ha, ih]
    · simp [List.takeWhile_cons, ha]

theorem drop_length_takeWhile (p : Char → Bool) (l : List Char) :
    l.drop (l.takeWhile p).length = l.dropWhile p := by
  induction l with
  | nil => rfl
  | cons a l ih =>
    by_cases ha : p a = true
    · simp [List.takeWhile_cons, List.dropWhile_cons, ha, ih]
    · simp [List.takeWhile_cons, List.dropWhile_cons, ha]

theorem length_takeWhile_add (p : Char → Bool) (l : List Char) :
    (l.takeWhile p).length + (l.dropWhile p).length = l.length := by
  induction l with
  | nil => rfl
  | cons a l ih =>
    by_cases ha : p a = true
    · simp [List.takeWhile_cons, List.dropWhile_cons, ha]
      omega
    · simp [List.takeWhile_cons, List.dropWhile_cons, ha]

end JS

namespace EmailService

open JS Chats

/-- A match of `\n+` at a line break takes the whole run of line breaks. -/
theorem matchAt_newlines (prev : Option Char) (cs : List Char) :
    ∃ y, matchAt fG (Re.plus (.chr '\n')) prev ('\n' :: cs) = some y ∧
      y.rest = cs.dropWhile (fun d => d == '\n') := by
  refine ⟨{ prev := prevAfter prev ('\n' :: cs.takeWhile (fun d => d == '\n')),
            rest := cs.dropWhile (fun d => d == '\n'), caps := fun _ => none }, ?_, rfl⟩
  unfold matchAt Re.plus
  simp only [compile]
  apply repeatM_greedy_run (compile fG (.chr '\n')) (fun d => d == '\n')
    (fun x d ds k hx hd => compile_chr_acc fG '\n' x d ds k hx (by
      simp only [canon, fG, Bool.false_eq_true, if_false]
      rw [BEq.comm]; exact hd))
    (fun x k h => compile_chr_rej fG '\n' x k (by
      rcases h with h | ⟨d, ds, hx, hd⟩
      · left; exact h
      · right
        refine ⟨d, ds, hx, ?_⟩
        simp only [canon, fG, Bool.false_eq_true, if_false]
        rw [BEq.comm]; exact hd))
    (cs.dropWhile (fun d => d == '\n')) (dropWhile_head_rejected _ cs) some _
    ('\n' :: cs.takeWhile (fun d => d == '\n'))
  · simp only [List.cons_append, List.takeWhile_append_dropWhile]
  · intro c hc
    rcases List.mem_cons.1 hc with h | h
    · simp [h]
    · exact List.mem_takeWhile_imp (p := fun d => d == '\n') h
  · simp
  · simp only [Re.groups]
    omega
  · rfl

theorem replaceScan_newlines (s : List Char) :
    (∀ prev, replaceScan fG (Re.plus (.chr '\n')) [.text " "] true 0 prev s =
      flattenNewlines false s) ∧
    (∀ k prev, 1 ≤ k → k ≤ s.length → (∀ c ∈ s.take k, c = '\n') →
      (s.drop k).head? ≠ some '\n' →
      replaceScan fG (Re.plus (.chr '\n')) [.text " "] true k prev s =
        flattenNewlines true s) := by
  induction s with
  | nil =>
    refine ⟨?_, ?_⟩
    · intro prev
      have : matchAt fG (Re.plus (.chr '\n')) prev [] = none := by
        unfold matchAt
        exact compile_startsWith_none fG rfl '\n' (Re.plus (.chr '\n')) rfl _ _ (fun d ds h => by cases h)
      simp only [replaceScan, this, if_true, flattenNewlines]
    · intro k prev hk hle
      simp only [List.length_nil] at hle
      omega
  | cons c cs ih =>
    have hdrop : ((cs.dropWhile (fun d => d == '\n')).head? ≠ some '\n') := by
      rcases dropWhile_head_rejected (fun d => d == '\n') cs with h | ⟨d, ds, h, hd⟩
      · rw [h]; simp
      · rw [h]
        simp only [List.head?_cons, ne_eq, Option.some.injEq]
        intro hd2
        subst hd2
        simp at hd
    -- the scan after a run of line breaks of length `j` that starts `cs`
    have hafter : ∀ prev, replaceScan fG (Re.plus (.chr '\n')) [.text " "] true
        (cs.takeWhile (fun d => d == '\n')).length prev cs = flattenNewlines true cs := by
      intro prev
      by_cases hj : (cs.takeWhile (fun d => d == '\n')).length = 0
      · rw [hj, ih.1]
        have h0 := drop_length_takeWhile (fun d => d == '\n') cs
        rw [hj, List.drop_zero] at h0
        rw [flattenNewlines_head]
        rw [h0]
        exact hdrop
      · apply ih.2 _ prev (by omega)
        · have := length_takeWhile_add (fun d => d == '\n') cs
          omega
        · rw [take_length_takeWhile]
          intro c hc
          simpa using List.mem_takeWhile_imp (p := fun d => d == '\n') hc
        · rw [drop_length_takeWhile]
          exact hdrop
    refine ⟨?_, ?_⟩
    · intro prev
      by_cases hc : c = '\n'
      · subst hc
        obtain ⟨y, hy, hrest⟩ := matchAt_newlines prev cs
        have hlen := length_takeWhile_add (fun d => d == '\n') cs
        have hn : (('\n' :: cs).length - y.rest.length == 0) = false := by
          rw [hrest]
          simp only [List.length_cons, beq_eq_false_iff_ne, ne_eq]
          omega
        have hn1 : ('\n' :: cs).length - y.rest.length - 1 =
            (cs.takeWhile (fun d => d == '\n')).length := by
          rw [hrest]
          simp only [List.length_cons]
          omega
        simp only [replaceScan, hy, hn, Bool.false_eq_true, if_false, hn1, expand,
          List.append_nil, flattenNewlines, if_true]
        rw [show fG.g = true from rfl, hafter]
        rfl
      · have hm : matchAt fG (Re.plus (.chr '\n')) prev (c :: cs) = none := by
          unfold matchAt
          exact compile_startsWith_none fG rfl '\n' (Re.plus (.chr '\n')) rfl _ _ (fun d ds h => by
            simp only [List.cons.injEq] at h
            rw [← h.1]; exact hc)
        simp only [replaceScan, hm, ih.1, flattenNewlines, hc, if_false]
    · intro k prev hk hle hall hhead
      obtain ⟨j, rfl⟩ : ∃ j, k = j + 1 := ⟨k - 1, by omega⟩
      have hc : c = '\n' := hall c (by simp)
      simp only [replaceScan, flattenNewlines, hc, if_true]
      by_cases hj : j = 0
      · subst hj
        rw [ih.1]
        simp only [List.drop_succ_cons, List.drop_zero] at hhead
        exact (flattenNewlines_head cs hhead).symm
      · apply ih.2 j _ (by omega)
        · simpa using hle
        · intro d hd
          exact hall d (by simp [List.take_succ_cons, hd])
        · simpa using hhead

end EmailService

namespace JS

/-! ## Length and slices in UTF-16 code units -/

theorem utf16Size_pos (c : Char) : 1 ≤ utf16Size c := by
  unfold utf16Size
  split <;> omega

theorem length_cons (c : Char) (l : List Char) : length (c :: l) = utf16Size c + length l := by
  simp [length]

theorem length_append (a b : List Char) : length (a ++ b) = length a + length b := by
  simp [length]

theorem list_length_le_length (l : List Char) : l.length ≤ length l := by
  induction l with
  | nil => simp [length]
  | cons c l ih =>
    rw [length_cons, List.length_cons]
    have := utf16Size_pos c
    omega

theorem length_sliceTo_le (l : List Char) : ∀ n, length (sliceTo n l) ≤ n := by
  induction l with
  | nil => intro n; simp [sliceTo, length]
  | cons c l ih =>
    intro n
    unfold sliceTo
    split
    · rw [length_cons]
      have := ih (n - utf16Size c)
      omega
    · simp [length]

theorem sliceTo_subset (l : List Char) : ∀ n, ∀ c ∈ sliceTo n l, c ∈ l := by
  induction l with
  | nil => intro n c hc; simp [sliceTo] at hc
  | cons a l ih =>
    intro n c hc
    unfold sliceTo at hc
    split at hc
    · rcases List.mem_cons.1 hc with h | h
      · rw [h]; exact List.mem_cons_self _ _
      · exact List.mem_cons_of_mem _ (ih _ c h)
    · simp at hc

/-- On a text of characters of the Basic Multilingual Plane, code units are characters. -/
theorem length_eq_of_bmp (l : List Char) (h : ∀ c ∈ l, c.toNat < 0x10000) :
    length l = l.length := by
  induction l with
  | nil => simp [length]
  | cons c l ih =>
    rw [length_cons, List.length_cons, ih (fun d hd => h d (List.mem_cons_of_mem _ hd))]
    have hc : utf16Size c = 1 := by
      unfold utf16Size
      rw [if_pos (h c (List.mem_cons_self _ _))]
    omega

theorem sliceTo_eq_take_of_bmp (l : List Char) (h : ∀ c ∈ l, c.toNat < 0x10000) :
    ∀ n, sliceTo n l = l.take n := by
  induction l with
  | nil => intro n; simp [sliceTo]
  | cons c l ih =>
    intro n
    have hc : utf16Size c = 1 := by
      unfold utf16Size
      rw [if_pos (h c (List.mem_cons_self _ _))]
    unfold sliceTo
    rw [hc]
    cases n with
    | zero => simp
    | succ m =>
      rw [if_pos (by omega), ih (fun d hd => h d (List.mem_cons_of_mem _ hd))]
      simp

/-- The slice is an initial part of the text. -/
theorem sliceTo_append (l : List Char) : ∀ n, ∃ rest, l = sliceTo n l ++ rest := by
  induction l with
  | nil => intro n; exact ⟨[], rfl⟩
  | cons c l ih =>
    intro n
    unfold sliceTo
    split
    · obtain ⟨rest, hrest⟩ := ih (n - utf16Size c)
      exact ⟨rest, by rw [List.cons_append, ← hrest]⟩
    · exact ⟨c :: l, rfl⟩

/-- When the cut does not fall inside a surrogate pair, the slice has exactly `n` code
units. -/
theorem length_sliceTo_eq (l : List Char) :
    ∀ n, cutInsidePair n l = false → n ≤ length l → length (sliceTo n l) = n := by
  induction l with
  | nil =>
    intro n _ hn
    simp only [length, List.map_nil, List.sum_nil, Nat.le_zero] at hn
    subst hn
    simp [sliceTo, length]
  | cons c l ih =>
    intro n hcut hn
    rw [length_cons] at hn
    unfold cutInsidePair at hcut
    unfold sliceTo
    by_cases hc : utf16Size c ≤ n
    · rw [if_pos hc] at hcut ⊢
      rw [length_cons, ih (n - utf16Size c) hcut (by omega)]
      omega
    · rw [if_neg hc] at hcut ⊢
      have : n = 0 := by simpa using hcut
      subst this
      simp [length]

theorem cutInsidePair_of_bmp (l : List Char) (h : ∀ c ∈ l, c.toNat < 0x10000) :
    ∀ n, cutInsidePair n l = false := by
  induction l with
  | nil => intro n; rfl
  | cons c l ih =>
    intro n
    have hc : utf16Size c = 1 := by
      unfold utf16Size
      rw [if_pos (h c (List.mem_cons_self _ _))]
    unfold cutInsidePair
    rw [hc]
    cases n with
    | zero => simp
    | succ m =>
      rw [if_pos (by omega)]
      exact ih (fun d hd => h d (List.mem_cons_of_mem _ hd)) _

end JS

namespace EmailService

open JS Chats

theorem flattenNewlines_no_newline (l : List Char) : ∀ b, '\n' ∉ flattenNewlines b l := by
  induction l with
  | nil => intro b; simp [flattenNewlines]
  | cons c l ih =>
    intro b
    unfold flattenNewlines
    by_cases hc : c = '\n'
    · rw [if_pos hc]
      cases b
      · simp only [Bool.false_eq_true, if_false, List.mem_cons, not_or]
        exact ⟨by decide, ih true⟩
      · simp only [if_true]
        exact ih true
    · rw [if_neg hc]
      simp only [List.mem_cons, not_or]
      exact ⟨fun h => hc h.symm, ih false⟩

theorem flattenNewlines_mem (l : List Char) :
    ∀ b, ∀ c ∈ flattenNewlines b l, c = ' ' ∨ c ∈ l := by
  induction l with
  | nil => intro b c hc; simp [flattenNewlines] at hc
  | cons a l ih =>
    intro b c hc
    unfold flattenNewlines at hc
    by_cases ha : a = '\n'
    · rw [if_pos ha] at hc
      cases b
      · simp only [Bool.false_eq_true, if_false, List.mem_cons] at hc
        rcases hc with h | h
        · left; exact h
        · rcases ih true c h with h1 | h1
          · left; exact h1
          · right; exact List.mem_cons_of_mem _ h1
      · simp only [if_true] at hc
        rcases ih true c hc with h1 | h1
        · left; exact h1
        · right; exact List.mem_cons_of_mem _ h1
    · rw [if_neg ha] at hc
      rcases List.mem_cons.1 hc with h | h
      · right; rw [h]; exact List.mem_cons_self _ _
      · rcases ih false c h with h1 | h1
        · left; exact h1
        · right; exact List.mem_cons_of_mem _ h1

/-- The two replacements and the trim of `generateSummaryParagraph` compute `summaryText`. -/
theorem summary_text_eq (s : String) :
    trimL (runSteps summarySteps (removeBoldFormatting (some s)).data) = summaryText s.data := by
  rw [removeBoldFormatting_eq, data_mk]
  unfold summarySteps summaryText
  simp only [runSteps_cons, runSteps_nil, Step.run, replaceL]
  rw [replaceScan_cls_delete fG rfl, (replaceScan_newlines _).1]
  simp only [class_of_chars_accepts, List.filter_filter]
  congr 2
  apply List.filter_congr
  intro c _
  by_cases hc : c = '*'
  · subst hc
    decide
  · simp [hc]

theorem summaryText_mem (l : List Char) : ∀ c ∈ summaryText l, c = ' ' ∨
    (c ∈ l ∧ markupChars.contains c = false) := by
  intro c hc
  unfold summaryText at hc
  rcases flattenNewlines_mem _ false c (trimL_subset _ c hc) with h | h
  · left; exact h
  · right
    rw [List.mem_filter] at h
    exact ⟨h.1, by simpa using h.2⟩

theorem summaryText_no_newline (l : List Char) : '\n' ∉ summaryText l := fun h =>
  flattenNewlines_no_newline _ false (trimL_subset _ _ h)

theorem summaryText_no_asterisk (l : List Char) : '*' ∉ summaryText l := by
  intro h
  rcases summaryText_mem l _ h with h1 | h1
  · exact absurd h1 (by decide)
  · exact absurd h1.2 (by decide)

/-- The text of the summary has only characters of the Basic Multilingual Plane when the
input has. -/
theorem summaryText_bmp (l : List Char) (h : ∀ c ∈ l, c.toNat < 0x10000) :
    ∀ c ∈ summaryText l, c.toNat < 0x10000 := by
  intro c hc
  rcases summaryText_mem _ c hc with h1 | h1
  · rw [h1]; decide
  · exact h c h1.1

/-- C19 (the deterministic fallback summary): write `t` for the input with the markup
characters `#`, `*`, `_`, backtick, `>`, `-` removed, every run of line breaks replaced by one
blank and the ends trimmed.  For every input whose `t`, when it is longer than 650, is not cut
inside a surrogate pair at position 640 (so for every text of the Basic Multilingual Plane),
`generateSummaryParagraph` returns `t` itself when `t` has at most 650 characters, and otherwise
the first 640 characters of `t` followed by the ellipsis character; the result has at most 650
characters and contains no line break and no asterisk; an absent input gives the empty string.
Characters are counted as JavaScript does, in UTF-16 code units. -/
theorem generateSummaryParagraph_spec (s : String)
    (hcut : 650 < JS.length (summaryText s.data) →
      cutInsidePair 640 (summaryText s.data) = false) :
    generateSummaryParagraph (some s) =
      (if JS.length (summaryText s.data) ≤ 650 then String.mk (summaryText s.data)
       else String.mk (sliceTo 640 (summaryText s.data) ++ ['…'])) ∧
    (650 < JS.length (summaryText s.data) →
      JS.length (sliceTo 640 (summaryText s.data)) = 640 ∧
      ∃ rest, summaryText s.data = sliceTo 640 (summaryText s.data) ++ rest) ∧
    JS.length (generateSummaryParagraph (some s)).data ≤ 650 ∧
    (generateSummaryParagraph (some s)).data.length ≤ 650 ∧
    '\n' ∉ (generateSummaryParagraph (some s)).data ∧
    '*' ∉ (generateSummaryParagraph (some s)).data ∧
    generateSummaryParagraph none = "" ∧
    ((∀ c ∈ s.data, c.toNat < 0x10000) →
      JS.length (summaryText s.data) = (summaryText s.data).length ∧
      sliceTo 640 (summaryText s.data) = (summaryText s.data).take 640) := by
  have hgen : generateSummaryParagraph (some s) =
      (if JS.length (summaryText s.data) ≤ 650 then String.mk (summaryText s.data)
       else String.mk (sliceTo 640 (summaryText s.data) ++ ['…'])) := by
    unfold generateSummaryParagraph
    simp only [summary_text_eq]
    by_cases h : JS.length (summaryText s.data) ≤ 650
    · rw [if_pos h, if_neg (by omega)]
    · rw [if_neg h, if_pos (by omega)]
  have hlen : JS.length (generateSummaryParagraph (some s)).data ≤ 650 := by
    rw [hgen]
    by_cases h : JS.length (summaryText s.data) ≤ 650
    · rw [if_pos h, data_mk]
      exact h
    · rw [if_neg h, data_mk, length_append]
      have h1 := length_sliceTo_le (summaryText s.data) 640
      have h2 : JS.length ['…'] = 1 := by decide
      omega
  refine ⟨hgen, ?_, hlen, le_trans (list_length_le_length _) hlen, ?_, ?_, ?_, ?_⟩
  · intro hlong
    exact ⟨length_sliceTo_eq _ 640 (hcut hlong) (by omega), sliceTo_append _ 640⟩
  · rw [hgen]
    by_cases h : JS.length (summaryText s.data) ≤ 650
    · rw [if_pos h, data_mk]
      exact summaryText_no_newline _
    · rw [if_neg h, data_mk]
      intro hm
      rcases List.mem_append.1 hm with h1 | h1
      · exact summaryText_no_newline _ (sliceTo_subset _ _ _ h1)
      · exact absurd h1 (by decide)
  · rw [hgen]
    by_cases h : JS.length (summaryText s.data) ≤ 650
    · rw [if_pos h, data_mk]
      exact summaryText_no_asterisk _
    · rw [if_neg h, data_mk]
      intro hm
      rcases List.mem_append.1 hm with h1 | h1
      · exact summaryText_no_asterisk _ (sliceTo_subset _ _ _ h1)
      · exact absurd h1 (by decide)
  · decide
  · intro hb
    have hb2 := summaryText_bmp s.data hb
    exact ⟨length_eq_of_bmp _ hb2, sliceTo_eq_take_of_bmp _ hb2 640⟩

/-- C19, witness: a heading, a blank line and an emphasised word; the text has characters of
the Basic Multilingual Plane only, so no surrogate pair can be cut. -/
theorem generateSummaryParagraph_spec_witness :
    (∀ c ∈ "# A\n\n*b*".data, c.toNat < 0x10000) ∧
    generateSummaryParagraph (some "# A\n\n*b*") =
      (if JS.length (summaryText "# A\n\n*b*".data) ≤ 650 then
        String.mk (summaryText "# A\n\n*b*".data)
       else String.mk (sliceTo 640 (summaryText "# A\n\n*b*".data) ++ ['…'])) ∧
    JS.length (summaryText "# A\n\n*b*".data) = (summaryText "# A\n\n*b*".data).length :=
  ⟨by decide,
   (generateSummaryParagraph_spec "# A\n\n*b*" (by decide)).1,
   ((generateSummaryParagraph_spec "# A\n\n*b*" (by decide)).2.2.2.2.2.2.2 (by decide)).1⟩

end EmailService

namespace JS

/-! ## Patterns that cannot match a text over a given alphabet -/

theorem compile_blocked (fl : Flags) (A : List Char) (r : Re) :
    r.blockedOn fl A = true → ∀ x k, x.All (fun c => c ∈ A) → compile fl r x k = none := by
  induction r with
  | eps => intro h; simp [Re.blockedOn] at h
  | bol => intro h; simp [Re.blockedOn] at h
  | eol => intro h; simp [Re.blockedOn] at h
  | chr a =>
    intro h x k hx
    simp only [Re.blockedOn, List.all_eq_true, bne_iff_ne, ne_eq] at h
    apply compile_chr_rej
    cases hr : x.rest with
    | nil => left; rfl
    | cons d ds =>
      right
      refine ⟨d, ds, rfl, ?_⟩
      have := h d (hx.1 d (by rw [hr]; exact List.mem_cons_self _ _))
      simpa using this
  | cls neg items =>
    intro h x k hx
    simp only [Re.blockedOn, List.all_eq_true] at h
    apply compile_cls_rej
    cases hr : x.rest with
    | nil => left; rfl
    | cons d ds =>
      right
      refine ⟨d, ds, rfl, ?_⟩
      have := h d (hx.1 d (by rw [hr]; exact List.mem_cons_self _ _))
      simpa using this
  | dot =>
    intro h x k hx
    simp only [Re.blockedOn, List.all_eq_true] at h
    simp only [compile]
    split
    · rfl
    · rename_i d ds hr
      have := h d (hx.1 d (by rw [hr]; exact List.mem_cons_self _ _))
      simp only [Bool.not_eq_true'] at this
      simp only [this, Bool.false_eq_true, if_false]
  | seq a b iha ihb =>
    intro h x k hx
    simp only [Re.blockedOn, Bool.or_eq_true] at h
    simp only [compile]
    rcases h with h | h
    · exact iha h _ _ hx
    · cases hc : compile fl a x (fun y => compile fl b y k) with
      | none => rfl
      | some z =>
        obtain ⟨y, hy, hyz⟩ := compile_all _ fl a _ _ _ hx hc
        rw [ihb h _ _ hy] at hyz
        cases hyz
  | alt a b iha ihb =>
    intro h x k hx
    simp only [Re.blockedOn, Bool.and_eq_true] at h
    simp only [compile, iha h.1 _ _ hx, ihb h.2 _ _ hx]
  | rep greedy min max r ih =>
    intro h x k hx
    simp only [Re.blockedOn, Bool.and_eq_true, bne_iff_ne, ne_eq] at h
    obtain ⟨⟨hmin, hmax⟩, hr⟩ := h
    simp only [compile]
    rw [show min + x.rest.length + 1 = (min + x.rest.length) + 1 from rfl]
    unfold repeatM
    have h1 : (max == some 0) = false := by simpa using hmax
    have h2 : (min != 0) = true := by simpa using hmin
    simp only [h1, Bool.false_eq_true, if_false, h2, if_true]
    exact ih hr _ _ (hx.reset _)
  | grp i r ih =>
    intro h x k hx
    simp only [Re.blockedOn] at h
    simp only [compile]
    exact ih h _ _ hx
  | look neg r ih =>
    intro h x k hx
    simp only [Re.blockedOn, Bool.and_eq_true, Bool.not_eq_true'] at h
    simp only [compile, ih h.2 _ _ hx, h.1, Bool.false_eq_true, if_false]

/-- A replacement whose pattern matches at no position changes nothing. -/
theorem replaceScan_no_match (fl : Flags) (r : Re) (tpl : List TItem) :
    ∀ (s : List Char), (∀ prev sfx, sfx <:+ s → matchAt fl r prev sfx = none) →
      ∀ prev, replaceScan fl r tpl true 0 prev s = s := by
  intro s
  induction s with
  | nil =>
    intro h prev
    simp [replaceScan, h prev [] (List.suffix_refl _)]
  | cons c cs ih =>
    intro h prev
    simp only [replaceScan, h prev (c :: cs) (List.suffix_refl _)]
    rw [ih (fun p sfx hs => h p sfx (hs.trans (List.suffix_cons c cs)))]

theorem replaceL_blocked (fl : Flags) (A : List Char) (r : Re) (hr : r.blockedOn fl A = true)
    (tpl : List TItem) (s : List Char) (hs : ∀ c ∈ s, c ∈ A) : replaceL fl r tpl s = s := by
  apply replaceScan_no_match
  intro prev sfx hsfx
  exact compile_blocked fl A r hr _ _ ⟨fun c hc => hs c (hsfx.subset hc), fun i s h => by cases h⟩

end JS

namespace Chats

open JS

theorem runSteps_blocked (A : List Char) (steps : List Step)
    (h : stepsBlockedOn A steps = true) (s : List Char) (hs : ∀ c ∈ s, c ∈ A) :
    runSteps steps s = s := by
  induction steps with
  | nil => rfl
  | cons st rest ih =>
    simp only [stepsBlockedOn, List.all_cons, Bool.and_eq_true] at h
    rw [runSteps_cons, Step.run, replaceL_blocked st.fl A st.re h.1 st.tpl s hs]
    exact ih h.2

theorem sectionSteps_blocked : stepsBlockedOn linkAlphabet sectionSteps = true := by decide!

theorem emphasisSteps_blocked : stepsBlockedOn linkAlphabet emphasisSteps = true := by decide!

end Chats

namespace JS

/-! ## Literal words compared without case -/

theorem compile_lits_none (fl : Flags) (hi : fl.i = true) :
    ∀ (w : List Char) (x : MState) (k : Cont), startsWithIgnoreCase w x.rest = false →
      compile fl (Re.lits w) x k = none := by
  intro w
  induction w with
  | nil => intro x k h; simp [startsWithIgnoreCase] at h
  | cons c cs ih =>
    intro x k h
    have hstep : ∀ k1 : Cont, (∀ d ds, x.rest = d :: ds →
        (upperAscii c == upperAscii d) = true →
        k1 { x with prev := some d, rest := ds } = none) →
        compile fl (.chr c) x k1 = none := by
      intro k1 hk1
      simp only [compile]
      split
      · rfl
      · rename_i d ds hr
        simp only [canon, hi, if_true]
        split
        · rename_i hcd
          exact hk1 d ds hr hcd
        · rfl
    cases cs with
    | nil =>
      simp only [Re.lits]
      apply hstep
      intro d ds hr hcd
      rw [hr] at h
      simp [startsWithIgnoreCase, hcd] at h
    | cons c2 cs2 =>
      have hc : compile fl (Re.lits (c :: c2 :: cs2)) x k =
          compile fl (.chr c) x (fun y => compile fl (Re.lits (c2 :: cs2)) y k) := rfl
      rw [hc]
      apply hstep
      intro d ds hr hcd
      apply ih
      rw [hr] at h
      simpa [startsWithIgnoreCase, hcd] using h

theorem startsWithIgnoreCase_delim (d : Char) (rest : List Char) :
    ∀ (w a : List Char), (∀ c ∈ w, upperAscii c ≠ upperAscii d) →
      startsWithIgnoreCase w (a ++ d :: rest) = true → startsWithIgnoreCase w a = true := by
  intro w
  induction w with
  | nil => intro a _ _; cases a <;> rfl
  | cons c cs ih =>
    intro a hw h
    cases a with
    | nil =>
      simp only [List.nil_append, startsWithIgnoreCase, Bool.and_eq_true, beq_iff_eq] at h
      exact absurd h.1 (hw c (List.mem_cons_self _ _))
    | cons x a2 =>
      simp only [List.cons_append, startsWithIgnoreCase, Bool.and_eq_true] at h ⊢
      exact ⟨h.1, ih a2 (fun c2 hc2 => hw c2 (List.mem_cons_of_mem _ hc2)) h.2⟩

/-- A word that has no character equal to `d` is not found across `d`. -/
theorem containsIgnoreCase_delim (w : List Char) (hne : w ≠ []) (d : Char)
    (hw : ∀ c ∈ w, upperAscii c ≠ upperAscii d) (rest : List Char)
    (hrest : containsIgnoreCase w rest = false) :
    ∀ a, containsIgnoreCase w a = false → containsIgnoreCase w (a ++ d :: rest) = false := by
  intro a
  induction a with
  | nil =>
    intro _
    simp only [List.nil_append, containsIgnoreCase, hrest, Bool.or_false]
    cases w with
    | nil => exact absurd rfl hne
    | cons c cs =>
      have := hw c (List.mem_cons_self _ _)
      simp [startsWithIgnoreCase, this]
  | cons x a ih =>
    intro h
    simp only [containsIgnoreCase, Bool.or_eq_false_iff] at h
    simp only [List.cons_append, containsIgnoreCase, Bool.or_eq_false_iff]
    refine ⟨?_, ih h.2⟩
    cases hs : startsWithIgnoreCase w (x :: (a ++ d :: rest)) with
    | false => rfl
    | true =>
      have := startsWithIgnoreCase_delim d rest w (x :: a) hw hs
      rw [h.1] at this
      cases this

theorem containsIgnoreCase_nil (w : List Char) (hne : w ≠ []) : containsIgnoreCase w [] = false := by
  cases w with
  | nil => exact absurd rfl hne
  | cons c cs => rfl

theorem startsWith_of_not_contains (w : List Char) :
    ∀ (s sfx : List Char), containsIgnoreCase w s = false → sfx <:+ s →
      startsWithIgnoreCase w sfx = false := by
  intro s
  induction s with
  | nil =>
    intro sfx h hs
    have : sfx = [] := List.eq_nil_of_suffix_nil hs
    subst this
    simpa [containsIgnoreCase] using h
  | cons c cs ih =>
    intro sfx h hs
    simp only [containsIgnoreCase, Bool.or_eq_false_iff] at h
    rcases List.suffix_cons_iff.1 hs with h1 | h1
    · rw [h1]; exact h.1
    · exact ih sfx h.2 h1

/-- A word of letters that occurs neither in `t` nor in `u` does not occur in `[t](u)`. -/
theorem not_contains_link (w t u : List Char) (hne : w ≠ [])
    (hw : ∀ c ∈ w, ∀ d ∈ "[]()".data, upperAscii c ≠ upperAscii d)
    (ht : containsIgnoreCase w t = false) (hu : containsIgnoreCase w u = false) :
    containsIgnoreCase w ('[' :: (t ++ ']' :: '(' :: (u ++ [')']))) = false := by
  have h4 : containsIgnoreCase w (u ++ [')']) = false :=
    containsIgnoreCase_delim w hne ')' (fun c hc => hw c hc _ (by decide)) []
      (containsIgnoreCase_nil w hne) u hu
  have h3 : containsIgnoreCase w ('(' :: (u ++ [')'])) = false :=
    containsIgnoreCase_delim w hne '(' (fun c hc => hw c hc _ (by decide)) _ h4 []
      (containsIgnoreCase_nil w hne)
  have h2 : containsIgnoreCase w (t ++ ']' :: '(' :: (u ++ [')'])) = false :=
    containsIgnoreCase_delim w hne ']' (fun c hc => hw c hc _ (by decide)) _ h3 t ht
  exact containsIgnoreCase_delim w hne '[' (fun c hc => hw c hc _ (by decide)) _ h2 []
    (containsIgnoreCase_nil w hne)

end JS

namespace Chats

open JS JS.Re

/-! ## C23: the header patterns on a link -/

theorem blockedOn_seq_left (fl : Flags) (A : List Char) (a b : Re)
    (h : a.blockedOn fl A = true) : (Re.seq a b).blockedOn fl A = true := by
  simp only [Re.blockedOn, h, Bool.true_or]

theorem compile_alt_none (fl : Flags) (a b : Re) (x : MState) (k : Cont)
    (h1 : compile fl a x k = none) (h2 : compile fl b x k = none) :
    compile fl (.alt a b) x k = none := by
  simp only [compile, h1, h2]

theorem headingStart_blocked : headingStart.blockedOn fGMI linkAlphabet = true := by decide!

/-- A pattern built from a label of two literal words matches nowhere in a text over the link
alphabet that does not contain the second word. -/
theorem splice_two_none (w1 w2 : String) (after : Re) (s : List Char)
    (hs : ∀ c ∈ s, c ∈ linkAlphabet) (hno : containsIgnoreCase w2.data s = false)
    (tpl : List TItem) :
    replaceL fGMI (splice headingStart after [lit w1, lit w2]) tpl s = s := by
  apply replaceScan_no_match
  intro prev sfx hsfx
  have h1 : compile fGMI (seq headingStart (lit w1))
      { prev := prev, rest := sfx, caps := fun _ => none } some = none := by
    apply compile_blocked fGMI linkAlphabet
    · exact blockedOn_seq_left _ _ _ _ headingStart_blocked
    · exact ⟨fun c hc => hs c (hsfx.subset hc), fun i s h => by cases h⟩
  have h2 : compile fGMI (seq (lit w2) after)
      { prev := prev, rest := sfx, caps := fun _ => none } some = none := by
    have hc : compile fGMI (seq (lit w2) after)
        { prev := prev, rest := sfx, caps := fun _ => none } some =
        compile fGMI (lits w2.data) { prev := prev, rest := sfx, caps := fun _ => none }
          (fun y => compile fGMI after y some) := rfl
    rw [hc]
    exact compile_lits_none fGMI rfl _ _ _ (startsWith_of_not_contains _ s sfx hno hsfx)
  have hsp : splice headingStart after [lit w1, lit w2] =
      alt (seq headingStart (lit w1)) (seq (lit w2) after) := rfl
  unfold matchAt
  rw [hsp]
  exact compile_alt_none _ _ _ _ _ h1 h2

theorem headerTail_blocked :
    stepsBlockedOn linkAlphabet ((headerSteps []).drop 2) = true := by decide!

theorem headerSteps_link (w1 w2 : String) (s : List Char)
    (hs : ∀ c ∈ s, c ∈ linkAlphabet) (hno : containsIgnoreCase w2.data s = false) :
    runSteps (headerSteps [lit w1, lit w2]) s = s := by
  have hsplit : headerSteps [lit w1, lit w2] =
      [⟨fGMI, splice headingStart (cat [wsNlStar, lit "Research", wsNlStar]) [lit w1, lit w2], []⟩,
       ⟨fGMI, splice headingStart wsNlStar [lit w1, lit w2], []⟩] ++ (headerSteps []).drop 2 := rfl
  rw [hsplit, runSteps_append, runSteps_cons, runSteps_cons, runSteps_nil]
  simp only [Step.run]
  rw [splice_two_none w1 w2 _ s hs hno, splice_two_none w1 w2 _ s hs hno]
  exact runSteps_blocked linkAlphabet _ headerTail_blocked s hs

end Chats

namespace JS

/-! ## A captured run of class characters -/

theorem compile_seq (fl : Flags) (a b : Re) (x : MState) (k : Cont) :
    compile fl (.seq a b) x k = compile fl a x (fun y => compile fl b y k) := rfl

/-- The pattern `(C+)` for a character class `C`, at a position where a non-empty run `run` of
class characters is followed by `tail` that does not start with one: when the continuation
succeeds after the whole run, the pattern succeeds with the run as its capture. -/
theorem compile_grp_plus_cls (fl : Flags) (i : Nat) (neg : Bool) (items : List ClassItem)
    (x : MState) (run tail : List Char) (k : Cont) (z : MState)
    (hx : x.rest = run ++ tail) (hne : run ≠ [])
    (hrun : ∀ c ∈ run, ((items.any (ClassItem.accepts fl c)) != neg) = true)
    (htail : tail = [] ∨ ∃ d ds, tail = d :: ds ∧
      ((items.any (ClassItem.accepts fl d)) != neg) = false)
    (hk : k { prev := prevAfter x.prev run, rest := tail,
              caps := fun j => if j == i then some run else x.caps j } = some z) :
    compile fl (.grp i (Re.plus (.cls neg items))) x k = some z := by
  have hc : compile fl (.grp i (Re.plus (.cls neg items))) x k =
      repeatM (compile fl (.cls neg items)) [] true (1 + x.rest.length + 1) 1 none x
        (fun y => k { y with caps := fun j => if j == i then some (consumed x y) else y.caps j }) :=
    rfl
  rw [hc]
  apply repeatM_greedy_run (compile fl (.cls neg items))
    (fun d => (items.any (ClassItem.accepts fl d)) != neg)
    (fun x d ds k hx hd => compile_cls_acc fl neg items x d ds k hx hd)
    (fun x k h => compile_cls_rej fl neg items x k h) tail htail _ z run x _ _ hx hrun
  · cases run with
    | nil => exact absurd rfl hne
    | cons a l => simp
  · exact le_refl _
  · have hcon : consumed x { prev := prevAfter x.prev run, rest := tail, caps := x.caps } = run :=
      consumed_eq hx
    simp only [hcon]
    exact hk

/-- After a match that reaches the end of the input nothing more is replaced. -/
theorem replaceScan_skip_all (fl : Flags) (r : Re) (tpl : List TItem)
    (hend : ∀ p, matchAt fl r p [] = none) :
    ∀ (s : List Char) (live : Bool) (prev : Option Char),
      replaceScan fl r tpl live s.length prev s = [] := by
  intro s
  induction s with
  | nil =>
    intro live prev
    cases live <;> simp [replaceScan, hend]
  | cons c cs ih =>
    intro live prev
    simp only [List.length_cons, replaceScan]
    exact ih _ _

end JS

namespace Chats

open JS JS.Re

/-- The link pattern matches the whole of `[t](u)` and captures `t` and `u`. -/
theorem matchAt_link (prev : Option Char) (t u : List Char) (ht : t ≠ []) (hu : u ≠ [])
    (ht2 : ']' ∉ t) (hu2 : ')' ∉ u) :
    matchAt fG (cat [chr '[', grp 1 (plus (cls true [.ch ']'])), chr ']', chr '(',
        grp 2 (plus (cls true [.ch ')'])), chr ')']) prev
      ('[' :: (t ++ ']' :: '(' :: (u ++ [')']))) =
    some { prev := some ')', rest := [],
           caps := fun j => if j == 2 then some u else if j == 1 then some t else none } := by
  have e : cat [chr '[', grp 1 (plus (cls true [.ch ']'])), chr ']', chr '(',
        grp 2 (plus (cls true [.ch ')'])), chr ')'] =
      seq (chr '[') (seq (grp 1 (plus (cls true [.ch ']']))) (seq (chr ']') (seq (chr '(')
        (seq (grp 2 (plus (cls true [.ch ')']))) (chr ')'))))) := rfl
  have hacc : ∀ (a : Char) (l : List Char), a ∉ l →
      ∀ c ∈ l, (([ClassItem.ch a].any (ClassItem.accepts fG c)) != true) = true := by
    intro a l hl c hc
    have : a ≠ c := fun h => hl (h ▸ hc)
    simp [ClassItem.accepts, canon, fG, this]
  have hrej : ∀ (a : Char) (ds : List Char), (a :: ds) = [] ∨ ∃ d ds1, a :: ds = d :: ds1 ∧
      (([ClassItem.ch a].any (ClassItem.accepts fG d)) != true) = false := by
    intro a ds
    right
    exact ⟨a, ds, rfl, by simp [ClassItem.accepts, canon, fG]⟩
  unfold matchAt
  rw [e, compile_seq, compile_chr_acc fG '[' _ '[' _ _ rfl (by decide), compile_seq]
  apply compile_grp_plus_cls fG 1 true [.ch ']'] _ t (']' :: '(' :: (u ++ [')'])) _ _ rfl ht
    (hacc ']' t ht2) (hrej ']' _)
  rw [compile_seq, compile_chr_acc fG ']' _ ']' _ _ rfl (by decide), compile_seq,
    compile_chr_acc fG '(' _ '(' _ _ rfl (by decide), compile_seq]
  apply compile_grp_plus_cls fG 2 true [.ch ')'] _ u [')'] _ _ rfl hu (hacc ')' u hu2)
    (hrej ')' _)
  rw [compile_chr_acc fG ')' _ ')' _ _ rfl (by decide)]

/-- The link step rewrites `[t](u)` to `t (u)`. -/
theorem replaceL_link (t u : List Char) (ht : t ≠ []) (hu : u ≠ [])
    (ht2 : ']' ∉ t) (hu2 : ')' ∉ u) :
    replaceL fG (cat [chr '[', grp 1 (plus (cls true [.ch ']'])), chr ']', chr '(',
        grp 2 (plus (cls true [.ch ')'])), chr ')'])
      [.group 1, .text " (", .group 2, .text ")"]
      ('[' :: (t ++ ']' :: '(' :: (u ++ [')']))) = t ++ ' ' :: '(' :: (u ++ [')']) := by
  have hend : ∀ p, matchAt fG (cat [chr '[', grp 1 (plus (cls true [.ch ']'])), chr ']', chr '(',
        grp 2 (plus (cls true [.ch ')'])), chr ')']) p [] = none := by
    intro p
    exact compile_startsWith_none fG rfl '[' (cat [chr '[', grp 1 (plus (cls true [.ch ']'])),
      chr ']', chr '(', grp 2 (plus (cls true [.ch ')'])), chr ')']) rfl _ _
      (fun d ds h => by cases h)
  unfold replaceL
  simp only [replaceScan, matchAt_link none t u ht hu ht2 hu2, List.length_nil, Nat.sub_zero,
    List.length_cons, Nat.add_sub_cancel, Nat.succ_ne_zero, beq_iff_eq, if_false,
    show fG.g = true from rfl, replaceScan_skip_all fG _ _ hend, expand]
  simp

end Chats

namespace JS

/-! ## Failure of a greedy run -/

/-- A quantifier over a one-character matcher fails when its continuation fails after every
admissible number of characters of the run. -/
theorem repeatM_run_none (m : Matcher) (acc : Char → Bool)
    (hacc : ∀ (x : MState) (d : Char) (ds : List Char) (k : Cont), x.rest = d :: ds →
      acc d = true → m x k = k { x with prev := some d, rest := ds })
    (hrej : ∀ (x : MState) (k : Cont),
      (x.rest = [] ∨ ∃ d ds, x.rest = d :: ds ∧ acc d = false) → m x k = none)
    (tail : List Char) (htail : tail = [] ∨ ∃ d ds, tail = d :: ds ∧ acc d = false)
    (k : Cont) (greedy : Bool) :
    ∀ (run : List Char) (x : MState) (fuel min : Nat),
      x.rest = run ++ tail → (∀ c ∈ run, acc c = true) →
      (∀ j, min ≤ j → j ≤ run.length →
        k { prev := prevAfter x.prev (run.take j), rest := run.drop j ++ tail,
            caps := x.caps } = none) →
      repeatM m [] greedy fuel min none x k = none := by
  intro run
  induction run with
  | nil =>
    intro x fuel min hx _ hk
    cases fuel with
    | zero => rfl
    | succ f =>
      have hx' : x.rest = tail := by simpa using hx
      have hnone : m { x with caps := resetCaps [] x.caps } (fun y =>
          if (min == 0 && y.rest.length == x.rest.length) = true then none
          else repeatM m [] greedy f (min - 1) (Option.map (fun x => x - 1) none) y k) = none := by
        apply hrej
        simpa [hx'] using htail
      unfold repeatM
      simp only [show ((none : Option Nat) == some 0) = false from rfl, Bool.false_eq_true,
        if_false, hnone]
      by_cases hmin : min = 0
      · subst hmin
        have hkx : k x = none := by
          have := hk 0 (le_refl _) (by simp)
          simp only [List.take_nil, prevAfter, List.drop_nil, List.nil_append] at this
          rw [← hx'] at this
          exact this
        simp only [show ((0 : Nat) != 0) = false from rfl, Bool.false_eq_true, if_false, hkx]
        cases greedy <;> rfl
      · have : (min != 0) = true := by simpa using hmin
        simp only [this, if_true]
  | cons d ds ih =>
    intro x fuel min hx hrun hk
    cases fuel with
    | zero => rfl
    | succ f =>
      have hxr : x.rest = d :: (ds ++ tail) := by simpa using hx
      have hd : acc d = true := hrun d (List.mem_cons_self _ _)
      have hstep : repeatM m [] greedy f (min - 1) none
          { prev := some d, rest := ds ++ tail, caps := x.caps } k = none := by
        apply ih { prev := some d, rest := ds ++ tail, caps := x.caps } f (min - 1) rfl
          (fun c hc => hrun c (List.mem_cons_of_mem _ hc))
        intro j hj1 hj2
        have := hk (j + 1) (by omega) (by simp only [List.length_cons]; omega)
        simpa [prevAfter] using this
      have hcall : m { x with caps := resetCaps [] x.caps } (fun y =>
          if (min == 0 && y.rest.length == x.rest.length) = true then none
          else repeatM m [] greedy f (min - 1) (Option.map (fun x => x - 1) none) y k) = none := by
        rw [hacc { x with caps := resetCaps [] x.caps } d (ds ++ tail) _ hxr hd]
        simp only [resetCaps_nil, Option.map_none']
        split
        · rfl
        · exact hstep
      unfold repeatM
      simp only [show ((none : Option Nat) == some 0) = false from rfl, Bool.false_eq_true,
        if_false, hcall]
      by_cases hmin : min = 0
      · subst hmin
        have hkx : k x = none := by
          have := hk 0 (le_refl _) (by simp)
          simp only [List.take_zero, prevAfter, List.drop_zero] at this
          rw [← hx] at this
          exact this
        simp only [show ((0 : Nat) != 0) = false from rfl, Bool.false_eq_true, if_false, hkx]
        cases greedy <;> rfl
      · have : (min != 0) = true := by simpa using hmin
        simp only [this, if_true]

theorem mem_lowerLetters (c : Char) (h : isLowerAscii c = true) : c ∈ lowerLetters := by
  have h1 : 97 ≤ c.toNat ∧ c.toNat ≤ 122 := by simpa [isLowerAscii] using h
  have hc : c = Char.ofNat c.toNat := (Char.ofNat_toNat c).symm
  obtain ⟨n, hn⟩ : ∃ n, c.toNat = n := ⟨_, rfl⟩
  rw [hn] at h1 hc
  rw [hc]
  obtain ⟨h2, h3⟩ := h1
  clear hc hn h
  interval_cases n <;> decide

theorem suffix_concat (sfx X : List Char) (e : Char) (h : sfx <:+ X ++ [e]) :
    sfx = [] ∨ ∃ a, sfx = a ++ [e] := by
  rcases List.eq_nil_or_concat sfx with h0 | ⟨a, b, hab⟩
  · left; exact h0
  · right
    refine ⟨a, ?_⟩
    obtain ⟨p, hp⟩ := h
    rw [hab, List.concat_eq_append, ← List.append_assoc] at hp
    have := List.append_inj_right' hp rfl
    rw [hab, List.concat_eq_append, this]

theorem trimL_eq_self (c e : Char) (m : List Char) (hc : isSpace c = false)
    (he : isSpace e = false) : trimL (c :: (m ++ [e])) = c :: (m ++ [e]) := by
  unfold trimL
  have h1 : (c :: (m ++ [e])).dropWhile isSpace = c :: (m ++ [e]) := by
    simp [List.dropWhile_cons, hc]
  have h2 : (c :: (m ++ [e])).reverse = e :: (m.reverse ++ [c]) := by simp
  have h3 : (e :: (m.reverse ++ [c])).dropWhile isSpace = e :: (m.reverse ++ [c]) := by
    simp [List.dropWhile_cons, he]
  rw [h1, h2, h3]
  simp

end JS

namespace Chats

open JS JS.Re

/-! ## C23: the steps after the link step, and the whole chain -/

/-- The pattern `[ \t]+$` matches nowhere in a text without line breaks that does not end with
a blank or a tab. -/
theorem matchAt_trailing_blanks_none (prev : Option Char) (sfx : List Char)
    (hlt : ∀ c ∈ sfx, isLineTerminator c = false)
    (hlast : sfx = [] ∨ ∃ a e, sfx = a ++ [e] ∧
      (([ClassItem.ch ' ', ClassItem.ch '\t'].any (ClassItem.accepts fGM e)) != false) = false) :
    matchAt fGM (cat [plus (cls false [.ch ' ', .ch '\t']), eol]) prev sfx = none := by
  have hc : matchAt fGM (cat [plus (cls false [.ch ' ', .ch '\t']), eol]) prev sfx =
      repeatM (compile fGM (cls false [.ch ' ', .ch '\t'])) [] true (1 + sfx.length + 1) 1 none
        { prev := prev, rest := sfx, caps := fun _ => none }
        (fun y => compile fGM eol y some) := rfl
  rw [hc]
  apply repeatM_run_none (compile fGM (cls false [.ch ' ', .ch '\t']))
    (fun d => ([ClassItem.ch ' ', ClassItem.ch '\t'].any (ClassItem.accepts fGM d)) != false)
    (fun x d ds k hx hd => compile_cls_acc fGM false _ x d ds k hx hd)
    (fun x k h => compile_cls_rej fGM false _ x k h)
    (sfx.dropWhile (fun d =>
      ([ClassItem.ch ' ', ClassItem.ch '\t'].any (ClassItem.accepts fGM d)) != false))
    (dropWhile_head_rejected _ sfx) _ true
    (sfx.takeWhile (fun d =>
      ([ClassItem.ch ' ', ClassItem.ch '\t'].any (ClassItem.accepts fGM d)) != false))
  · exact (List.takeWhile_append_dropWhile _ sfx).symm
  · intro c hc
    exact List.mem_takeWhile_imp (p := fun d =>
      ([ClassItem.ch ' ', ClassItem.ch '\t'].any (ClassItem.accepts fGM d)) != false) hc
  · intro j hj1 hj2
    generalize hacc : (fun d =>
      ([ClassItem.ch ' ', ClassItem.ch '\t'].any (ClassItem.accepts fGM d)) != false) = acc
      at hj2 ⊢
    have hsplit : sfx = (sfx.takeWhile acc).take j ++
        ((sfx.takeWhile acc).drop j ++ sfx.dropWhile acc) := by
      rw [← List.append_assoc, List.take_append_drop, List.takeWhile_append_dropWhile]
    have htail : sfx.dropWhile acc ≠ [] := by
      intro h0
      rcases hlast with h | ⟨a, e, hae, he⟩
      · rw [h] at hj2
        simp at hj2
        omega
      · rw [List.dropWhile_eq_nil_iff] at h0
        have := h0 e (by rw [hae]; simp)
        rw [← hacc] at this
        dsimp only at this
        rw [he] at this
        cases this
    cases hR : (sfx.takeWhile acc).drop j ++ sfx.dropWhile acc with
    | nil =>
      exfalso
      exact htail (List.append_eq_nil.1 hR).2
    | cons d ds =>
      have hd : d ∈ sfx := by
        rw [hsplit, hR]
        simp
      simp only [compile, hlt d hd, Bool.and_false, Bool.false_eq_true, if_false]

theorem plain_no_lineTerminator : ∀ c ∈ plainLinkAlphabet, isLineTerminator c = false := by
  decide

theorem link_no_bracket : ']' ∉ lowerLetters ∧ ')' ∉ lowerLetters := by decide

theorem lower_not_space : ∀ c ∈ lowerLetters, isSpace c = false := by decide

/-- The pattern `[ \t]+$` changes nothing in `t (u)`. -/
theorem replaceL_trailing_blanks (X : List Char) (hX : ∀ c ∈ X, c ∈ plainLinkAlphabet) :
    replaceL fGM (cat [plus (cls false [.ch ' ', .ch '\t']), eol]) [] (X ++ [')']) =
      X ++ [')'] := by
  apply replaceScan_no_match
  intro prev sfx hsfx
  apply matchAt_trailing_blanks_none
  · intro c hc
    have hm := hsfx.subset hc
    apply plain_no_lineTerminator
    rcases List.mem_append.1 hm with h | h
    · exact hX c h
    · rw [List.mem_singleton.1 h]
      decide
  · rcases suffix_concat sfx X ')' hsfx with h | ⟨a, ha⟩
    · left; exact h
    · right
      exact ⟨a, ')', ha, by decide⟩

theorem tidyMiddle_blocked :
    stepsBlockedOn plainLinkAlphabet ((tidySteps.drop 1).take 3) = true := by decide!

/-- The whole chain on `[t](u)` for a label of two literal words. -/
theorem cleanSteps_link (w1 w2 : String) (t u : List Char) (ht : t ≠ []) (hu : u ≠ [])
    (htl : ∀ c ∈ t, isLowerAscii c = true) (hul : ∀ c ∈ u, isLowerAscii c = true)
    (hw : w2.data ≠ [])
    (hwd : ∀ c ∈ w2.data, ∀ d ∈ "[]()".data, upperAscii c ≠ upperAscii d)
    (hnt : containsIgnoreCase w2.data t = false) (hnu : containsIgnoreCase w2.data u = false) :
    trimL (runSteps (cleanSteps [lit w1, lit w2]) ('[' :: (t ++ ']' :: '(' :: (u ++ [')'])))) =
      t ++ ' ' :: '(' :: (u ++ [')']) := by
  have htL : ∀ c ∈ t, c ∈ lowerLetters := fun c hc => mem_lowerLetters c (htl c hc)
  have huL : ∀ c ∈ u, c ∈ lowerLetters := fun c hc => mem_lowerLetters c (hul c hc)
  have hs0 : ∀ c ∈ ('[' :: (t ++ ']' :: '(' :: (u ++ [')']))), c ∈ linkAlphabet := by
    intro c hc
    simp only [List.mem_cons, List.mem_append, List.mem_singleton, List.not_mem_nil,
      or_false] at hc
    unfold linkAlphabet
    rw [List.mem_append]
    rcases hc with h | h | h | h | h | h
    · right; rw [h]; decide
    · left; exact htL c h
    · right; rw [h]; decide
    · right; rw [h]; decide
    · left; exact huL c h
    · right; rw [h]; decide
  have hs1 : ∀ c ∈ t ++ ' ' :: '(' :: u, c ∈ plainLinkAlphabet := by
    intro c hc
    simp only [List.mem_cons, List.mem_append] at hc
    unfold plainLinkAlphabet
    rw [List.mem_append]
    rcases hc with h | h | h | h
    · left; exact htL c h
    · right; rw [h]; decide
    · right; rw [h]; decide
    · left; exact huL c h
  have hs1full : ∀ c ∈ t ++ ' ' :: '(' :: (u ++ [')']), c ∈ plainLinkAlphabet := by
    intro c hc
    have : t ++ ' ' :: '(' :: (u ++ [')']) = (t ++ ' ' :: '(' :: u) ++ [')'] := by simp
    rw [this, List.mem_append] at hc
    rcases hc with h | h
    · exact hs1 c h
    · rw [List.mem_singleton.1 h]; decide
  have hsplit : tidySteps =
      [⟨fG, cat [chr '[', grp 1 (plus (cls true [.ch ']'])), chr ']', chr '(',
          grp 2 (plus (cls true [.ch ')'])), chr ')'],
        [.group 1, .text " (", .group 2, .text ")"]⟩] ++ (tidySteps.drop 1).take 3 ++
      [⟨fGM, cat [plus (cls false [.ch ' ', .ch '\t']), eol], []⟩] := rfl
  unfold cleanSteps
  rw [runSteps_append, runSteps_append, runSteps_append,
    headerSteps_link w1 w2 _ hs0 (not_contains_link _ t u hw hwd hnt hnu),
    runSteps_blocked linkAlphabet _ sectionSteps_blocked _ hs0,
    runSteps_blocked linkAlphabet _ emphasisSteps_blocked _ hs0,
    hsplit, runSteps_append, runSteps_append, runSteps_cons, runSteps_nil, runSteps_cons,
    runSteps_nil]
  simp only [Step.run]
  rw [replaceL_link t u ht hu (fun h => link_no_bracket.1 (htL _ h))
      (fun h => link_no_bracket.2 (huL _ h)),
    runSteps_blocked plainLinkAlphabet _ tidyMiddle_blocked _ hs1full]
  have e : t ++ ' ' :: '(' :: (u ++ [')']) = (t ++ ' ' :: '(' :: u) ++ [')'] := by simp
  rw [e, replaceL_trailing_blanks _ hs1]
  cases t with
  | nil => exact absurd rfl ht
  | cons c t2 =>
    have hc : isSpace c = false := lower_not_space c (htL c (List.mem_cons_self _ _))
    exact trimL_eq_self c ')' (t2 ++ ' ' :: '(' :: u) hc (by decide)

end Chats

namespace Chats

open JS JS.Re

theorem cleanResearchContent_link (w1 w2 : String) (t u : String)
    (ht : t.data ≠ []) (hu : u.data ≠ [])
    (htl : ∀ c ∈ t.data, isLowerAscii c = true) (hul : ∀ c ∈ u.data, isLowerAscii c = true)
    (hw : w2.data ≠ [])
    (hwd : ∀ c ∈ w2.data, ∀ d ∈ "[]()".data, upperAscii c ≠ upperAscii d)
    (hnt : containsIgnoreCase w2.data t.data = false)
    (hnu : containsIgnoreCase w2.data u.data = false) :
    cleanResearchContent (some ("[" ++ t ++ "](" ++ u ++ ")")) [lit w1, lit w2] =
      t ++ " (" ++ u ++ ")" := by
  have hd : ("[" ++ t ++ "](" ++ u ++ ")").data =
      '[' :: (t.data ++ ']' :: '(' :: (u.data ++ [')'])) := by
    simp [String.data_append]
  unfold cleanResearchContent
  have hne : ("[" ++ t ++ "](" ++ u ++ ")").data.isEmpty = false := by
    rw [hd]; rfl
  dsimp only
  rw [hne, hd]
  simp only [Bool.false_eq_true, if_false]
  rw [cleanSteps_link w1 w2 t.data u.data ht hu htl hul hw hwd hnt hnu]
  apply String.ext
  simp [String.data_append]

/-- C23 (link rewriting): for every non-empty link text `t` and address `u` made only of
lower-case ASCII letters, `cleanResearchContent("[" + t + "](" + u + ")", label)` is
`t + " (" + u + ")"`, for the label `ChatGPT|OpenAI` when neither `t` nor `u` contains
`ChatGPT` or `OpenAI`, and for the label `Gemini|Google` when neither contains `Gemini` or
`Google`.  A text contains a word as the patterns built from the label find it: with the case
of letters ignored (they carry the flag `i`). -/
theorem link_rewriting (t u : String) (ht : t.data ≠ []) (hu : u.data ≠ [])
    (htl : ∀ c ∈ t.data, isLowerAscii c = true) (hul : ∀ c ∈ u.data, isLowerAscii c = true) :
    ((∀ w ∈ ["ChatGPT", "OpenAI"], containsIgnoreCase w.data t.data = false ∧
        containsIgnoreCase w.data u.data = false) →
      cleanResearchContent (some ("[" ++ t ++ "](" ++ u ++ ")")) chatgptLabel =
        t ++ " (" ++ u ++ ")") ∧
    ((∀ w ∈ ["Gemini", "Google"], containsIgnoreCase w.data t.data = false ∧
        containsIgnoreCase w.data u.data = false) →
      cleanResearchContent (some ("[" ++ t ++ "](" ++ u ++ ")")) geminiLabel =
        t ++ " (" ++ u ++ ")") := by
  constructor
  · intro h
    have h2 := h "OpenAI" (by simp)
    exact cleanResearchContent_link "ChatGPT" "OpenAI" t u ht hu htl hul (by decide) (by decide)
      h2.1 h2.2
  · intro h
    have h2 := h "Google" (by simp)
    exact cleanResearchContent_link "Gemini" "Google" t u ht hu htl hul (by decide) (by decide)
      h2.1 h2.2

/-- C23, witness: the link `[docs](example)` under both labels. -/
theorem link_rewriting_witness :
    cleanResearchContent (some ("[" ++ "docs" ++ "](" ++ "example" ++ ")")) chatgptLabel =
      "docs" ++ " (" ++ "example" ++ ")" ∧
    cleanResearchContent (some ("[" ++ "docs" ++ "](" ++ "example" ++ ")")) geminiLabel =
      "docs" ++ " (" ++ "example" ++ ")" :=
  ⟨(link_rewriting "docs" "example" (by decide) (by decide) (by decide) (by decide)).1
      (by decide),
   (link_rewriting "docs" "example" (by decide) (by decide) (by decide) (by decide)).2
      (by decide)⟩

/-- Without the condition on the words of the label the link is not rewritten: in
`[openai](x)` the second header pattern removes `openai`, and the link pattern no longer
matches the empty link text. -/
theorem link_text_with_label_word :
    cleanResearchContent (some "[openai](x)") chatgptLabel = "[](x)" := by
  decide!

end Chats
